import Mathlib

/-!
Reference-counted handles of `shared_ptr.h`.

A shallow embedding of `control_block`, `shared_ptr<T>` and `weak_ptr<T>`.

* Pointers are natural numbers, `0` is `nullptr`.
* The two counters of a control block are `std::atomic<int32_t>`; the value of a
  counter is an `Int` and every read-modify-write wraps into the `int32_t` range.
* The heap holds the storage of the control blocks by address, the set of addresses that
  hold a block at the moment, and two logs: the payload pointers passed to
  `delete object` and the block addresses passed to `delete blk`.  `new` places a block
  at an address that holds none, which may be storage freed by an earlier `delete blk`;
  `delete blk` ends the block, and its storage keeps its content until `new` hands the
  address out again.
* A member function takes the heap and the handle(s) it reads and returns the handle(s)
  it writes and the new heap.
-/

namespace SharedPtr

/-! ## `int32_t` -/

/-- Largest `int32_t`. -/
def INT32_MAX : Int := 2147483647

/-- Smallest `int32_t`. -/
def INT32_MIN : Int := -2147483648

/-- Two's-complement reduction of an integer into the `int32_t` range. -/
def wrap32 (x : Int) : Int := (x + 2147483648) % 4294967296 - 2147483648

/-! ## `class control_block` -/

/-- The two counters of `class control_block`. -/
structure control_block where
  strong : Int
  weak : Int
deriving DecidableEq, Repr

namespace control_block

/-- `constexpr control_block() : strong(1), weak(1) {}` -/
def ctor : control_block := { strong := 1, weak := 1 }

/-- `void inc_strong() { strong.fetch_add(1, relaxed); }` -/
def inc_strong (c : control_block) : control_block :=
  { c with strong := wrap32 (c.strong + 1) }

/-- `void inc_weak() { weak.fetch_add(1, relaxed); }` -/
def inc_weak (c : control_block) : control_block :=
  { c with weak := wrap32 (c.weak + 1) }

/-- `int32_t dec_strong() { return strong.fetch_sub(1, release); }`:
the value before the decrement and the block after it. -/
def dec_strong (c : control_block) : Int × control_block :=
  (c.strong, { c with strong := wrap32 (c.strong - 1) })

/-- `int32_t dec_weak() { return weak.fetch_sub(1, release); }`:
the value before the decrement and the block after it. -/
def dec_weak (c : control_block) : Int × control_block :=
  (c.weak, { c with weak := wrap32 (c.weak - 1) })

/-- `int32_t use_count() { return strong.load(relaxed); }` -/
def use_count (c : control_block) : Int := c.strong

/-- `strong.compare_exchange_weak(expected, desired, acq_rel, relaxed)`: with
`spurious = true` the exchange fails although the value may match.  Returns the
success flag, the new content of `expected` and the block. -/
def compare_exchange_weak (c : control_block) (expected desired : Int) (spurious : Bool) :
    Bool × Int × control_block :=
  if c.strong = expected ∧ spurious = false then
    (true, expected, { c with strong := desired })
  else
    (false, c.strong, c)

end control_block

/-! ## The heap -/

/-- Heap of control blocks with the logs of the two `delete` expressions. -/
structure Heap where
  /-- Content of the control block at each address. -/
  blocks : Nat → control_block
  /-- An address above every address `new` has handed out so far. -/
  next : Nat
  /-- Arguments of the executed `delete object`, newest first (null pointers left out:
  deleting a null pointer does nothing). -/
  deletedObj : List Nat
  /-- Arguments of the executed `delete blk`, newest first. -/
  deletedBlk : List Nat
  /-- The addresses that hold a control block: handed out by `new` and not passed to
  `delete blk` since. -/
  live : Nat → Bool

namespace Heap

/-- Heap before any allocation; address `0` is `nullptr`. -/
def empty : Heap :=
  { blocks := fun _ => { strong := 0, weak := 0 }, next := 1, deletedObj := [], deletedBlk := [],
    live := fun _ => false }

/-- The address `new` returns when the allocator picks the storage at `addr`: `addr` itself
if it is not null and holds no block (it may have been freed by `delete blk`), and
otherwise the address `next`, which has never been handed out. -/
def alloc_addr (h : Heap) (addr : Nat) : Nat :=
  if addr ≠ 0 ∧ h.live addr = false then addr else h.next

/-- `new control_block()` with `addr` the storage the allocator picks: the address of the
new block and the heap holding it. -/
def new_control_block (h : Heap) (addr : Nat) : Nat × Heap :=
  (h.alloc_addr addr,
   { h with blocks := Function.update h.blocks (h.alloc_addr addr) control_block.ctor,
            next := max h.next (h.alloc_addr addr + 1),
            live := Function.update h.live (h.alloc_addr addr) true })

/-- `blk->inc_strong()` -/
def inc_strong (h : Heap) (blk : Nat) : Heap :=
  { h with blocks := Function.update h.blocks blk (h.blocks blk).inc_strong }

/-- `blk->inc_weak()` -/
def inc_weak (h : Heap) (blk : Nat) : Heap :=
  { h with blocks := Function.update h.blocks blk (h.blocks blk).inc_weak }

/-- `blk->dec_strong()` -/
def dec_strong (h : Heap) (blk : Nat) : Int × Heap :=
  ((h.blocks blk).dec_strong.1,
   { h with blocks := Function.update h.blocks blk (h.blocks blk).dec_strong.2 })

/-- `blk->dec_weak()` -/
def dec_weak (h : Heap) (blk : Nat) : Int × Heap :=
  ((h.blocks blk).dec_weak.1,
   { h with blocks := Function.update h.blocks blk (h.blocks blk).dec_weak.2 })

/-- `delete object;` -/
def delete_object (h : Heap) (object : Nat) : Heap :=
  if object = 0 then h else { h with deletedObj := object :: h.deletedObj }

/-- `delete blk;`: the block at `blk` ends and its storage is free for `new`.  The storage
keeps its content, so a later access through a handle that still holds `blk` reads and
writes whatever the storage holds then. -/
def delete_blk (h : Heap) (blk : Nat) : Heap :=
  { h with deletedBlk := blk :: h.deletedBlk, live := Function.update h.live blk false }

/-- Strong counter of the block at `blk`. -/
def strong (h : Heap) (blk : Nat) : Int := (h.blocks blk).strong

/-- Weak counter of the block at `blk`. -/
def weak (h : Heap) (blk : Nat) : Int := (h.blocks blk).weak

end Heap

/-! ## `class shared_ptr<T>` -/

/-- The two fields of `shared_ptr<T>`. -/
structure shared_ptr where
  object : Nat
  blk : Nat
deriving DecidableEq, Repr

/-- The two fields of `weak_ptr<T>`. -/
structure weak_ptr where
  object : Nat
  blk : Nat
deriving DecidableEq, Repr

namespace shared_ptr

/-- `constexpr shared_ptr() noexcept : object(nullptr), blk(nullptr) {}` -/
def ctor_default : shared_ptr := { object := 0, blk := 0 }

/-- `explicit shared_ptr(T *ptr) : object(ptr), blk(new control_block()) {}` with `addr`
the storage the allocator picks. -/
def ctor_raw (h : Heap) (ptr addr : Nat) : shared_ptr × Heap :=
  ({ object := ptr, blk := (h.new_control_block addr).1 }, (h.new_control_block addr).2)

/-- `shared_ptr(const shared_ptr &other)` -/
def ctor_copy (h : Heap) (other : shared_ptr) : shared_ptr × Heap :=
  let this : shared_ptr := { object := other.object, blk := other.blk }
  if this.blk ≠ 0 then (this, h.inc_strong this.blk) else (this, h)

/-- `shared_ptr(shared_ptr &&other)`: the new handle and `other` afterwards. -/
def ctor_move (other : shared_ptr) : shared_ptr × shared_ptr :=
  ({ object := other.object, blk := other.blk }, { object := 0, blk := 0 })

/-- `void release_strong_ref()` -/
def release_strong_ref (h : Heap) (this : shared_ptr) : Heap :=
  if this.blk = 0 then h
  else
    let r := h.dec_strong this.blk
    if r.1 = 1 then
      let h2 := r.2.delete_object this.object
      let w := h2.dec_weak this.blk
      if w.1 = 1 then w.2.delete_blk this.blk else w.2
    else r.2

/-- `shared_ptr<T> &operator=(const shared_ptr &other)`; `self` is `this == &other`. -/
def assign_copy (h : Heap) (this other : shared_ptr) (self : Bool) : shared_ptr × Heap :=
  if self then (this, h)
  else
    let h1 := release_strong_ref h this
    let this1 : shared_ptr := { object := other.object, blk := other.blk }
    if this1.blk ≠ 0 then (this1, h1.inc_strong this1.blk) else (this1, h1)

/-- `shared_ptr<T> &operator=(shared_ptr &&other)`; `self` is `this == &other`.
Returns `*this` and `other` afterwards. -/
def assign_move (this other : shared_ptr) (self : Bool) : shared_ptr × shared_ptr :=
  if self then (this, other)
  else ({ object := other.object, blk := other.blk }, { object := 0, blk := 0 })

/-- `~shared_ptr()` -/
def dtor (h : Heap) (this : shared_ptr) : Heap := release_strong_ref h this

/-- `explicit operator bool() const` -/
def toBool (this : shared_ptr) : Bool := this.blk != 0

/-- `element_type *get() const` -/
def get (this : shared_ptr) : Nat := this.object

/-- `int32_t use_count() const` -/
def use_count (h : Heap) (this : shared_ptr) : Int :=
  if this.blk ≠ 0 then (h.blocks this.blk).use_count else 0

end shared_ptr

/-! ## `class weak_ptr<T>` -/

namespace weak_ptr

/-- `constexpr weak_ptr() noexcept : object(nullptr), blk(nullptr) {}` -/
def ctor_default : weak_ptr := { object := 0, blk := 0 }

/-- `void release_weak_ref()` -/
def release_weak_ref (h : Heap) (this : weak_ptr) : Heap :=
  if this.blk = 0 then h
  else
    let w := h.dec_weak this.blk
    if w.1 = 1 then w.2.delete_blk this.blk else w.2

/-- `weak_ptr(const weak_ptr &other)`.  The constructor calls `release_weak_ref()` before it
has written its fields; `uninit` is the content the fields have at that moment. -/
def ctor_copy (h : Heap) (uninit other : weak_ptr) : weak_ptr × Heap :=
  let h1 := release_weak_ref h uninit
  let this : weak_ptr := { object := other.object, blk := other.blk }
  if this.blk ≠ 0 then (this, h1.inc_weak this.blk) else (this, h1)

/-- `weak_ptr(weak_ptr &&other)`: the new handle and `other` afterwards. -/
def ctor_move (other : weak_ptr) : weak_ptr × weak_ptr :=
  ({ object := other.object, blk := other.blk }, { object := 0, blk := 0 })

/-- `weak_ptr(const shared_ptr<Y> &other)` -/
def ctor_shared (h : Heap) (other : shared_ptr) : weak_ptr × Heap :=
  if other.toBool = false then ({ object := 0, blk := 0 }, h)
  else ({ object := other.object, blk := other.blk }, h.inc_weak other.blk)

/-- `~weak_ptr()` -/
def dtor (h : Heap) (this : weak_ptr) : Heap := release_weak_ref h this

/-- `weak_ptr<T> &operator=(const shared_ptr<Y> &other)` -/
def assign_shared (h : Heap) (this : weak_ptr) (other : shared_ptr) : weak_ptr × Heap :=
  let h1 := release_weak_ref h this
  if other.toBool = false then ({ object := 0, blk := 0 }, h1)
  else ({ object := other.object, blk := other.blk }, h1.inc_weak other.blk)

/-- `weak_ptr<T> &operator=(const weak_ptr &other)`; `self` is `this == &other`. -/
def assign_copy (h : Heap) (this other : weak_ptr) (self : Bool) : weak_ptr × Heap :=
  if self then (this, h)
  else
    let h1 := release_weak_ref h this
    let this1 : weak_ptr := { object := other.object, blk := other.blk }
    if this1.blk ≠ 0 then (this1, h1.inc_weak this1.blk) else (this1, h1)

/-- `weak_ptr<T> &operator=(weak_ptr &&other)`; `self` is `this == &other`.
Returns `*this` and `other` afterwards. -/
def assign_move (this other : weak_ptr) (self : Bool) : weak_ptr × weak_ptr :=
  if self then (this, other)
  else ({ object := other.object, blk := other.blk }, { object := 0, blk := 0 })

/-- `explicit operator bool() const` -/
def toBool (this : weak_ptr) : Bool := this.blk != 0

/-- The `do { ... } while (!compare_exchange_weak(old, old + 1, ...))` loop of `lock()` on
the block at `blk`, with `old` the value loaded so far.  Each pass takes the head of
`spurious` as the outcome of the weak exchange (no entry: no spurious failure) and one
unit of `fuel`.  `some true` is a successful exchange, `some false` the `old == 0`
return, `none` is fuel exhausted. -/
def lock_loop (blk : Nat) : Nat → List Bool → Int → Heap → Option (Bool × Heap)
  | 0, _, _, _ => none
  | fuel + 1, spurious, old, h =>
    if old = 0 then some (false, h)
    else
      let r := (h.blocks blk).compare_exchange_weak old (wrap32 (old + 1)) (spurious.headD false)
      if r.1 then some (true, { h with blocks := Function.update h.blocks blk r.2.2 })
      else lock_loop blk fuel spurious.tail r.2.1 h

/-- `shared_ptr<T> lock()` -/
def lock (h : Heap) (this : weak_ptr) (fuel : Nat) (spurious : List Bool) :
    Option (shared_ptr × Heap) :=
  if this.blk = 0 then some (shared_ptr.ctor_default, h)
  else
    match lock_loop this.blk fuel spurious (h.blocks this.blk).strong h with
    | none => none
    | some (false, h1) => some (shared_ptr.ctor_default, h1)
    | some (true, h1) => some ({ object := this.object, blk := this.blk }, h1)

/-- The exchange loop of `lock()` while other threads operate on the same control block,
with `old` the value loaded so far.  Each pass that reaches the exchange takes the head of
`env`: the content of the block at that moment, as the other threads have left it, and
whether the weak exchange fails spuriously.  The result is the success flag together with
the writes the loop has made, each as the content of the block before and after the
write; `none` means that the schedule `env` ends while the loop is still retrying. -/
def lock_loop_shared : List (control_block × Bool) → Int →
    Option (Bool × List (control_block × control_block))
  | [], old => if old = 0 then some (false, []) else none
  | e :: env, old =>
    if old = 0 then some (false, [])
    else
      let r := e.1.compare_exchange_weak old (wrap32 (old + 1)) e.2
      if r.1 then some (true, [(e.1, r.2.2)])
      else lock_loop_shared env r.2.1

/-- `shared_ptr<T> lock()` while other threads operate on the same control block: `loaded`
is the value `strong.load()` returns and `env` the schedule of the exchanges.  Returns the
handle and the writes `lock()` has made to the block. -/
def lock_shared (this : weak_ptr) (loaded : Int) (env : List (control_block × Bool)) :
    Option (shared_ptr × List (control_block × control_block)) :=
  if this.blk = 0 then some (shared_ptr.ctor_default, [])
  else
    match lock_loop_shared env loaded with
    | none => none
    | some (false, ws) => some (shared_ptr.ctor_default, ws)
    | some (true, ws) => some ({ object := this.object, blk := this.blk }, ws)

/-- The schedule of a `lock()` that no other thread disturbs: every exchange finds the block
with the content `c`, and the exchanges fail spuriously as listed, the one after the list
not. -/
def quiet (c : control_block) (spurious : List Bool) : List (control_block × Bool) :=
  spurious.map (fun s => (c, s)) ++ [(c, false)]

/-- `int32_t use_count() const` -/
def use_count (h : Heap) (this : weak_ptr) : Int :=
  if this.blk ≠ 0 then (h.blocks this.blk).use_count else 0

/-- `bool expired() const` -/
def expired (h : Heap) (this : weak_ptr) : Bool := decide (use_count h this = 0)

end weak_ptr

/-! ## Programs over handle variables

A program state is the heap together with the strong and the weak handle variables that
have been constructed so far; a destroyed variable is `none` and is never used again.
An operation names the variables it works on by their index.  The handle a constructor or
`lock()` produces becomes a new variable at the end of the list. -/

/-- Heap, strong handle variables and weak handle variables. -/
structure State where
  heap : Heap
  sp : List (Option shared_ptr)
  wp : List (Option weak_ptr)

/-- The public operations of the two handle classes. -/
inductive Op where
  /-- `shared_ptr<T> x;` -/
  | sp_default
  /-- `shared_ptr<T> x(ptr);` with `addr` the storage the allocator picks for the control
  block (see `Heap.alloc_addr`). -/
  | sp_raw (ptr addr : Nat)
  /-- `shared_ptr<T> x(sp[src]);` -/
  | sp_copy (src : Nat)
  /-- `shared_ptr<T> x(std::move(sp[src]));` -/
  | sp_move (src : Nat)
  /-- `sp[dst] = sp[src];` -/
  | sp_assign_copy (dst src : Nat)
  /-- `sp[dst] = std::move(sp[src]);` -/
  | sp_assign_move (dst src : Nat)
  /-- `sp[i]` goes out of scope. -/
  | sp_dtor (i : Nat)
  /-- `weak_ptr<T> x;` -/
  | wp_default
  /-- `weak_ptr<T> x(wp[src]);` with `uninit` the content of the fields of `x` on entry. -/
  | wp_copy (src : Nat) (uninit : weak_ptr)
  /-- `weak_ptr<T> x(std::move(wp[src]));` -/
  | wp_move (src : Nat)
  /-- `weak_ptr<T> x(sp[src]);` -/
  | wp_shared (src : Nat)
  /-- `wp[i]` goes out of scope. -/
  | wp_dtor (i : Nat)
  /-- `wp[dst] = sp[src];` -/
  | wp_assign_shared (dst src : Nat)
  /-- `wp[dst] = wp[src];` -/
  | wp_assign_copy (dst src : Nat)
  /-- `wp[dst] = std::move(wp[src]);` -/
  | wp_assign_move (dst src : Nat)
  /-- `shared_ptr<T> x = wp[src].lock();` with the outcomes of the weak exchanges. -/
  | wp_lock (src : Nat) (spurious : List Bool)

namespace State

/-- State of a program that has constructed nothing yet. -/
def init : State := { heap := Heap.empty, sp := [], wp := [] }

/-- The strong handle variable `i`, if it is alive. -/
def shared (σ : State) (i : Nat) : Option shared_ptr := σ.sp.getD i none

/-- The weak handle variable `i`, if it is alive. -/
def weakv (σ : State) (i : Nat) : Option weak_ptr := σ.wp.getD i none

/-- One operation.  An operation that names a variable that is not alive does nothing. -/
def step (σ : State) : Op → State
  | .sp_default => { σ with sp := σ.sp ++ [some shared_ptr.ctor_default] }
  | .sp_raw ptr addr =>
    let r := shared_ptr.ctor_raw σ.heap ptr addr
    { σ with heap := r.2, sp := σ.sp ++ [some r.1] }
  | .sp_copy src =>
    match σ.shared src with
    | some other =>
      let r := shared_ptr.ctor_copy σ.heap other
      { σ with heap := r.2, sp := σ.sp ++ [some r.1] }
    | none => σ
  | .sp_move src =>
    match σ.shared src with
    | some other =>
      let r := shared_ptr.ctor_move other
      { σ with sp := σ.sp.set src (some r.2) ++ [some r.1] }
    | none => σ
  | .sp_assign_copy dst src =>
    match σ.shared dst, σ.shared src with
    | some this, some other =>
      let r := shared_ptr.assign_copy σ.heap this other (dst == src)
      { σ with heap := r.2, sp := σ.sp.set dst (some r.1) }
    | _, _ => σ
  | .sp_assign_move dst src =>
    match σ.shared dst, σ.shared src with
    | some this, some other =>
      let r := shared_ptr.assign_move this other (dst == src)
      { σ with sp := (σ.sp.set src (some r.2)).set dst (some r.1) }
    | _, _ => σ
  | .sp_dtor i =>
    match σ.shared i with
    | some this => { σ with heap := shared_ptr.dtor σ.heap this, sp := σ.sp.set i none }
    | none => σ
  | .wp_default => { σ with wp := σ.wp ++ [some weak_ptr.ctor_default] }
  | .wp_copy src uninit =>
    match σ.weakv src with
    | some other =>
      let r := weak_ptr.ctor_copy σ.heap uninit other
      { σ with heap := r.2, wp := σ.wp ++ [some r.1] }
    | none => σ
  | .wp_move src =>
    match σ.weakv src with
    | some other =>
      let r := weak_ptr.ctor_move other
      { σ with wp := σ.wp.set src (some r.2) ++ [some r.1] }
    | none => σ
  | .wp_shared src =>
    match σ.shared src with
    | some other =>
      let r := weak_ptr.ctor_shared σ.heap other
      { σ with heap := r.2, wp := σ.wp ++ [some r.1] }
    | none => σ
  | .wp_dtor i =>
    match σ.weakv i with
    | some this => { σ with heap := weak_ptr.dtor σ.heap this, wp := σ.wp.set i none }
    | none => σ
  | .wp_assign_shared dst src =>
    match σ.weakv dst, σ.shared src with
    | some this, some other =>
      let r := weak_ptr.assign_shared σ.heap this other
      { σ with heap := r.2, wp := σ.wp.set dst (some r.1) }
    | _, _ => σ
  | .wp_assign_copy dst src =>
    match σ.weakv dst, σ.weakv src with
    | some this, some other =>
      let r := weak_ptr.assign_copy σ.heap this other (dst == src)
      { σ with heap := r.2, wp := σ.wp.set dst (some r.1) }
    | _, _ => σ
  | .wp_assign_move dst src =>
    match σ.weakv dst, σ.weakv src with
    | some this, some other =>
      let r := weak_ptr.assign_move this other (dst == src)
      { σ with wp := (σ.wp.set src (some r.2)).set dst (some r.1) }
    | _, _ => σ
  | .wp_lock src spurious =>
    match σ.weakv src with
    | some this =>
      match weak_ptr.lock σ.heap this (spurious.length + 1) spurious with
      | some r => { σ with heap := r.2, sp := σ.sp ++ [some r.1] }
      | none => σ
    | none => σ

/-- A sequence of operations, first to last. -/
def run (σ : State) (ops : List Op) : State := ops.foldl step σ

/-- Does the strong handle variable `o` reference the block at `b`? -/
def sp_on (b : Nat) (o : Option shared_ptr) : Bool :=
  match o with
  | some x => x.blk == b
  | none => false

/-- Does the weak handle variable `o` reference the block at `b`? -/
def wp_on (b : Nat) (o : Option weak_ptr) : Bool :=
  match o with
  | some x => x.blk == b
  | none => false

/-- Number of live strong handles that reference the block at `b`. -/
def strong_refs (σ : State) (b : Nat) : Nat := σ.sp.countP (sp_on b)

/-- Number of live weak handles that reference the block at `b`. -/
def weak_refs (σ : State) (b : Nat) : Nat := σ.wp.countP (wp_on b)

/-- Every handle variable has been destroyed. -/
def all_destroyed (σ : State) : Bool :=
  σ.sp.all (fun o => o.isNone) && σ.wp.all (fun o => o.isNone)

/-- Number of times the payload `p` has been passed to `delete object`. -/
def payload_deletes (σ : State) (p : Nat) : Nat := σ.heap.deletedObj.count p

/-- Number of times the block at `b` has been passed to `delete blk`. -/
def block_deletes (σ : State) (b : Nat) : Nat := σ.heap.deletedBlk.count b

end State

/-- The state after constructing a handle from the raw pointer `7` and copying it `n`
times. -/
@[irreducible] def copies (n : Nat) : State :=
  State.init.run (Op.sp_raw 7 0 :: List.replicate n (Op.sp_copy 0))

/-- The state after `2^31 - 2` copies of one handle. -/
def saturated : State := copies 2147483646

/-- The state after `2^32 - 1` copies of one handle. -/
def wrapped : State := copies 4294967295

/-- Every live variable of a list of handle variables satisfies `P`. -/
def live_all {α : Type} (P : α → Prop) (l : List (Option α)) : Prop :=
  ∀ x, some x ∈ l → P x

/-- The fields of a handle agree on being null: a null block comes with a null payload
pointer, and, when `strict` holds, a null payload pointer comes with a null block. -/
def null_ok (strict : Prop) (object blk : Nat) : Prop :=
  (blk = 0 → object = 0) ∧ (strict → object = 0 → blk = 0)

/-- The allocator never hands out `nullptr`, and every address that holds a block lies below
`next`. -/
def Heap.alloc_inv (h : Heap) : Prop :=
  h.live 0 = false ∧ 1 ≤ h.next ∧ ∀ b, h.live b = true → b < h.next

/-- The allocator never hands out `nullptr` and the fields of every live handle agree on
being null. -/
def State.null_inv (strict : Prop) (σ : State) : Prop :=
  σ.heap.alloc_inv ∧
  live_all (fun x : shared_ptr => null_ok strict x.object x.blk) σ.sp ∧
  live_all (fun w : weak_ptr => null_ok strict w.object w.blk) σ.wp

/-- The state after `2^31 - 1` copies of one handle. -/
def overflowed : State := copies 2147483647

/-- The state after `2^32` copies of one handle. -/
def rewrapped : State := copies 4294967296

/-- Every live handle on a non-null block holds the payload pointer `f` assigns to the
block. -/
def State.payload_of (f : Nat → Nat) (σ : State) : Prop :=
  live_all (fun x : shared_ptr => x.blk ≠ 0 → x.object = f x.blk) σ.sp ∧
  live_all (fun w : weak_ptr => w.blk ≠ 0 → w.object = f w.blk) σ.wp

/-- Counting invariant of a heap against the numbers `rs b` and `rw b` of live strong and
weak handles on the address `b`.  No live handle references an address that holds no
block.  For an address that holds a block, the strong counter is at least the number of
live strong handles and at most `INT32_MAX`, and the weak counter is at least `1`, at
least the number of live weak handles plus the one unit the strong handles hold together
while the strong counter is positive, and at most `INT32_MAX`. -/
def Heap.counted (h : Heap) (rs rw : Nat → Nat) : Prop :=
  h.alloc_inv ∧
  (∀ b, b ≠ 0 → h.live b = false → rs b = 0 ∧ rw b = 0) ∧
  (∀ b, h.live b = true →
    (rs b : Int) ≤ h.strong b ∧ h.strong b ≤ INT32_MAX ∧
    (rw b : Int) + (if 1 ≤ h.strong b then 1 else 0) ≤ h.weak b ∧
    1 ≤ h.weak b ∧ h.weak b ≤ INT32_MAX)

/-- The counting invariant of a state: that of its heap against its live handles. -/
def State.counted (σ : State) : Prop := σ.heap.counted σ.strong_refs σ.weak_refs

/-- What a transition from heap `h` to heap `h2` keeps of the block at `b`: the log of
`delete blk` is only extended, and a block at `b` whose strong counter is `0` in `h` and
that is not passed to `delete blk` on the way is still there in `h2` with strong counter
`0`. -/
def Heap.keeps (b : Nat) (h h2 : Heap) : Prop :=
  h.deletedBlk.count b ≤ h2.deletedBlk.count b ∧
  (h.live b = true → h.strong b = 0 → h2.deletedBlk.count b = h.deletedBlk.count b →
    h2.live b = true ∧ h2.strong b = 0)

/-- Does the operation apply `fetch_add(1)` or the exchange of `lock()` to a counter that
holds `INT32_MAX`? -/
def State.wraps (σ : State) : Op → Bool
  | .sp_copy src =>
    match σ.shared src with
    | some other => other.blk != 0 && decide (σ.heap.strong other.blk = INT32_MAX)
    | none => false
  | .sp_assign_copy dst src =>
    match σ.shared dst, σ.shared src with
    | some this, some other =>
      !(dst == src) && (other.blk != 0 &&
        decide ((shared_ptr.release_strong_ref σ.heap this).strong other.blk = INT32_MAX))
    | _, _ => false
  | .wp_copy src uninit =>
    match σ.weakv src with
    | some other =>
      other.blk != 0 &&
        decide ((weak_ptr.release_weak_ref σ.heap uninit).weak other.blk = INT32_MAX)
    | none => false
  | .wp_shared src =>
    match σ.shared src with
    | some other => other.blk != 0 && decide (σ.heap.weak other.blk = INT32_MAX)
    | none => false
  | .wp_assign_shared dst src =>
    match σ.weakv dst, σ.shared src with
    | some this, some other =>
      other.blk != 0 &&
        decide ((weak_ptr.release_weak_ref σ.heap this).weak other.blk = INT32_MAX)
    | _, _ => false
  | .wp_assign_copy dst src =>
    match σ.weakv dst, σ.weakv src with
    | some this, some other =>
      !(dst == src) && (other.blk != 0 &&
        decide ((weak_ptr.release_weak_ref σ.heap this).weak other.blk = INT32_MAX))
    | _, _ => false
  | .wp_lock src _ =>
    match σ.weakv src with
    | some this => this.blk != 0 && decide (σ.heap.strong this.blk = INT32_MAX)
    | none => false
  | _ => false

/-- No operation of the sequence, run from `σ`, increments a counter that holds
`INT32_MAX`. -/
def State.never_wraps : State → List Op → Bool
  | _, [] => true
  | σ, op :: ops => !σ.wraps op && (σ.step op).never_wraps ops

/-- Does the operation read or write a counter through a non-null pointer to an address
that holds no block at that moment, that is, does it use a block after it has been
freed? -/
def State.dangles (σ : State) : Op → Bool
  | .sp_copy src =>
    match σ.shared src with
    | some other => other.blk != 0 && !σ.heap.live other.blk
    | none => false
  | .sp_assign_copy dst src =>
    match σ.shared dst, σ.shared src with
    | some this, some other =>
      !(dst == src) && ((this.blk != 0 && !σ.heap.live this.blk) ||
        (other.blk != 0 && !(shared_ptr.release_strong_ref σ.heap this).live other.blk))
    | _, _ => false
  | .sp_dtor i =>
    match σ.shared i with
    | some this => this.blk != 0 && !σ.heap.live this.blk
    | none => false
  | .wp_copy src uninit =>
    match σ.weakv src with
    | some other =>
      (uninit.blk != 0 && !σ.heap.live uninit.blk) ||
        (other.blk != 0 && !(weak_ptr.release_weak_ref σ.heap uninit).live other.blk)
    | none => false
  | .wp_shared src =>
    match σ.shared src with
    | some other => other.blk != 0 && !σ.heap.live other.blk
    | none => false
  | .wp_dtor i =>
    match σ.weakv i with
    | some this => this.blk != 0 && !σ.heap.live this.blk
    | none => false
  | .wp_assign_shared dst src =>
    match σ.weakv dst, σ.shared src with
    | some this, some other =>
      (this.blk != 0 && !σ.heap.live this.blk) ||
        (other.blk != 0 && !(weak_ptr.release_weak_ref σ.heap this).live other.blk)
    | _, _ => false
  | .wp_assign_copy dst src =>
    match σ.weakv dst, σ.weakv src with
    | some this, some other =>
      !(dst == src) && ((this.blk != 0 && !σ.heap.live this.blk) ||
        (other.blk != 0 && !(weak_ptr.release_weak_ref σ.heap this).live other.blk))
    | _, _ => false
  | .wp_lock src _ =>
    match σ.weakv src with
    | some this => this.blk != 0 && !σ.heap.live this.blk
    | none => false
  | _ => false

/-- No operation of the sequence, run from `σ`, uses a block after it has been freed. -/
def State.never_dangles : State → List Op → Bool
  | _, [] => true
  | σ, op :: ops => !σ.dangles op && (σ.step op).never_dangles ops

/-- Is the operation a copy construction of a weak handle whose fields hold a non-null
block on entry, so that the release at the start of the constructor acts on it? -/
def Op.stale : Op → Bool
  | .wp_copy _ uninit => uninit.blk != 0
  | _ => false

/-- No copy construction of a weak handle in the sequence starts from non-null fields. -/
def stale_free (ops : List Op) : Bool := ops.all (fun op => !op.stale)

/-- What one operation from a state `σ` with the counting invariant to `τ` keeps: the
counting invariant, and every block whose strong counter is `0`. -/
def State.step_ok (σ τ : State) : Prop :=
  τ.counted ∧ ∀ b, σ.heap.keeps b τ.heap

/-- The state after constructing a handle from the raw pointer `7` and constructing `n`
weak handles from it. -/
@[irreducible] def observed (n : Nat) : State :=
  State.init.run (Op.sp_raw 7 0 :: List.replicate n (Op.wp_shared 0))

/-! ## Arithmetic of `int32_t` -/

theorem wrap32_of_range {x : Int} (h1 : INT32_MIN ≤ x) (h2 : x ≤ INT32_MAX) : wrap32 x = x := by
  unfold wrap32
  unfold INT32_MIN at h1
  unfold INT32_MAX at h2
  omega

theorem wrap32_add_one_wrap32 (x : Int) (n : Int) :
    wrap32 (wrap32 (x + 1) + n) = wrap32 (x + (n + 1)) := by
  unfold wrap32
  omega

theorem wrap32_pred_succ {x : Int} (h1 : INT32_MIN ≤ x) (h2 : x ≤ INT32_MAX) :
    wrap32 (wrap32 (x + 1) - 1) = x := by
  unfold wrap32
  unfold INT32_MIN at h1
  unfold INT32_MAX at h2
  omega

theorem wrap32_succ_ne_one {x : Int} (h1 : INT32_MIN ≤ x) (h2 : x ≤ INT32_MAX) (h0 : x ≠ 0) :
    wrap32 (x + 1) ≠ 1 := by
  unfold wrap32
  unfold INT32_MIN at h1
  unfold INT32_MAX at h2
  omega

theorem wrap32_range (x : Int) : INT32_MIN ≤ wrap32 x ∧ wrap32 x ≤ INT32_MAX := by
  unfold wrap32 INT32_MIN INT32_MAX
  omega

theorem wrap32_succ_pred {x : Int} (h1 : INT32_MIN ≤ x) (h2 : x ≤ INT32_MAX) :
    wrap32 (wrap32 (x - 1) + 1) = x := by
  unfold wrap32
  unfold INT32_MIN at h1
  unfold INT32_MAX at h2
  omega

/-! ## The heap operations -/

theorem dec_strong_facts (h : Heap) (a : Nat) :
    (h.dec_strong a).2.strong a = wrap32 (h.strong a - 1) ∧
    (∀ b, (h.dec_strong a).2.weak b = h.weak b) ∧
    (∀ b, b ≠ a → (h.dec_strong a).2.blocks b = h.blocks b) ∧
    (h.dec_strong a).2.deletedObj = h.deletedObj ∧
    (h.dec_strong a).2.deletedBlk = h.deletedBlk ∧
    (h.dec_strong a).2.next = h.next := by
  refine ⟨?_, ?_, ?_, rfl, rfl, rfl⟩
  · simp [Heap.dec_strong, Heap.strong, control_block.dec_strong]
  · intro b
    by_cases hb : b = a
    · subst hb
      simp [Heap.dec_strong, Heap.weak, control_block.dec_strong]
    · simp [Heap.dec_strong, Heap.weak, Function.update_noteq hb]
  · intro b hb
    simp [Heap.dec_strong, Function.update_noteq hb]

theorem dec_weak_facts (h : Heap) (a : Nat) :
    (h.dec_weak a).2.weak a = wrap32 (h.weak a - 1) ∧
    (∀ b, (h.dec_weak a).2.strong b = h.strong b) ∧
    (∀ b, b ≠ a → (h.dec_weak a).2.blocks b = h.blocks b) ∧
    (h.dec_weak a).2.deletedObj = h.deletedObj ∧
    (h.dec_weak a).2.deletedBlk = h.deletedBlk ∧
    (h.dec_weak a).2.next = h.next := by
  refine ⟨?_, ?_, ?_, rfl, rfl, rfl⟩
  · simp [Heap.dec_weak, Heap.weak, control_block.dec_weak]
  · intro b
    by_cases hb : b = a
    · subst hb
      simp [Heap.dec_weak, Heap.strong, control_block.dec_weak]
    · simp [Heap.dec_weak, Heap.strong, Function.update_noteq hb]
  · intro b hb
    simp [Heap.dec_weak, Function.update_noteq hb]

theorem delete_object_facts (h : Heap) (p : Nat) :
    (h.delete_object p).blocks = h.blocks ∧
    (h.delete_object p).deletedObj = (if p = 0 then h.deletedObj else p :: h.deletedObj) ∧
    (h.delete_object p).deletedBlk = h.deletedBlk ∧
    (h.delete_object p).next = h.next := by
  unfold Heap.delete_object
  split_ifs <;> exact ⟨rfl, rfl, rfl, rfl⟩

theorem release_strong_ref_null (h : Heap) (x : shared_ptr) (hb : x.blk = 0) :
    shared_ptr.release_strong_ref h x = h := by
  simp [shared_ptr.release_strong_ref, hb]

/-- The release step on a block whose strong counter is not `1` only decrements the
strong counter. -/
theorem release_strong_ref_shared (h : Heap) (x : shared_ptr) (hb : x.blk ≠ 0)
    (hs : h.strong x.blk ≠ 1) :
    shared_ptr.release_strong_ref h x = (h.dec_strong x.blk).2 := by
  have hs1 : ¬ (h.blocks x.blk).strong = 1 := hs
  simp [shared_ptr.release_strong_ref, hb, Heap.dec_strong, control_block.dec_strong, hs1]

/-- The release step on a block whose strong counter is `1` decrements the strong
counter, deletes the payload, decrements the weak counter and, if that was `1`, deletes
the block. -/
theorem release_strong_ref_last (h : Heap) (x : shared_ptr) (hb : x.blk ≠ 0)
    (hs : h.strong x.blk = 1) :
    shared_ptr.release_strong_ref h x =
      if h.weak x.blk = 1 then
        ((((h.dec_strong x.blk).2.delete_object x.object).dec_weak x.blk).2).delete_blk x.blk
      else (((h.dec_strong x.blk).2.delete_object x.object).dec_weak x.blk).2 := by
  have hs1 : (h.blocks x.blk).strong = 1 := hs
  have hw : (((h.dec_strong x.blk).2.delete_object x.object).dec_weak x.blk).1 =
      h.weak x.blk := by
    unfold Heap.delete_object
    split_ifs <;>
      simp [Heap.dec_weak, Heap.dec_strong, control_block.dec_weak, control_block.dec_strong,
        Heap.weak]
  simp only [shared_ptr.release_strong_ref, hb, if_false]
  have hd : (h.dec_strong x.blk).1 = 1 := by
    simp [Heap.dec_strong, control_block.dec_strong, hs1]
  simp only [hd, if_true, hw]

theorem release_weak_ref_null (h : Heap) (w : weak_ptr) (hb : w.blk = 0) :
    weak_ptr.release_weak_ref h w = h := by
  simp [weak_ptr.release_weak_ref, hb]

theorem release_weak_ref_eq (h : Heap) (w : weak_ptr) (hb : w.blk ≠ 0) :
    weak_ptr.release_weak_ref h w =
      if h.weak w.blk = 1 then (h.dec_weak w.blk).2.delete_blk w.blk
      else (h.dec_weak w.blk).2 := by
  simp only [weak_ptr.release_weak_ref, hb, if_false]
  rfl

theorem inc_strong_strong (h : Heap) (a b : Nat) :
    (h.inc_strong a).strong b = if a = b then wrap32 (h.strong b + 1) else h.strong b := by
  unfold Heap.inc_strong Heap.strong control_block.inc_strong
  by_cases hb : a = b
  · subst hb
    simp
  · simp [Function.update_noteq (Ne.symm hb), hb]

theorem inc_weak_strong (h : Heap) (a b : Nat) : (h.inc_weak a).strong b = h.strong b := by
  unfold Heap.inc_weak Heap.strong control_block.inc_weak
  by_cases hb : b = a
  · subst hb
    simp
  · simp [Function.update_noteq hb]

theorem inc_strong_weak (h : Heap) (a b : Nat) : (h.inc_strong a).weak b = h.weak b := by
  unfold Heap.inc_strong Heap.weak control_block.inc_strong
  by_cases hb : b = a
  · subst hb
    simp
  · simp [Function.update_noteq hb]

theorem inc_weak_weak (h : Heap) (a b : Nat) :
    (h.inc_weak a).weak b = if a = b then wrap32 (h.weak b + 1) else h.weak b := by
  unfold Heap.inc_weak Heap.weak control_block.inc_weak
  by_cases hb : a = b
  · subst hb
    simp
  · simp [Function.update_noteq (Ne.symm hb), hb]

theorem dec_weak_weak (h : Heap) (a b : Nat) :
    (h.dec_weak a).2.weak b = if a = b then wrap32 (h.weak b - 1) else h.weak b := by
  unfold Heap.dec_weak Heap.weak control_block.dec_weak
  by_cases hb : a = b
  · subst hb
    simp
  · simp [Function.update_noteq (Ne.symm hb), hb]

theorem release_strong_ref_strong (h : Heap) (x : shared_ptr) (b : Nat) (hb0 : b ≠ 0) :
    (shared_ptr.release_strong_ref h x).strong b =
      if x.blk = b then wrap32 (h.strong b - 1) else h.strong b := by
  unfold shared_ptr.release_strong_ref Heap.dec_strong Heap.dec_weak Heap.delete_object
    Heap.delete_blk Heap.strong control_block.dec_strong control_block.dec_weak
  simp only
  by_cases hx : x.blk = 0
  · have hne : ¬ (0 = b) := fun h => hb0 h.symm
    simp [hx, hne]
  · by_cases hb : x.blk = b
    · subst hb
      simp only [hx, if_false]
      split_ifs <;> simp_all
    · simp only [hx, if_false, hb]
      split_ifs <;> simp_all [Function.update_noteq (Ne.symm hb)]

theorem release_weak_ref_strong (h : Heap) (w : weak_ptr) (b : Nat) :
    (weak_ptr.release_weak_ref h w).strong b = h.strong b := by
  unfold weak_ptr.release_weak_ref Heap.dec_weak Heap.delete_blk Heap.strong
    control_block.dec_weak
  simp only
  by_cases hb : b = w.blk
  · subst hb
    split_ifs <;> simp
  · split_ifs <;> simp [Function.update_noteq hb]

theorem release_strong_ref_next (h : Heap) (x : shared_ptr) :
    (shared_ptr.release_strong_ref h x).next = h.next := by
  unfold shared_ptr.release_strong_ref Heap.dec_strong Heap.dec_weak Heap.delete_object
    Heap.delete_blk
  simp only
  split_ifs <;> rfl

theorem release_weak_ref_next (h : Heap) (w : weak_ptr) :
    (weak_ptr.release_weak_ref h w).next = h.next := by
  unfold weak_ptr.release_weak_ref Heap.dec_weak Heap.delete_blk
  simp only
  split_ifs <;> rfl

theorem alloc_addr_fresh (h : Heap) (addr : Nat) (hI : h.alloc_inv) :
    h.alloc_addr addr ≠ 0 ∧ h.live (h.alloc_addr addr) = false := by
  obtain ⟨_, i2, i3⟩ := hI
  unfold Heap.alloc_addr
  split_ifs with hc
  · exact hc
  · constructor
    · omega
    · cases hl : h.live h.next with
      | false => rfl
      | true => exact absurd (i3 _ hl) (lt_irrefl _)

theorem new_control_block_strong (h : Heap) (addr b : Nat) :
    (h.new_control_block addr).2.strong b = if h.alloc_addr addr = b then 1 else h.strong b := by
  unfold Heap.new_control_block Heap.strong control_block.ctor
  by_cases hb : h.alloc_addr addr = b
  · subst hb
    simp
  · simp [Function.update_noteq (Ne.symm hb), hb]

theorem new_control_block_weak (h : Heap) (addr b : Nat) :
    (h.new_control_block addr).2.weak b = if h.alloc_addr addr = b then 1 else h.weak b := by
  unfold Heap.new_control_block Heap.weak control_block.ctor
  by_cases hb : h.alloc_addr addr = b
  · subst hb
    simp
  · simp [Function.update_noteq (Ne.symm hb), hb]

theorem new_control_block_live (h : Heap) (addr b : Nat) :
    (h.new_control_block addr).2.live b = if h.alloc_addr addr = b then true else h.live b := by
  unfold Heap.new_control_block
  by_cases hb : h.alloc_addr addr = b
  · subst hb
    simp
  · simp [Function.update_noteq (Ne.symm hb), hb]

theorem release_strong_ref_weak (h : Heap) (x : shared_ptr) (b : Nat) :
    (shared_ptr.release_strong_ref h x).weak b =
      if x.blk ≠ 0 ∧ h.strong x.blk = 1 ∧ x.blk = b then wrap32 (h.weak b - 1)
      else h.weak b := by
  by_cases hx : x.blk = 0
  · rw [release_strong_ref_null h x hx]
    simp [hx]
  · by_cases hs : h.strong x.blk = 1
    · have d1 := dec_strong_facts h x.blk
      have d2 := delete_object_facts (h.dec_strong x.blk).2 x.object
      have hwk : ∀ c, ((h.dec_strong x.blk).2.delete_object x.object).weak c = h.weak c := by
        intro c
        have : ((h.dec_strong x.blk).2.delete_object x.object).weak c =
            (h.dec_strong x.blk).2.weak c := by
          simp only [Heap.weak, d2.1]
        rw [this, d1.2.1]
      rw [release_strong_ref_last h x hx hs]
      have e : ∀ g : Heap, (g.delete_blk x.blk).weak b = g.weak b := fun _ => rfl
      by_cases h1 : h.weak x.blk = 1
      · rw [if_pos h1, e, dec_weak_weak, hwk]
        simp [hx, hs]
      · rw [if_neg h1, dec_weak_weak, hwk]
        simp [hx, hs]
    · rw [release_strong_ref_shared h x hx hs]
      rw [(dec_strong_facts h x.blk).2.1]
      simp [hs]

theorem release_strong_ref_live (h : Heap) (x : shared_ptr) (b : Nat) :
    (shared_ptr.release_strong_ref h x).live b =
      if x.blk ≠ 0 ∧ h.strong x.blk = 1 ∧ h.weak x.blk = 1 ∧ x.blk = b then false
      else h.live b := by
  by_cases hx : x.blk = 0
  · rw [release_strong_ref_null h x hx]
    simp [hx]
  · by_cases hs : h.strong x.blk = 1
    · rw [release_strong_ref_last h x hx hs]
      have e0 : (((h.dec_strong x.blk).2.delete_object x.object).dec_weak x.blk).2.live =
          h.live := by
        unfold Heap.delete_object
        split_ifs <;> rfl
      by_cases h1 : h.weak x.blk = 1
      · rw [if_pos h1]
        show Function.update
          (((h.dec_strong x.blk).2.delete_object x.object).dec_weak x.blk).2.live x.blk false b = _
        rw [e0]
        by_cases hb : x.blk = b
        · subst hb
          simp [hx, hs, h1]
        · simp [hb, Function.update_noteq (Ne.symm hb)]
      · rw [if_neg h1, e0]
        simp [h1]
    · rw [release_strong_ref_shared h x hx hs]
      simp [hs]
      rfl

theorem release_strong_ref_deletedBlk (h : Heap) (x : shared_ptr) :
    (shared_ptr.release_strong_ref h x).deletedBlk =
      if x.blk ≠ 0 ∧ h.strong x.blk = 1 ∧ h.weak x.blk = 1 then x.blk :: h.deletedBlk
      else h.deletedBlk := by
  by_cases hx : x.blk = 0
  · rw [release_strong_ref_null h x hx]
    simp [hx]
  · by_cases hs : h.strong x.blk = 1
    · rw [release_strong_ref_last h x hx hs]
      have e0 : (((h.dec_strong x.blk).2.delete_object x.object).dec_weak x.blk).2.deletedBlk =
          h.deletedBlk := by
        unfold Heap.delete_object
        split_ifs <;> rfl
      by_cases h1 : h.weak x.blk = 1
      · rw [if_pos h1]
        show x.blk ::
          (((h.dec_strong x.blk).2.delete_object x.object).dec_weak x.blk).2.deletedBlk = _
        rw [e0]
        simp [hx, hs, h1]
      · rw [if_neg h1, e0]
        simp [h1]
    · rw [release_strong_ref_shared h x hx hs]
      simp [hs]
      rfl

theorem release_weak_ref_weak (h : Heap) (w : weak_ptr) (b : Nat) :
    (weak_ptr.release_weak_ref h w).weak b =
      if w.blk ≠ 0 ∧ w.blk = b then wrap32 (h.weak b - 1) else h.weak b := by
  by_cases hw : w.blk = 0
  · rw [release_weak_ref_null h w hw]
    simp [hw]
  · rw [release_weak_ref_eq h w hw]
    have e : ∀ g : Heap, (g.delete_blk w.blk).weak b = g.weak b := fun _ => rfl
    by_cases h1 : h.weak w.blk = 1
    · rw [if_pos h1, e, dec_weak_weak]
      simp [hw]
    · rw [if_neg h1, dec_weak_weak]
      simp [hw]

theorem release_weak_ref_live (h : Heap) (w : weak_ptr) (b : Nat) :
    (weak_ptr.release_weak_ref h w).live b =
      if w.blk ≠ 0 ∧ h.weak w.blk = 1 ∧ w.blk = b then false else h.live b := by
  by_cases hw : w.blk = 0
  · rw [release_weak_ref_null h w hw]
    simp [hw]
  · rw [release_weak_ref_eq h w hw]
    by_cases h1 : h.weak w.blk = 1
    · rw [if_pos h1]
      show Function.update h.live w.blk false b = _
      by_cases hb : w.blk = b
      · subst hb
        simp [hw, h1]
      · simp [hb, Function.update_noteq (Ne.symm hb)]
    · rw [if_neg h1]
      simp [h1]
      rfl

theorem release_weak_ref_deletedBlk (h : Heap) (w : weak_ptr) :
    (weak_ptr.release_weak_ref h w).deletedBlk =
      if w.blk ≠ 0 ∧ h.weak w.blk = 1 then w.blk :: h.deletedBlk else h.deletedBlk := by
  by_cases hw : w.blk = 0
  · rw [release_weak_ref_null h w hw]
    simp [hw]
  · rw [release_weak_ref_eq h w hw]
    by_cases h1 : h.weak w.blk = 1
    · rw [if_pos h1]
      simp [hw, h1]
      rfl
    · rw [if_neg h1]
      simp [h1]
      rfl

/-! ## The allocator -/

theorem alloc_inv_of_live (h h2 : Heap) (hI : h.alloc_inv) (hnext : h2.next = h.next)
    (hlive : ∀ b, h2.live b = true → h.live b = true) : h2.alloc_inv := by
  obtain ⟨i1, i2, i3⟩ := hI
  refine ⟨?_, by omega, fun b hb => ?_⟩
  · cases hl : h2.live 0 with
    | false => rfl
    | true =>
      have := hlive 0 hl
      rw [i1] at this
      exact absurd this (by decide)
  · rw [hnext]
    exact i3 b (hlive b hb)

theorem alloc_inv_release_strong (h : Heap) (x : shared_ptr) (hI : h.alloc_inv) :
    (shared_ptr.release_strong_ref h x).alloc_inv := by
  apply alloc_inv_of_live h _ hI (release_strong_ref_next h x)
  intro b hb
  rw [release_strong_ref_live] at hb
  split_ifs at hb
  exact hb

theorem alloc_inv_release_weak (h : Heap) (w : weak_ptr) (hI : h.alloc_inv) :
    (weak_ptr.release_weak_ref h w).alloc_inv := by
  apply alloc_inv_of_live h _ hI (release_weak_ref_next h w)
  intro b hb
  rw [release_weak_ref_live] at hb
  split_ifs at hb
  exact hb

theorem alloc_inv_inc_strong (h : Heap) (a : Nat) (hI : h.alloc_inv) :
    (h.inc_strong a).alloc_inv := hI

theorem alloc_inv_inc_weak (h : Heap) (a : Nat) (hI : h.alloc_inv) :
    (h.inc_weak a).alloc_inv := hI

theorem alloc_inv_new (h : Heap) (addr : Nat) (hI : h.alloc_inv) :
    (h.new_control_block addr).2.alloc_inv := by
  obtain ⟨h1, h2⟩ := alloc_addr_fresh h addr hI
  obtain ⟨i1, i2, i3⟩ := hI
  refine ⟨?_, ?_, fun b hb => ?_⟩
  · rw [new_control_block_live, if_neg h1]
    exact i1
  · show 1 ≤ max h.next (h.alloc_addr addr + 1)
    omega
  · show b < max h.next (h.alloc_addr addr + 1)
    rw [new_control_block_live] at hb
    split_ifs at hb with hab
    · omega
    · have := i3 b hb
      omega

/-! ## The exchange loop of `lock()` -/

/-- With more fuel than scheduled spurious failures the loop of `lock()` returns: it
reports failure on a zero counter and otherwise adds one to the strong counter. -/
theorem lock_loop_eq (blk : Nat) (h : Heap) :
    ∀ (spurious : List Bool) (fuel : Nat), spurious.length < fuel →
      weak_ptr.lock_loop blk fuel spurious (h.blocks blk).strong h =
        if (h.blocks blk).strong = 0 then some (false, h)
        else some (true, h.inc_strong blk) := by
  intro spurious
  induction spurious with
  | nil =>
    intro fuel hf
    cases fuel with
    | zero => simp at hf
    | succ fuel =>
      by_cases h0 : (h.blocks blk).strong = 0
      · simp [weak_ptr.lock_loop, h0]
      · simp [weak_ptr.lock_loop, h0, control_block.compare_exchange_weak, Heap.inc_strong,
          control_block.inc_strong]
  | cons b t ih =>
    intro fuel hf
    cases fuel with
    | zero => simp at hf
    | succ fuel =>
      have hf2 : t.length < fuel := by simpa using hf
      by_cases h0 : (h.blocks blk).strong = 0
      · simp [weak_ptr.lock_loop, h0]
      · cases b with
        | false => simp [weak_ptr.lock_loop, h0, control_block.compare_exchange_weak, Heap.inc_strong,
          control_block.inc_strong]
        | true =>
          have := ih fuel hf2
          simp [weak_ptr.lock_loop, h0, control_block.compare_exchange_weak, this]

/-- With more fuel than scheduled spurious failures `lock()` returns: an empty handle and
the untouched heap on a null block or a zero strong counter, otherwise a handle on the
block and the heap after one increment of the strong counter. -/
theorem lock_eq (h : Heap) (w : weak_ptr) (fuel : Nat) (spurious : List Bool)
    (hf : spurious.length < fuel) :
    weak_ptr.lock h w fuel spurious =
      if w.blk = 0 ∨ h.strong w.blk = 0 then some (shared_ptr.ctor_default, h)
      else some ({ object := w.object, blk := w.blk }, h.inc_strong w.blk) := by
  unfold weak_ptr.lock
  by_cases hb : w.blk = 0
  · simp [hb]
  · rw [lock_loop_eq w.blk h spurious fuel hf]
    by_cases h0 : (h.blocks w.blk).strong = 0
    · simp [hb, h0, Heap.strong]
    · simp [hb, h0, Heap.strong]

/-! ## Repeated copies of one handle -/

theorem run_cons (σ : State) (op : Op) (ops : List Op) :
    σ.run (op :: ops) = (σ.step op).run ops := rfl

theorem run_append (σ : State) (ops1 ops2 : List Op) :
    σ.run (ops1 ++ ops2) = (σ.run ops1).run ops2 := by
  simp [State.run, List.foldl_append]

/-- Running `n` copy constructions from variable `0` appends `n` copies of the handle
and adds `n` to the strong counter of its block, wrapping in `int32_t`. -/
theorem run_copies (x : shared_ptr) (hx : x.blk ≠ 0) :
    ∀ (n : Nat) (σ : State), σ.shared 0 = some x →
      INT32_MIN ≤ σ.heap.strong x.blk → σ.heap.strong x.blk ≤ INT32_MAX →
      (σ.run (List.replicate n (Op.sp_copy 0))).sp = σ.sp ++ List.replicate n (some x) ∧
      (σ.run (List.replicate n (Op.sp_copy 0))).wp = σ.wp ∧
      (σ.run (List.replicate n (Op.sp_copy 0))).heap.strong x.blk =
        wrap32 (σ.heap.strong x.blk + n) ∧
      (σ.run (List.replicate n (Op.sp_copy 0))).heap.weak x.blk = σ.heap.weak x.blk ∧
      (σ.run (List.replicate n (Op.sp_copy 0))).heap.deletedObj = σ.heap.deletedObj ∧
      (σ.run (List.replicate n (Op.sp_copy 0))).heap.deletedBlk = σ.heap.deletedBlk := by
  intro n
  induction n with
  | zero =>
    intro σ _ h1 h2
    simp only [State.run, List.replicate, List.foldl_nil, Nat.cast_zero, add_zero,
      List.append_nil, true_and]
    exact ⟨(wrap32_of_range h1 h2).symm, trivial⟩
  | succ n ih =>
    intro σ hσ h1 h2
    have hstep : σ.step (Op.sp_copy 0) =
        { σ with heap := σ.heap.inc_strong x.blk, sp := σ.sp ++ [some x] } := by
      simp [State.step, hσ, shared_ptr.ctor_copy, hx]
    have hne : σ.sp ≠ [] := by
      intro hnil
      simp [State.shared, hnil] at hσ
    have hσ2 : (σ.step (Op.sp_copy 0)).shared 0 = some x := by
      rw [hstep]
      cases hsp : σ.sp with
      | nil => exact absurd hsp hne
      | cons a t =>
        simp [State.shared, hsp] at hσ ⊢
        exact hσ
    have hs : (σ.step (Op.sp_copy 0)).heap.strong x.blk = wrap32 (σ.heap.strong x.blk + 1) := by
      rw [hstep]
      simp [Heap.strong, Heap.inc_strong, control_block.inc_strong]
    have hw : (σ.step (Op.sp_copy 0)).heap.weak x.blk = σ.heap.weak x.blk := by
      rw [hstep]
      simp [Heap.weak, Heap.inc_strong, control_block.inc_strong]
    have hd1 : (σ.step (Op.sp_copy 0)).heap.deletedObj = σ.heap.deletedObj := by
      rw [hstep]
      rfl
    have hd2 : (σ.step (Op.sp_copy 0)).heap.deletedBlk = σ.heap.deletedBlk := by
      rw [hstep]
      rfl
    have hr := wrap32_range (σ.heap.strong x.blk + 1)
    obtain ⟨i1, i2, i3, i4, i5, i6⟩ := ih (σ.step (Op.sp_copy 0)) hσ2 (by rw [hs]; exact hr.1)
      (by rw [hs]; exact hr.2)
    have hrun : σ.run (List.replicate (n + 1) (Op.sp_copy 0)) =
        (σ.step (Op.sp_copy 0)).run (List.replicate n (Op.sp_copy 0)) := by
      rw [List.replicate_succ]
      exact run_cons _ _ _
    rw [hrun]
    refine ⟨?_, ?_, ?_, ?_, ?_, ?_⟩
    · rw [i1, hstep]
      simp [List.replicate_succ]
    · rw [i2, hstep]
    · rw [i3, hs, wrap32_add_one_wrap32]
      congr 1
    · rw [i4, hw]
    · rw [i5, hd1]
    · rw [i6, hd2]

/-- After `n` copies the first variable still holds the handle, there are `n + 1` live
handles on block `1`, and its strong counter is `1 + n` wrapped into `int32_t`. -/
theorem copies_spec (n : Nat) :
    (copies n).shared 0 = some { object := 7, blk := 1 } ∧
    (copies n).heap.strong 1 = wrap32 (1 + n) ∧ (copies n).heap.weak 1 = 1 ∧
    (copies n).sp = some { object := 7, blk := 1 } ::
      List.replicate n (some { object := 7, blk := 1 }) ∧
    (copies n).wp = [] ∧ (copies n).heap.deletedObj = [] ∧ (copies n).heap.deletedBlk = [] := by
  have h0 : (State.init.step (Op.sp_raw 7 0)).shared 0 = some { object := 7, blk := 1 } := by
    decide
  have hs : (State.init.step (Op.sp_raw 7 0)).heap.strong 1 = 1 := by decide
  have hw : (State.init.step (Op.sp_raw 7 0)).heap.weak 1 = 1 := by decide
  have hsp : (State.init.step (Op.sp_raw 7 0)).sp = [some { object := 7, blk := 1 }] := by
    decide
  have hwp : (State.init.step (Op.sp_raw 7 0)).wp = [] := by decide
  have hd1 : (State.init.step (Op.sp_raw 7 0)).heap.deletedObj = [] := by decide
  have hd2 : (State.init.step (Op.sp_raw 7 0)).heap.deletedBlk = [] := by decide
  obtain ⟨r1, r2, r3, r4, r5, r6⟩ := run_copies { object := 7, blk := 1 } (by decide) n
    (State.init.step (Op.sp_raw 7 0)) h0 (by rw [hs]; decide) (by rw [hs]; decide)
  have hrun : copies n =
      (State.init.step (Op.sp_raw 7 0)).run (List.replicate n (Op.sp_copy 0)) := by
    unfold copies
    exact run_cons _ _ _
  rw [hrun]
  refine ⟨?_, ?_, ?_, ?_, ?_, ?_, ?_⟩
  · simp [State.shared, r1, hsp]
  · exact r3.trans (by rw [hs])
  · exact r4.trans hw
  · rw [r1, hsp]
    rfl
  · rw [r2, hwp]
  · exact r5.trans hd1
  · exact r6.trans hd2

theorem step_sp_copy_live (σ : State) (src : Nat) :
    (σ.step (Op.sp_copy src)).heap.live = σ.heap.live := by
  cases hsrc : σ.shared src with
  | none => simp only [State.step, hsrc]
  | some o =>
    simp only [State.step, hsrc, shared_ptr.ctor_copy]
    split_ifs <;> rfl

theorem run_copies_live (src : Nat) :
    ∀ (n : Nat) (σ : State),
      (σ.run (List.replicate n (Op.sp_copy src))).heap.live = σ.heap.live := by
  intro n
  induction n with
  | zero =>
    intro σ
    rfl
  | succ n ih =>
    intro σ
    rw [List.replicate_succ, run_cons, ih, step_sp_copy_live]

theorem step_sp_copy_block_deletes (σ : State) (src b : Nat) :
    (σ.step (Op.sp_copy src)).block_deletes b = σ.block_deletes b := by
  cases hsrc : σ.shared src with
  | none => simp only [State.step, hsrc]
  | some o =>
    simp only [State.step, hsrc, shared_ptr.ctor_copy]
    split_ifs <;> rfl

/-- After `n` copies block `1` is still there. -/
theorem copies_live (n : Nat) : (copies n).heap.live 1 = true := by
  have hrun : copies n =
      (State.init.step (Op.sp_raw 7 0)).run (List.replicate n (Op.sp_copy 0)) := by
    unfold copies
    exact run_cons _ _ _
  rw [hrun, run_copies_live]
  decide

/-- After `2^31 - 2` copies the strong counter of the block is `INT32_MAX`. -/
theorem saturated_spec :
    saturated.shared 0 = some { object := 7, blk := 1 } ∧
    saturated.heap.strong 1 = 2147483647 ∧ saturated.heap.weak 1 = 1 := by
  obtain ⟨h1, h2, h3, _⟩ := copies_spec 2147483646
  refine ⟨h1, ?_, h3⟩
  rw [show saturated = copies 2147483646 from rfl, h2]
  decide

/-! ## Lifetime of the payload and of the control block -/

/-- C1 (fails on the code): a handle is constructed from the raw pointer `7` and copied,
the copy is move-assigned onto the original, and both variables are destroyed.  Every
handle is gone, the strong counter is stuck at `1` and the payload has never been passed
to `delete`. -/
theorem payload_leaks_after_move_assign :
    (State.init.run [.sp_raw 7 0, .sp_copy 0, .sp_assign_move 0 1, .sp_dtor 0,
      .sp_dtor 1]).all_destroyed = true ∧
    (State.init.run [.sp_raw 7 0, .sp_copy 0, .sp_assign_move 0 1, .sp_dtor 0,
      .sp_dtor 1]).payload_deletes 7 = 0 ∧
    (State.init.run [.sp_raw 7 0, .sp_copy 0, .sp_assign_move 0 1, .sp_dtor 0,
      .sp_dtor 1]).heap.strong 1 = 1 := by
  decide

/-- C2 (fails on the code): a strong handle on the payload `7` is observed by two weak
handles, the second weak handle is move-assigned onto the first, and all three variables
are destroyed.  Every handle is gone, the payload has been deleted once, the weak counter
is stuck at `1` and the control block has never been passed to `delete`. -/
theorem block_leaks_after_weak_move_assign :
    (State.init.run [.sp_raw 7 0, .wp_shared 0, .wp_shared 0, .wp_assign_move 0 1, .sp_dtor 0,
      .wp_dtor 0, .wp_dtor 1]).all_destroyed = true ∧
    (State.init.run [.sp_raw 7 0, .wp_shared 0, .wp_shared 0, .wp_assign_move 0 1, .sp_dtor 0,
      .wp_dtor 0, .wp_dtor 1]).payload_deletes 7 = 1 ∧
    (State.init.run [.sp_raw 7 0, .wp_shared 0, .wp_shared 0, .wp_assign_move 0 1, .sp_dtor 0,
      .wp_dtor 0, .wp_dtor 1]).block_deletes 1 = 0 ∧
    (State.init.run [.sp_raw 7 0, .wp_shared 0, .wp_shared 0, .wp_assign_move 0 1, .sp_dtor 0,
      .wp_dtor 0, .wp_dtor 1]).heap.weak 1 = 1 := by
  decide

/-- C3 (fails on the code): after a handle is constructed, copied, and the copy is
move-assigned onto the original, the original is the only live strong handle on its block
and its `use_count()` is `2`. -/
theorem use_count_exceeds_live_handles :
    (State.init.run [.sp_raw 7 0, .sp_copy 0, .sp_assign_move 0 1]).shared 0 =
      some { object := 7, blk := 1 } ∧
    (State.init.run [.sp_raw 7 0, .sp_copy 0, .sp_assign_move 0 1]).shared 1 =
      some { object := 0, blk := 0 } ∧
    (State.init.run [.sp_raw 7 0, .sp_copy 0, .sp_assign_move 0 1]).strong_refs 1 = 1 ∧
    shared_ptr.use_count (State.init.run [.sp_raw 7 0, .sp_copy 0, .sp_assign_move 0 1]).heap
      { object := 7, blk := 1 } = 2 := by
  decide

/-! ## Assignment -/

/-- C4 (fails on the code): with variable `0` the only owner of payload `10` on block `1`
and variable `1` the owner of payload `20` on block `2`, move-assigning `1` onto `0`
leaves the strong and weak counters of block `1` at `1` and deletes nothing, although no
handle references block `1` any more; copy-assigning `1` onto `0` takes the strong counter
of block `1` to `0`, deletes payload `10`, drops the weak unit and deletes the block. -/
theorem move_assign_skips_release :
    ((State.init.run [.sp_raw 10 0, .sp_raw 20 0]).step (.sp_assign_move 0 1)).shared 0 =
      some { object := 20, blk := 2 } ∧
    ((State.init.run [.sp_raw 10 0, .sp_raw 20 0]).step (.sp_assign_move 0 1)).strong_refs 1 = 0 ∧
    ((State.init.run [.sp_raw 10 0, .sp_raw 20 0]).step (.sp_assign_move 0 1)).heap.strong 1 = 1 ∧
    ((State.init.run [.sp_raw 10 0, .sp_raw 20 0]).step (.sp_assign_move 0 1)).heap.weak 1 = 1 ∧
    ((State.init.run [.sp_raw 10 0, .sp_raw 20 0]).step (.sp_assign_move 0 1)).payload_deletes 10
      = 0 ∧
    ((State.init.run [.sp_raw 10 0, .sp_raw 20 0]).step (.sp_assign_copy 0 1)).shared 0 =
      some { object := 20, blk := 2 } ∧
    ((State.init.run [.sp_raw 10 0, .sp_raw 20 0]).step (.sp_assign_copy 0 1)).heap.strong 1 = 0 ∧
    ((State.init.run [.sp_raw 10 0, .sp_raw 20 0]).step (.sp_assign_copy 0 1)).heap.weak 1 = 0 ∧
    ((State.init.run [.sp_raw 10 0, .sp_raw 20 0]).step (.sp_assign_copy 0 1)).payload_deletes 10
      = 1 ∧
    ((State.init.run [.sp_raw 10 0, .sp_raw 20 0]).step (.sp_assign_copy 0 1)).block_deletes 1
      = 1 := by
  decide

/-- C5 (fails on the code): with weak variable `0` on block `1` (weak counter `2`) and
weak variable `1` on block `2`, assigning from the strong handle on block `2` and
copy-assigning from weak variable `1` both take the weak counter of block `1` to `1`, while
move-assigning from weak variable `1` leaves it at `2` although no weak handle references
block `1` any more. -/
theorem weak_move_assign_skips_release :
    (State.init.run [.sp_raw 10 0, .sp_raw 20 0, .wp_shared 0, .wp_shared 1]).heap.weak 1 = 2 ∧
    ((State.init.run [.sp_raw 10 0, .sp_raw 20 0, .wp_shared 0, .wp_shared 1]).step
      (.wp_assign_shared 0 1)).heap.weak 1 = 1 ∧
    ((State.init.run [.sp_raw 10 0, .sp_raw 20 0, .wp_shared 0, .wp_shared 1]).step
      (.wp_assign_copy 0 1)).heap.weak 1 = 1 ∧
    ((State.init.run [.sp_raw 10 0, .sp_raw 20 0, .wp_shared 0, .wp_shared 1]).step
      (.wp_assign_move 0 1)).heap.weak 1 = 2 ∧
    ((State.init.run [.sp_raw 10 0, .sp_raw 20 0, .wp_shared 0, .wp_shared 1]).step
      (.wp_assign_move 0 1)).weakv 0 = some { object := 20, blk := 2 } ∧
    ((State.init.run [.sp_raw 10 0, .sp_raw 20 0, .wp_shared 0, .wp_shared 1]).step
      (.wp_assign_move 0 1)).weak_refs 1 = 0 := by
  decide

/-! ## Promotion of a weak handle -/

/-- C7 (as amended): with more fuel than scheduled spurious failures `lock()` returns.
On an empty handle or a block whose strong counter is `0` it returns an empty strong
handle and the heap is unchanged.  On a block whose strong counter `n` satisfies
`0 < n < INT32_MAX` it returns a strong handle with the payload pointer and block of the
weak handle, the strong counter becomes `n + 1`, and the weak counter, every other block,
both deletion logs and the allocator are unchanged. -/
theorem lock_spec (h : Heap) (w : weak_ptr) (fuel : Nat) (spurious : List Bool)
    (hf : spurious.length < fuel) :
    (w.blk = 0 ∨ h.strong w.blk = 0 →
      weak_ptr.lock h w fuel spurious = some ({ object := 0, blk := 0 }, h)) ∧
    (w.blk ≠ 0 → 0 < h.strong w.blk → h.strong w.blk < INT32_MAX →
      ∃ h1, weak_ptr.lock h w fuel spurious = some ({ object := w.object, blk := w.blk }, h1) ∧
        h1.strong w.blk = h.strong w.blk + 1 ∧ h1.weak w.blk = h.weak w.blk ∧
        (∀ b, b ≠ w.blk → h1.blocks b = h.blocks b) ∧
        h1.deletedObj = h.deletedObj ∧ h1.deletedBlk = h.deletedBlk ∧ h1.next = h.next ∧
        h1.live = h.live) := by
  rw [lock_eq h w fuel spurious hf]
  constructor
  · intro hc
    simp [hc, shared_ptr.ctor_default]
  · intro hb hpos hmax
    have h0 : h.strong w.blk ≠ 0 := by omega
    refine ⟨h.inc_strong w.blk, by simp [hb, h0], ?_, ?_, ?_, rfl, rfl, rfl, rfl⟩
    · simp only [Heap.strong, Heap.inc_strong, control_block.inc_strong, Function.update_same]
      apply wrap32_of_range
      · simp only [Heap.strong] at hpos
        unfold INT32_MIN
        omega
      · simp only [Heap.strong] at hmax
        omega
    · simp [Heap.weak, Heap.inc_strong, control_block.inc_strong]
    · intro b hne
      simp [Heap.inc_strong, Function.update_noteq hne]

/-- Witness of `lock_spec`: promoting a weak handle on a freshly made block. -/
theorem lock_spec_witness :
    ([] : List Bool).length < 1 ∧
    ∃ h1, weak_ptr.lock (shared_ptr.ctor_raw Heap.empty 7 0).2 { object := 7, blk := 1 } 1 [] =
        some ({ object := 7, blk := 1 }, h1) ∧
      h1.strong 1 = (shared_ptr.ctor_raw Heap.empty 7 0).2.strong 1 + 1 ∧
      h1.weak 1 = (shared_ptr.ctor_raw Heap.empty 7 0).2.weak 1 ∧
      (∀ b, b ≠ 1 → h1.blocks b = (shared_ptr.ctor_raw Heap.empty 7 0).2.blocks b) ∧
      h1.deletedObj = (shared_ptr.ctor_raw Heap.empty 7 0).2.deletedObj ∧
      h1.deletedBlk = (shared_ptr.ctor_raw Heap.empty 7 0).2.deletedBlk ∧
      h1.next = (shared_ptr.ctor_raw Heap.empty 7 0).2.next ∧
      h1.live = (shared_ptr.ctor_raw Heap.empty 7 0).2.live :=
  ⟨by decide,
   (lock_spec (shared_ptr.ctor_raw Heap.empty 7 0).2 { object := 7, blk := 1 } 1 []
      (by decide)).2 (by decide) (by decide) (by decide)⟩

/-- On a heap whose block `1` has strong counter `INT32_MAX`, deriving a weak handle
and promoting it wraps the strong counter to `INT32_MIN`. -/
theorem lock_at_int32_max (h : Heap) (hs : h.strong 1 = 2147483647) :
    (weak_ptr.ctor_shared h { object := 7, blk := 1 }).1 = { object := 7, blk := 1 } ∧
    (weak_ptr.ctor_shared h { object := 7, blk := 1 }).2.strong 1 = 2147483647 ∧
    (weak_ptr.lock (weak_ptr.ctor_shared h { object := 7, blk := 1 }).2
        { object := 7, blk := 1 } 1 []).map (fun r => (r.1, r.2.strong 1)) =
      some ({ object := 7, blk := 1 }, -2147483648) := by
  have hs1 : (h.blocks 1).strong = 2147483647 := hs
  have e1 : weak_ptr.ctor_shared h { object := 7, blk := 1 } =
      ({ object := 7, blk := 1 }, h.inc_weak 1) := by
    simp [weak_ptr.ctor_shared, shared_ptr.toBool]
  have e2 : (h.inc_weak 1).strong 1 = 2147483647 := by
    simp [Heap.strong, Heap.inc_weak, control_block.inc_weak, hs1]
  rw [e1]
  refine ⟨rfl, e2, ?_⟩
  rw [lock_eq _ _ 1 [] (by decide)]
  have e3 : ((h.inc_weak 1).inc_strong 1).strong 1 = -2147483648 := by
    have e2b : ((h.inc_weak 1).blocks 1).strong = 2147483647 := e2
    simp only [Heap.strong, Heap.inc_strong, control_block.inc_strong, Function.update_same,
      e2b]
    decide
  simp [e2, e3]

/-- C7 as stated fails: after `2^31 - 2` copies of a handle the strong counter is
`n = 2147483647`; `lock()` on a weak handle made from it returns a handle on the block and
the strong counter is `-2147483648`, not `n + 1`. -/
theorem lock_wraps_at_int32_max :
    (weak_ptr.ctor_shared saturated.heap { object := 7, blk := 1 }).1 =
      { object := 7, blk := 1 } ∧
    (weak_ptr.ctor_shared saturated.heap { object := 7, blk := 1 }).2.strong 1 = 2147483647 ∧
    (weak_ptr.lock (weak_ptr.ctor_shared saturated.heap { object := 7, blk := 1 }).2
        { object := 7, blk := 1 } 1 []).map (fun r => (r.1, r.2.strong 1)) =
      some ({ object := 7, blk := 1 }, -2147483648) :=
  lock_at_int32_max saturated.heap saturated_spec.2.1

theorem expired_eq_false_iff (h : Heap) (w : weak_ptr) :
    weak_ptr.expired h w = false ↔ w.blk ≠ 0 ∧ h.strong w.blk ≠ 0 := by
  unfold weak_ptr.expired weak_ptr.use_count control_block.use_count Heap.strong
  by_cases hb : w.blk = 0
  · simp [hb]
  · simp [hb]

/-- C8: for a weak handle that is not expired, on a heap whose counter holds an `int32_t`
value, `lock()` returns (given more fuel than scheduled spurious failures) a strong handle
on the block of the weak handle, and destroying that handle gives back the heap as it was
before `lock()`: every counter of every block, both deletion logs and the allocator. -/
theorem lock_then_destroy (h : Heap) (w : weak_ptr) (fuel : Nat) (spurious : List Bool)
    (hf : spurious.length < fuel) (hexp : weak_ptr.expired h w = false)
    (hlo : INT32_MIN ≤ h.strong w.blk) (hhi : h.strong w.blk ≤ INT32_MAX) :
    ∃ s h1, weak_ptr.lock h w fuel spurious = some (s, h1) ∧
      s = { object := w.object, blk := w.blk } ∧
      shared_ptr.dtor h1 s = h ∧
      (shared_ptr.dtor h1 s).strong w.blk = h.strong w.blk ∧
      (shared_ptr.dtor h1 s).weak w.blk = h.weak w.blk ∧
      (shared_ptr.dtor h1 s).deletedObj = h.deletedObj ∧
      (shared_ptr.dtor h1 s).deletedBlk = h.deletedBlk := by
  obtain ⟨hb, h0⟩ := (expired_eq_false_iff h w).1 hexp
  have hd : shared_ptr.dtor (h.inc_strong w.blk) { object := w.object, blk := w.blk } = h := by
    have hne1 : wrap32 ((h.blocks w.blk).strong + 1) ≠ 1 := wrap32_succ_ne_one hlo hhi h0
    have hback : wrap32 (wrap32 ((h.blocks w.blk).strong + 1) - 1) = (h.blocks w.blk).strong :=
      wrap32_pred_succ hlo hhi
    cases h with
    | mk blocks next dO dB =>
      simp only [shared_ptr.dtor, shared_ptr.release_strong_ref, Heap.dec_strong,
        Heap.inc_strong, control_block.inc_strong, control_block.dec_strong,
        Function.update_same, Function.update_idem] at hne1 hback ⊢
      simp only [hb, if_false, hne1, hback]
      congr 1
      exact Function.update_eq_self _ _
  refine ⟨{ object := w.object, blk := w.blk }, h.inc_strong w.blk, ?_, rfl, hd, ?_, ?_, ?_, ?_⟩
  · rw [lock_eq h w fuel spurious hf]
    simp [hb, h0]
  · rw [hd]
  · rw [hd]
  · rw [hd]
  · rw [hd]

/-- Witness of `lock_then_destroy`: a weak handle on a block with two strong owners. -/
theorem lock_then_destroy_witness :
    ([true, false] : List Bool).length < 3 ∧
    weak_ptr.expired (State.init.run [.sp_raw 7 0, .sp_copy 0, .wp_shared 0]).heap
      { object := 7, blk := 1 } = false ∧
    ∃ s h1, weak_ptr.lock (State.init.run [.sp_raw 7 0, .sp_copy 0, .wp_shared 0]).heap
        { object := 7, blk := 1 } 3 [true, false] = some (s, h1) ∧
      s = { object := 7, blk := 1 } ∧
      shared_ptr.dtor h1 s = (State.init.run [.sp_raw 7 0, .sp_copy 0, .wp_shared 0]).heap ∧
      (shared_ptr.dtor h1 s).strong 1 =
        (State.init.run [.sp_raw 7 0, .sp_copy 0, .wp_shared 0]).heap.strong 1 ∧
      (shared_ptr.dtor h1 s).weak 1 =
        (State.init.run [.sp_raw 7 0, .sp_copy 0, .wp_shared 0]).heap.weak 1 ∧
      (shared_ptr.dtor h1 s).deletedObj =
        (State.init.run [.sp_raw 7 0, .sp_copy 0, .wp_shared 0]).heap.deletedObj ∧
      (shared_ptr.dtor h1 s).deletedBlk =
        (State.init.run [.sp_raw 7 0, .sp_copy 0, .wp_shared 0]).heap.deletedBlk :=
  ⟨by decide, by decide,
   lock_then_destroy (State.init.run [.sp_raw 7 0, .sp_copy 0, .wp_shared 0]).heap
     { object := 7, blk := 1 } 3 [true, false] (by decide) (by decide) (by decide) (by decide)⟩

/-! ## Copy construction of a strong handle -/

/-- C10 (as amended): the copy has the payload pointer and block of `other`.  If `other`
is non-empty and the strong counter `n` of its block is an `int32_t` value below
`INT32_MAX`, the counter becomes `n + 1`, the weak counter, every other block, both
deletion logs and the allocator are unchanged, and the copy and `other` report the same
`use_count()`.  If `other` is empty the copy is empty and the heap is unchanged. -/
theorem ctor_copy_spec (h : Heap) (other : shared_ptr) :
    (shared_ptr.ctor_copy h other).1 = other ∧
    (other.blk ≠ 0 → INT32_MIN ≤ h.strong other.blk → h.strong other.blk < INT32_MAX →
      (shared_ptr.ctor_copy h other).2.strong other.blk = h.strong other.blk + 1 ∧
      (shared_ptr.ctor_copy h other).2.weak other.blk = h.weak other.blk ∧
      (∀ b, b ≠ other.blk → (shared_ptr.ctor_copy h other).2.blocks b = h.blocks b) ∧
      (shared_ptr.ctor_copy h other).2.deletedObj = h.deletedObj ∧
      (shared_ptr.ctor_copy h other).2.deletedBlk = h.deletedBlk ∧
      (shared_ptr.ctor_copy h other).2.next = h.next ∧
      (shared_ptr.ctor_copy h other).2.live = h.live ∧
      shared_ptr.use_count (shared_ptr.ctor_copy h other).2 (shared_ptr.ctor_copy h other).1 =
        shared_ptr.use_count (shared_ptr.ctor_copy h other).2 other ∧
      shared_ptr.use_count (shared_ptr.ctor_copy h other).2 other =
        shared_ptr.use_count h other + 1) ∧
    (other.blk = 0 →
      (shared_ptr.ctor_copy h other).1.toBool = false ∧ (shared_ptr.ctor_copy h other).2 = h) := by
  have e1 : (shared_ptr.ctor_copy h other).1 = other := by
    unfold shared_ptr.ctor_copy
    by_cases hb : other.blk = 0
    · simp [hb]
      cases other
      simp_all
    · simp [hb]
  refine ⟨e1, ?_, ?_⟩
  · intro hb hlo hhi
    have e2 : (shared_ptr.ctor_copy h other).2 = h.inc_strong other.blk := by
      simp [shared_ptr.ctor_copy, hb]
    have e3 : (h.inc_strong other.blk).strong other.blk = h.strong other.blk + 1 := by
      simp only [Heap.strong, Heap.inc_strong, control_block.inc_strong, Function.update_same]
      apply wrap32_of_range
      · simp only [Heap.strong] at hlo
        unfold INT32_MIN at hlo ⊢
        omega
      · simp only [Heap.strong] at hhi
        omega
    rw [e1, e2]
    refine ⟨e3, ?_, ?_, rfl, rfl, rfl, rfl, rfl, ?_⟩
    · simp [Heap.weak, Heap.inc_strong, control_block.inc_strong]
    · intro b hne
      simp [Heap.inc_strong, Function.update_noteq hne]
    · have e4 : ((h.inc_strong other.blk).blocks other.blk).strong = (h.blocks other.blk).strong + 1 :=
        e3
      simp [shared_ptr.use_count, control_block.use_count, hb, e4]
  · intro hb
    simp [shared_ptr.ctor_copy, hb, shared_ptr.toBool]

/-- Witness of `ctor_copy_spec`: copying the only owner of a freshly made block. -/
theorem ctor_copy_spec_witness :
    ({ object := 7, blk := 1 } : shared_ptr).blk ≠ 0 ∧
    (shared_ptr.ctor_copy (shared_ptr.ctor_raw Heap.empty 7 0).2 { object := 7, blk := 1 }).2.strong
      1 = (shared_ptr.ctor_raw Heap.empty 7 0).2.strong 1 + 1 ∧
    shared_ptr.use_count
      (shared_ptr.ctor_copy (shared_ptr.ctor_raw Heap.empty 7 0).2 { object := 7, blk := 1 }).2
      { object := 7, blk := 1 } =
      shared_ptr.use_count (shared_ptr.ctor_raw Heap.empty 7 0).2 { object := 7, blk := 1 } + 1 :=
  ⟨by decide,
   ((ctor_copy_spec (shared_ptr.ctor_raw Heap.empty 7 0).2 { object := 7, blk := 1 }).2.1
      (by decide) (by decide) (by decide)).1,
   ((ctor_copy_spec (shared_ptr.ctor_raw Heap.empty 7 0).2 { object := 7, blk := 1 }).2.1
      (by decide) (by decide) (by decide)).2.2.2.2.2.2.2.2⟩

/-- On a heap whose block `1` has strong counter `INT32_MAX`, copying a handle on that
block wraps the counter to `INT32_MIN`. -/
theorem ctor_copy_at_int32_max (h : Heap) (hs : h.strong 1 = 2147483647) :
    (shared_ptr.ctor_copy h { object := 7, blk := 1 }).2.strong 1 = -2147483648 := by
  have hs1 : (h.blocks 1).strong = 2147483647 := hs
  simp only [shared_ptr.ctor_copy, Heap.strong, Heap.inc_strong, control_block.inc_strong]
  simp only [ne_eq, one_ne_zero, not_false_eq_true, if_true, Function.update_same, hs1]
  decide

/-- C10 as stated fails: after `2^31 - 2` copies variable `0` holds a non-empty handle whose
block has strong counter `2147483647`; one more copy construction leaves the counter at
`-2147483648`, which is not an increase by one. -/
theorem ctor_copy_wraps_at_int32_max :
    saturated.shared 0 = some { object := 7, blk := 1 } ∧
    saturated.heap.strong 1 = 2147483647 ∧
    (shared_ptr.ctor_copy saturated.heap { object := 7, blk := 1 }).2.strong 1 = -2147483648 :=
  ⟨saturated_spec.1, saturated_spec.2.1, ctor_copy_at_int32_max saturated.heap saturated_spec.2.1⟩

/-! ## Lists of handle variables -/

theorem getD_eq_some_iff {α : Type} {l : List (Option α)} {i : Nat} {x : α} :
    l.getD i none = some x ↔ l[i]? = some (some x) := by
  rw [List.getD_eq_getElem?_getD]
  cases h : l[i]? with
  | none => simp
  | some o => simp

theorem mem_of_getD {α : Type} {l : List (Option α)} {i : Nat} {x : α}
    (h : l.getD i none = some x) : some x ∈ l :=
  List.getElem?_mem (getD_eq_some_iff.1 h)

theorem live_all_getD {α : Type} {P : α → Prop} {l : List (Option α)} {i : Nat} {x : α}
    (hl : live_all P l) (h : l.getD i none = some x) : P x :=
  hl x (mem_of_getD h)

theorem live_all_append_one {α : Type} {P : α → Prop} {l : List (Option α)} {v : α}
    (hl : live_all P l) (hv : P v) : live_all P (l ++ [some v]) := by
  intro x hx
  rcases List.mem_append.1 hx with h | h
  · exact hl x h
  · simp at h
    rw [h]
    exact hv

theorem live_all_set_some {α : Type} {P : α → Prop} {l : List (Option α)} {v : α} (i : Nat)
    (hl : live_all P l) (hv : P v) : live_all P (l.set i (some v)) := by
  intro x hx
  rcases List.mem_or_eq_of_mem_set hx with h | h
  · exact hl x h
  · simp at h
    rw [h]
    exact hv

theorem live_all_set_none {α : Type} {P : α → Prop} {l : List (Option α)} (i : Nat)
    (hl : live_all P l) : live_all P (l.set i none) := by
  intro x hx
  rcases List.mem_or_eq_of_mem_set hx with h | h
  · exact hl x h
  · simp at h

/-! ## What the member functions leave alone -/

theorem lock_fuel (h : Heap) (w : weak_ptr) (spurious : List Bool) :
    weak_ptr.lock h w (spurious.length + 1) spurious =
      if w.blk = 0 ∨ h.strong w.blk = 0 then some (shared_ptr.ctor_default, h)
      else some ({ object := w.object, blk := w.blk }, h.inc_strong w.blk) :=
  lock_eq h w (spurious.length + 1) spurious (Nat.lt_succ_self _)

/-! ## Null payload pointers and null blocks -/

theorem null_ok_zero (strict : Prop) : null_ok strict 0 0 :=
  ⟨fun _ => rfl, fun _ _ => rfl⟩

theorem step_null_inv (strict : Prop) (σ : State) (op : Op) (hI : σ.null_inv strict)
    (hop : ∀ p a, op = Op.sp_raw p a → strict → p ≠ 0) : (σ.step op).null_inv strict := by
  obtain ⟨hn, hs, hw⟩ := hI
  cases op with
  | sp_default =>
    exact ⟨hn, live_all_append_one hs (null_ok_zero strict), hw⟩
  | sp_raw p a =>
    refine ⟨alloc_inv_new σ.heap a hn, live_all_append_one hs ?_, hw⟩
    show null_ok strict p (σ.heap.alloc_addr a)
    exact ⟨fun h0 => absurd h0 (alloc_addr_fresh σ.heap a hn).1,
      fun hq hp => absurd hp (hop p a rfl hq)⟩
  | sp_copy src =>
    cases hsrc : σ.shared src with
    | none =>
      simp only [State.step, hsrc]
      exact ⟨hn, hs, hw⟩
    | some o =>
      have ho := live_all_getD hs hsrc
      simp only [State.step, hsrc, shared_ptr.ctor_copy]
      split_ifs
      · exact ⟨hn, live_all_append_one hs ho, hw⟩
      · exact ⟨hn, live_all_append_one hs ho, hw⟩
  | sp_move src =>
    cases hsrc : σ.shared src with
    | none =>
      simp only [State.step, hsrc]
      exact ⟨hn, hs, hw⟩
    | some o =>
      have ho := live_all_getD hs hsrc
      simp only [State.step, hsrc, shared_ptr.ctor_move]
      exact ⟨hn, live_all_append_one (live_all_set_some src hs (null_ok_zero strict)) ho, hw⟩
  | sp_assign_copy dst src =>
    cases hdst : σ.shared dst with
    | none =>
      simp only [State.step, hdst]
      exact ⟨hn, hs, hw⟩
    | some t =>
      cases hsrc : σ.shared src with
      | none =>
        simp only [State.step, hdst, hsrc]
        exact ⟨hn, hs, hw⟩
      | some o =>
        have ht := live_all_getD hs hdst
        have ho := live_all_getD hs hsrc
        simp only [State.step, hdst, hsrc, shared_ptr.assign_copy]
        split_ifs
        · exact ⟨hn, live_all_set_some dst hs ht, hw⟩
        · exact ⟨alloc_inv_inc_strong _ _ (alloc_inv_release_strong _ _ hn),
            live_all_set_some dst hs ho, hw⟩
        · exact ⟨alloc_inv_release_strong _ _ hn, live_all_set_some dst hs ho, hw⟩
  | sp_assign_move dst src =>
    cases hdst : σ.shared dst with
    | none =>
      simp only [State.step, hdst]
      exact ⟨hn, hs, hw⟩
    | some t =>
      cases hsrc : σ.shared src with
      | none =>
        simp only [State.step, hdst, hsrc]
        exact ⟨hn, hs, hw⟩
      | some o =>
        have ht := live_all_getD hs hdst
        have ho := live_all_getD hs hsrc
        simp only [State.step, hdst, hsrc, shared_ptr.assign_move]
        split_ifs
        · exact ⟨hn, live_all_set_some dst (live_all_set_some src hs ho) ht, hw⟩
        · exact ⟨hn, live_all_set_some dst (live_all_set_some src hs (null_ok_zero strict)) ho,
            hw⟩
  | sp_dtor i =>
    cases hi : σ.shared i with
    | none =>
      simp only [State.step, hi]
      exact ⟨hn, hs, hw⟩
    | some t =>
      simp only [State.step, hi, shared_ptr.dtor]
      exact ⟨alloc_inv_release_strong _ _ hn, live_all_set_none i hs, hw⟩
  | wp_default =>
    exact ⟨hn, hs, live_all_append_one hw (null_ok_zero strict)⟩
  | wp_copy src uninit =>
    cases hsrc : σ.weakv src with
    | none =>
      simp only [State.step, hsrc]
      exact ⟨hn, hs, hw⟩
    | some o =>
      have ho := live_all_getD hw hsrc
      simp only [State.step, hsrc, weak_ptr.ctor_copy]
      split_ifs
      · exact ⟨alloc_inv_inc_weak _ _ (alloc_inv_release_weak _ _ hn), hs,
          live_all_append_one hw ho⟩
      · exact ⟨alloc_inv_release_weak _ _ hn, hs, live_all_append_one hw ho⟩
  | wp_move src =>
    cases hsrc : σ.weakv src with
    | none =>
      simp only [State.step, hsrc]
      exact ⟨hn, hs, hw⟩
    | some o =>
      have ho := live_all_getD hw hsrc
      simp only [State.step, hsrc, weak_ptr.ctor_move]
      exact ⟨hn, hs, live_all_append_one (live_all_set_some src hw (null_ok_zero strict)) ho⟩
  | wp_shared src =>
    cases hsrc : σ.shared src with
    | none =>
      simp only [State.step, hsrc]
      exact ⟨hn, hs, hw⟩
    | some o =>
      have ho := live_all_getD hs hsrc
      simp only [State.step, hsrc, weak_ptr.ctor_shared]
      split_ifs
      · exact ⟨hn, hs, live_all_append_one hw (null_ok_zero strict)⟩
      · exact ⟨hn, hs, live_all_append_one hw ho⟩
  | wp_dtor i =>
    cases hi : σ.weakv i with
    | none =>
      simp only [State.step, hi]
      exact ⟨hn, hs, hw⟩
    | some t =>
      simp only [State.step, hi, weak_ptr.dtor]
      exact ⟨alloc_inv_release_weak _ _ hn, hs, live_all_set_none i hw⟩
  | wp_assign_shared dst src =>
    cases hdst : σ.weakv dst with
    | none =>
      simp only [State.step, hdst]
      exact ⟨hn, hs, hw⟩
    | some t =>
      cases hsrc : σ.shared src with
      | none =>
        simp only [State.step, hdst, hsrc]
        exact ⟨hn, hs, hw⟩
      | some o =>
        have ho := live_all_getD hs hsrc
        simp only [State.step, hdst, hsrc, weak_ptr.assign_shared]
        split_ifs
        · exact ⟨alloc_inv_release_weak _ _ hn, hs,
            live_all_set_some dst hw (null_ok_zero strict)⟩
        · exact ⟨alloc_inv_inc_weak _ _ (alloc_inv_release_weak _ _ hn), hs,
            live_all_set_some dst hw ho⟩
  | wp_assign_copy dst src =>
    cases hdst : σ.weakv dst with
    | none =>
      simp only [State.step, hdst]
      exact ⟨hn, hs, hw⟩
    | some t =>
      cases hsrc : σ.weakv src with
      | none =>
        simp only [State.step, hdst, hsrc]
        exact ⟨hn, hs, hw⟩
      | some o =>
        have ht := live_all_getD hw hdst
        have ho := live_all_getD hw hsrc
        simp only [State.step, hdst, hsrc, weak_ptr.assign_copy]
        split_ifs
        · exact ⟨hn, hs, live_all_set_some dst hw ht⟩
        · exact ⟨alloc_inv_inc_weak _ _ (alloc_inv_release_weak _ _ hn), hs,
            live_all_set_some dst hw ho⟩
        · exact ⟨alloc_inv_release_weak _ _ hn, hs, live_all_set_some dst hw ho⟩
  | wp_assign_move dst src =>
    cases hdst : σ.weakv dst with
    | none =>
      simp only [State.step, hdst]
      exact ⟨hn, hs, hw⟩
    | some t =>
      cases hsrc : σ.weakv src with
      | none =>
        simp only [State.step, hdst, hsrc]
        exact ⟨hn, hs, hw⟩
      | some o =>
        have ht := live_all_getD hw hdst
        have ho := live_all_getD hw hsrc
        simp only [State.step, hdst, hsrc, weak_ptr.assign_move]
        split_ifs
        · exact ⟨hn, hs, live_all_set_some dst (live_all_set_some src hw ho) ht⟩
        · exact ⟨hn, hs,
            live_all_set_some dst (live_all_set_some src hw (null_ok_zero strict)) ho⟩
  | wp_lock src spurious =>
    cases hsrc : σ.weakv src with
    | none =>
      simp only [State.step, hsrc]
      exact ⟨hn, hs, hw⟩
    | some o =>
      have ho := live_all_getD hw hsrc
      simp only [State.step, hsrc, lock_fuel]
      split_ifs
      · exact ⟨hn, live_all_append_one hs (null_ok_zero strict), hw⟩
      · exact ⟨hn, live_all_append_one hs ho, hw⟩

theorem run_null_inv (strict : Prop) (ops : List Op) :
    ∀ σ : State, σ.null_inv strict → (∀ p a, Op.sp_raw p a ∈ ops → strict → p ≠ 0) →
      (σ.run ops).null_inv strict := by
  induction ops with
  | nil =>
    intro σ hI _
    exact hI
  | cons op ops ih =>
    intro σ hI hop
    rw [run_cons]
    apply ih
    · apply step_null_inv strict σ op hI
      intro p a hp hq
      exact hop p a (by simp [hp]) hq
    · intro p a hp hq
      exact hop p a (List.mem_cons_of_mem _ hp) hq

theorem init_null_inv (strict : Prop) : State.init.null_inv strict := by
  refine ⟨⟨rfl, by decide, fun b hb => ?_⟩, ?_, ?_⟩
  · exact absurd hb (by simp [State.init, Heap.empty])
  · intro x hx
    simp [State.init] at hx
  · intro x hx
    simp [State.init] at hx

/-- C9 (as amended): for every strong handle `x` that is alive after a sequence of handle
operations, a null control-block reference comes with a null payload pointer (so a
non-null `get()` implies `bool(x)`); and if no handle of the sequence was constructed
from a null raw pointer, `bool(x)` is true exactly when `get()` is non-null. -/
theorem null_block_null_payload (ops : List Op) (i : Nat) (x : shared_ptr)
    (hx : (State.init.run ops).shared i = some x) :
    (x.toBool = false → x.get = 0) ∧
    ((∀ p a, Op.sp_raw p a ∈ ops → p ≠ 0) → (x.toBool = true ↔ x.get ≠ 0)) := by
  constructor
  · intro hb
    have hI := run_null_inv False ops State.init (init_null_inv False)
      (fun _ _ _ hq => absurd hq id)
    have hg := live_all_getD hI.2.1 hx
    apply hg.1
    simpa [shared_ptr.toBool] using hb
  · intro hraw
    have hI := run_null_inv True ops State.init (init_null_inv True)
      (fun p a hp _ => hraw p a hp)
    have hg := live_all_getD hI.2.1 hx
    simp only [shared_ptr.toBool, shared_ptr.get, bne_iff_ne, ne_eq]
    constructor
    · intro hb ho
      exact hb (hg.2 trivial ho)
    · intro ho hb
      exact ho (hg.1 hb)

/-- Witness of `null_block_null_payload`: the moved-from handle and the handle that took
over a payload. -/
theorem null_block_null_payload_witness :
    (State.init.run [.sp_raw 7 0, .sp_move 0]).shared 0 = some { object := 0, blk := 0 } ∧
    ((({ object := 0, blk := 0 } : shared_ptr).toBool = false →
        ({ object := 0, blk := 0 } : shared_ptr).get = 0) ∧
     ((∀ p a, Op.sp_raw p a ∈ [Op.sp_raw 7 0, Op.sp_move 0] → p ≠ 0) →
        (({ object := 0, blk := 0 } : shared_ptr).toBool = true ↔
          ({ object := 0, blk := 0 } : shared_ptr).get ≠ 0))) :=
  ⟨by decide,
   null_block_null_payload [.sp_raw 7 0, .sp_move 0] 0 { object := 0, blk := 0 } (by decide)⟩

/-- C9 as stated fails: the handle constructed from the null raw pointer has a non-null
control block and a null payload pointer, so `bool(h)` is true while `get()` is null. -/
theorem raw_null_has_block :
    (State.init.run [.sp_raw 0 0]).shared 0 = some { object := 0, blk := 1 } ∧
    ({ object := 0, blk := 1 } : shared_ptr).toBool = true ∧
    ({ object := 0, blk := 1 } : shared_ptr).get = 0 ∧
    shared_ptr.use_count (State.init.run [.sp_raw 0 0]).heap { object := 0, blk := 1 } = 1 := by
  decide

/-! ## Properties of the fields of the live handles -/

/-- A property of the two fields of a handle that the empty handle has, and that the
handle made by a construction from a raw pointer has, is kept by every operation for all
live handles. -/
theorem step_pair_inv (P : Nat → Nat → Prop) (h00 : P 0 0) (σ : State) (op : Op)
    (hs : live_all (fun x : shared_ptr => P x.object x.blk) σ.sp)
    (hw : live_all (fun w : weak_ptr => P w.object w.blk) σ.wp)
    (hop : ∀ p a, op = Op.sp_raw p a → P p (σ.heap.alloc_addr a)) :
    live_all (fun x : shared_ptr => P x.object x.blk) (σ.step op).sp ∧
    live_all (fun w : weak_ptr => P w.object w.blk) (σ.step op).wp := by
  cases op with
  | sp_default =>
    exact ⟨live_all_append_one hs (h00), hw⟩
  | sp_raw p a =>
    exact ⟨live_all_append_one hs (hop p a rfl), hw⟩
  | sp_copy src =>
    cases hsrc : σ.shared src with
    | none =>
      simp only [State.step, hsrc]
      exact ⟨hs, hw⟩
    | some o =>
      have ho := hs _ (mem_of_getD hsrc)
      simp only [State.step, hsrc, shared_ptr.ctor_copy]
      split_ifs
      · exact ⟨live_all_append_one hs ho, hw⟩
      · exact ⟨live_all_append_one hs ho, hw⟩
  | sp_move src =>
    cases hsrc : σ.shared src with
    | none =>
      simp only [State.step, hsrc]
      exact ⟨hs, hw⟩
    | some o =>
      have ho := hs _ (mem_of_getD hsrc)
      simp only [State.step, hsrc, shared_ptr.ctor_move]
      exact ⟨live_all_append_one (live_all_set_some src hs (h00)) ho, hw⟩
  | sp_assign_copy dst src =>
    cases hdst : σ.shared dst with
    | none =>
      simp only [State.step, hdst]
      exact ⟨hs, hw⟩
    | some t =>
      cases hsrc : σ.shared src with
      | none =>
        simp only [State.step, hdst, hsrc]
        exact ⟨hs, hw⟩
      | some o =>
        have ht := hs _ (mem_of_getD hdst)
        have ho := hs _ (mem_of_getD hsrc)
        simp only [State.step, hdst, hsrc, shared_ptr.assign_copy]
        split_ifs
        · exact ⟨live_all_set_some dst hs ht, hw⟩
        · exact ⟨live_all_set_some dst hs ho, hw⟩
        · exact ⟨live_all_set_some dst hs ho, hw⟩
  | sp_assign_move dst src =>
    cases hdst : σ.shared dst with
    | none =>
      simp only [State.step, hdst]
      exact ⟨hs, hw⟩
    | some t =>
      cases hsrc : σ.shared src with
      | none =>
        simp only [State.step, hdst, hsrc]
        exact ⟨hs, hw⟩
      | some o =>
        have ht := hs _ (mem_of_getD hdst)
        have ho := hs _ (mem_of_getD hsrc)
        simp only [State.step, hdst, hsrc, shared_ptr.assign_move]
        split_ifs
        · exact ⟨live_all_set_some dst (live_all_set_some src hs ho) ht, hw⟩
        · exact ⟨live_all_set_some dst (live_all_set_some src hs (h00)) ho,
            hw⟩
  | sp_dtor i =>
    cases hi : σ.shared i with
    | none =>
      simp only [State.step, hi]
      exact ⟨hs, hw⟩
    | some t =>
      simp only [State.step, hi, shared_ptr.dtor]
      exact ⟨live_all_set_none i hs, hw⟩
  | wp_default =>
    exact ⟨hs, live_all_append_one hw (h00)⟩
  | wp_copy src uninit =>
    cases hsrc : σ.weakv src with
    | none =>
      simp only [State.step, hsrc]
      exact ⟨hs, hw⟩
    | some o =>
      have ho := hw _ (mem_of_getD hsrc)
      simp only [State.step, hsrc, weak_ptr.ctor_copy]
      split_ifs
      · exact ⟨hs,
          live_all_append_one hw ho⟩
      · exact ⟨hs, live_all_append_one hw ho⟩
  | wp_move src =>
    cases hsrc : σ.weakv src with
    | none =>
      simp only [State.step, hsrc]
      exact ⟨hs, hw⟩
    | some o =>
      have ho := hw _ (mem_of_getD hsrc)
      simp only [State.step, hsrc, weak_ptr.ctor_move]
      exact ⟨hs, live_all_append_one (live_all_set_some src hw (h00)) ho⟩
  | wp_shared src =>
    cases hsrc : σ.shared src with
    | none =>
      simp only [State.step, hsrc]
      exact ⟨hs, hw⟩
    | some o =>
      have ho := hs _ (mem_of_getD hsrc)
      simp only [State.step, hsrc, weak_ptr.ctor_shared]
      split_ifs
      · exact ⟨hs, live_all_append_one hw (h00)⟩
      · exact ⟨hs, live_all_append_one hw ho⟩
  | wp_dtor i =>
    cases hi : σ.weakv i with
    | none =>
      simp only [State.step, hi]
      exact ⟨hs, hw⟩
    | some t =>
      simp only [State.step, hi, weak_ptr.dtor]
      exact ⟨hs, live_all_set_none i hw⟩
  | wp_assign_shared dst src =>
    cases hdst : σ.weakv dst with
    | none =>
      simp only [State.step, hdst]
      exact ⟨hs, hw⟩
    | some t =>
      cases hsrc : σ.shared src with
      | none =>
        simp only [State.step, hdst, hsrc]
        exact ⟨hs, hw⟩
      | some o =>
        have ho := hs _ (mem_of_getD hsrc)
        simp only [State.step, hdst, hsrc, weak_ptr.assign_shared]
        split_ifs
        · exact ⟨hs,
            live_all_set_some dst hw (h00)⟩
        · exact ⟨hs,
            live_all_set_some dst hw ho⟩
  | wp_assign_copy dst src =>
    cases hdst : σ.weakv dst with
    | none =>
      simp only [State.step, hdst]
      exact ⟨hs, hw⟩
    | some t =>
      cases hsrc : σ.weakv src with
      | none =>
        simp only [State.step, hdst, hsrc]
        exact ⟨hs, hw⟩
      | some o =>
        have ht := hw _ (mem_of_getD hdst)
        have ho := hw _ (mem_of_getD hsrc)
        simp only [State.step, hdst, hsrc, weak_ptr.assign_copy]
        split_ifs
        · exact ⟨hs, live_all_set_some dst hw ht⟩
        · exact ⟨hs,
            live_all_set_some dst hw ho⟩
        · exact ⟨hs, live_all_set_some dst hw ho⟩
  | wp_assign_move dst src =>
    cases hdst : σ.weakv dst with
    | none =>
      simp only [State.step, hdst]
      exact ⟨hs, hw⟩
    | some t =>
      cases hsrc : σ.weakv src with
      | none =>
        simp only [State.step, hdst, hsrc]
        exact ⟨hs, hw⟩
      | some o =>
        have ht := hw _ (mem_of_getD hdst)
        have ho := hw _ (mem_of_getD hsrc)
        simp only [State.step, hdst, hsrc, weak_ptr.assign_move]
        split_ifs
        · exact ⟨hs, live_all_set_some dst (live_all_set_some src hw ho) ht⟩
        · exact ⟨hs,
            live_all_set_some dst (live_all_set_some src hw (h00)) ho⟩
  | wp_lock src spurious =>
    cases hsrc : σ.weakv src with
    | none =>
      simp only [State.step, hsrc]
      exact ⟨hs, hw⟩
    | some o =>
      have ho := hw _ (mem_of_getD hsrc)
      simp only [State.step, hsrc, lock_fuel]
      split_ifs
      · exact ⟨live_all_append_one hs (h00), hw⟩
      · exact ⟨live_all_append_one hs ho, hw⟩

/-! ## Counting live strong handles -/

theorem sp_on_append (l : List (Option shared_ptr)) (x : shared_ptr) (b : Nat) :
    (l ++ [some x]).countP (State.sp_on b) =
      l.countP (State.sp_on b) + (if x.blk = b then 1 else 0) := by
  simp [List.countP_append, List.countP_cons, State.sp_on]

theorem countP_set_getD {α : Type} (p : Option α → Bool) :
    ∀ (l : List (Option α)) (i : Nat) (t : α) (v : Option α), l.getD i none = some t →
      (l.set i v).countP p + (if p (some t) then 1 else 0) =
        l.countP p + (if p v then 1 else 0) := by
  intro l
  induction l with
  | nil =>
    intro i t v h
    simp at h
  | cons a tl ih =>
    intro i t v h
    cases i with
    | zero =>
      have ha : a = some t := by simpa using h
      subst ha
      simp only [List.set_cons_zero, List.countP_cons]
      omega
    | succ i =>
      have h2 : tl.getD i none = some t := by simpa using h
      have := ih i t v h2
      simp only [List.set_cons_succ, List.countP_cons]
      omega

theorem sp_on_set_some (l : List (Option shared_ptr)) (i : Nat) (t x : shared_ptr) (b : Nat)
    (h : l.getD i none = some t) :
    (l.set i (some x)).countP (State.sp_on b) + (if t.blk = b then 1 else 0) =
      l.countP (State.sp_on b) + (if x.blk = b then 1 else 0) := by
  have := countP_set_getD (State.sp_on b) l i t (some x) h
  simpa [State.sp_on] using this

theorem sp_on_set_none (l : List (Option shared_ptr)) (i : Nat) (t : shared_ptr) (b : Nat)
    (h : l.getD i none = some t) :
    (l.set i none).countP (State.sp_on b) + (if t.blk = b then 1 else 0) =
      l.countP (State.sp_on b) := by
  have := countP_set_getD (State.sp_on b) l i t none h
  simpa [State.sp_on] using this

theorem sp_on_pos (l : List (Option shared_ptr)) (i : Nat) (t : shared_ptr)
    (h : l.getD i none = some t) : 1 ≤ l.countP (State.sp_on t.blk) := by
  apply List.countP_pos_iff.2
  exact ⟨some t, mem_of_getD h, by simp [State.sp_on]⟩

theorem getD_set_ne {α : Type} (l : List (Option α)) (i j : Nat) (v : Option α) (hij : i ≠ j) :
    (l.set i v).getD j none = l.getD j none := by
  rw [List.getD_eq_getElem?_getD, List.getD_eq_getElem?_getD, List.getElem?_set_ne hij]

/-! ## The strong counter under the heap operations -/

theorem sp_on_ge (l : List (Option shared_ptr)) (i : Nat) (t : shared_ptr) (b : Nat)
    (h : l.getD i none = some t) :
    (if t.blk = b then 1 else 0) ≤ l.countP (State.sp_on b) := by
  split_ifs with hb
  · subst hb
    exact sp_on_pos l i t h
  · exact Nat.zero_le _

theorem getD_set_self {α : Type} (l : List (Option α)) (i : Nat) (t : α) (v : Option α)
    (h : l.getD i none = some t) : (l.set i v).getD i none = v := by
  have hlt : i < l.length := by
    obtain ⟨hlt, _⟩ := List.getElem?_eq_some.1 (getD_eq_some_iff.1 h)
    exact hlt
  rw [List.getD_eq_getElem?_getD, List.getElem?_set_self hlt]
  rfl

/-- Two different variables holding handles on the block at `b` make at least two live
strong handles on it. -/
theorem two_refs (l : List (Option shared_ptr)) (i j : Nat) (t o : shared_ptr) (b : Nat)
    (hij : i ≠ j) (hi : l.getD i none = some t) (hj : l.getD j none = some o)
    (ht : t.blk = b) (ho : o.blk = b) : 2 ≤ l.countP (State.sp_on b) := by
  have e := sp_on_set_none l i t b hi
  have hj2 : (l.set i none).getD j none = some o := by
    rw [getD_set_ne l i j none hij]
    exact hj
  have g := sp_on_ge (l.set i none) j o b hj2
  simp only [ht, ho, if_true] at e g
  omega

theorem live_all_mono {α : Type} {P Q : α → Prop} {l : List (Option α)}
    (h : ∀ x, P x → Q x) (hl : live_all P l) : live_all Q l :=
  fun x hx => h x (hl x hx)

/-! ## Counting live weak handles -/

theorem wp_on_append (l : List (Option weak_ptr)) (x : weak_ptr) (b : Nat) :
    (l ++ [some x]).countP (State.wp_on b) =
      l.countP (State.wp_on b) + (if x.blk = b then 1 else 0) := by
  simp [List.countP_append, List.countP_cons, State.wp_on]

theorem wp_on_set_some (l : List (Option weak_ptr)) (i : Nat) (t x : weak_ptr) (b : Nat)
    (h : l.getD i none = some t) :
    (l.set i (some x)).countP (State.wp_on b) + (if t.blk = b then 1 else 0) =
      l.countP (State.wp_on b) + (if x.blk = b then 1 else 0) := by
  have := countP_set_getD (State.wp_on b) l i t (some x) h
  simpa [State.wp_on] using this

theorem wp_on_set_none (l : List (Option weak_ptr)) (i : Nat) (t : weak_ptr) (b : Nat)
    (h : l.getD i none = some t) :
    (l.set i none).countP (State.wp_on b) + (if t.blk = b then 1 else 0) =
      l.countP (State.wp_on b) := by
  have := countP_set_getD (State.wp_on b) l i t none h
  simpa [State.wp_on] using this

theorem wp_on_pos (l : List (Option weak_ptr)) (i : Nat) (t : weak_ptr)
    (h : l.getD i none = some t) : 1 ≤ l.countP (State.wp_on t.blk) := by
  apply List.countP_pos_iff.2
  exact ⟨some t, mem_of_getD h, by simp [State.wp_on]⟩

theorem sp_on_none (l : List (Option shared_ptr)) (b : Nat)
    (h : l.countP (State.sp_on b) = 0) : live_all (fun x : shared_ptr => x.blk ≠ b) l := by
  intro x hx hb
  have := (List.countP_eq_zero.1 h) (some x) hx
  simp [State.sp_on, hb] at this

theorem wp_on_none (l : List (Option weak_ptr)) (b : Nat)
    (h : l.countP (State.wp_on b) = 0) : live_all (fun x : weak_ptr => x.blk ≠ b) l := by
  intro x hx hb
  have := (List.countP_eq_zero.1 h) (some x) hx
  simp [State.wp_on, hb] at this

/-! ## The counting invariant under the heap operations -/

theorem counted_live (h : Heap) (rs rw : Nat → Nat) (hI : h.counted rs rw) (b : Nat)
    (hb : b ≠ 0) (hr : 1 ≤ rs b ∨ 1 ≤ rw b) : h.live b = true := by
  cases hl : h.live b with
  | true => rfl
  | false =>
    have := hI.2.1 b hb hl
    omega

theorem counted_ne_zero (h : Heap) (rs rw : Nat → Nat) (hI : h.counted rs rw) (b : Nat)
    (hl : h.live b = true) : b ≠ 0 := by
  intro hb
  rw [hb, hI.1.1] at hl
  exact absurd hl (by decide)

/-- Fewer live handles keep the counting invariant. -/
theorem counted_mono (h : Heap) (rs rw rs2 rw2 : Nat → Nat) (hI : h.counted rs rw)
    (h1 : ∀ b, b ≠ 0 → rs2 b ≤ rs b) (h2 : ∀ b, b ≠ 0 → rw2 b ≤ rw b) :
    h.counted rs2 rw2 := by
  refine ⟨hI.1, fun b hb hl => ?_, fun b hl => ?_⟩
  · have := hI.2.1 b hb hl
    have := h1 b hb
    have := h2 b hb
    omega
  · have hb := counted_ne_zero h rs rw hI b hl
    obtain ⟨c1, c2, c3, c4, c5⟩ := hI.2.2 b hl
    have := h1 b hb
    have := h2 b hb
    refine ⟨by omega, c2, ?_, c4, c5⟩
    split_ifs at c3 ⊢ <;> omega

/-- The release step of a live strong handle keeps the counting invariant. -/
theorem counted_release_strong (h : Heap) (x : shared_ptr) (rs rs2 rw : Nat → Nat)
    (hI : h.counted rs rw) (hx : x.blk ≠ 0 → 1 ≤ rs x.blk)
    (hrs : ∀ b, b ≠ 0 → rs2 b + (if x.blk = b then 1 else 0) = rs b) :
    (shared_ptr.release_strong_ref h x).counted rs2 rw := by
  by_cases hx0 : x.blk = 0
  · rw [release_strong_ref_null h x hx0]
    apply counted_mono h rs rw rs2 rw hI
    · intro b hb
      have := hrs b hb
      omega
    · intro b _
      exact le_refl _
  · have hla := counted_live h rs rw hI x.blk hx0 (Or.inl (hx hx0))
    obtain ⟨a1, a2, a3, a4, a5⟩ := hI.2.2 x.blk hla
    have hxa := hx hx0
    refine ⟨alloc_inv_release_strong h x hI.1, fun b hb hl => ?_, fun b hl => ?_⟩
    · rw [release_strong_ref_live] at hl
      have hr := hrs b hb
      split_ifs at hl with hc
      · obtain ⟨_, c1, c2, c3⟩ := hc
        subst c3
        rw [c1] at a1 a3
        rw [c2] at a3
        simp only [if_true] at hr a3
        omega
      · have := hI.2.1 b hb hl
        omega
    · rw [release_strong_ref_live] at hl
      split_ifs at hl with hc
      have hb := counted_ne_zero h rs rw hI b hl
      obtain ⟨c1, c2, c3, c4, c5⟩ := hI.2.2 b hl
      have hr := hrs b hb
      rw [release_strong_ref_strong h x b hb, release_strong_ref_weak]
      unfold INT32_MAX at *
      by_cases hab : x.blk = b
      · subst hab
        simp only [if_true] at hr
        have hw1 : ¬ (h.strong x.blk = 1 ∧ h.weak x.blk = 1) := fun hh =>
          hc ⟨hx0, hh.1, hh.2, rfl⟩
        by_cases hs1 : h.strong x.blk = 1
        · have hw2 : h.weak x.blk ≠ 1 := fun hh => hw1 ⟨hs1, hh⟩
          simp only [hs1, if_true, ne_eq, hx0, not_false_eq_true, and_self] at c3 ⊢
          unfold wrap32
          rw [hs1] at c1
          refine ⟨by omega, by omega, ?_, by omega, by omega⟩
          split_ifs <;> omega
        · simp only [if_true, ne_eq, hx0, not_false_eq_true, hs1, false_and, and_false,
            if_false]
          unfold wrap32
          refine ⟨by omega, by omega, ?_, by omega, by omega⟩
          split_ifs at c3 ⊢ <;> omega
      · simp only [hab, if_false, and_false] at hr ⊢
        refine ⟨by omega, c2, c3, c4, c5⟩

/-- Taking a strong unit of a block that holds one, below `INT32_MAX`, for a new live
strong handle keeps the counting invariant. -/
theorem counted_inc_strong (h : Heap) (a : Nat) (rs rs2 rw : Nat → Nat)
    (hI : h.counted rs rw) (hl : h.live a = true) (hpos : 1 ≤ h.strong a)
    (hmax : h.strong a ≠ INT32_MAX)
    (hrs : ∀ b, b ≠ 0 → rs2 b = rs b + (if a = b then 1 else 0)) :
    (h.inc_strong a).counted rs2 rw := by
  refine ⟨hI.1, fun b hb hlb => ?_, fun b hlb => ?_⟩
  · have hlb2 : h.live b = false := hlb
    have hab : ¬ a = b := by
      intro hab
      rw [hab, hlb2] at hl
      exact absurd hl (by decide)
    have := hI.2.1 b hb hlb2
    have := hrs b hb
    simp only [hab, if_false] at this
    omega
  · have hlb2 : h.live b = true := hlb
    have hb := counted_ne_zero h rs rw hI b hlb2
    obtain ⟨c1, c2, c3, c4, c5⟩ := hI.2.2 b hlb2
    have hr := hrs b hb
    rw [inc_strong_strong, inc_strong_weak]
    unfold INT32_MAX at *
    by_cases hab : a = b
    · subst hab
      simp only [if_true] at hr ⊢
      unfold wrap32
      refine ⟨by omega, by omega, ?_, c4, c5⟩
      split_ifs at c3 ⊢ <;> omega
    · simp only [hab, if_false] at hr ⊢
      exact ⟨by omega, c2, c3, c4, c5⟩

/-- The release step of a live weak handle keeps the counting invariant. -/
theorem counted_release_weak (h : Heap) (w : weak_ptr) (rs rw rw2 : Nat → Nat)
    (hI : h.counted rs rw) (hw : w.blk ≠ 0 → 1 ≤ rw w.blk)
    (hrw : ∀ b, b ≠ 0 → rw2 b + (if w.blk = b then 1 else 0) = rw b) :
    (weak_ptr.release_weak_ref h w).counted rs rw2 := by
  by_cases hw0 : w.blk = 0
  · rw [release_weak_ref_null h w hw0]
    apply counted_mono h rs rw rs rw2 hI
    · intro b _
      exact le_refl _
    · intro b hb
      have := hrw b hb
      omega
  · have hla := counted_live h rs rw hI w.blk hw0 (Or.inr (hw hw0))
    obtain ⟨a1, a2, a3, a4, a5⟩ := hI.2.2 w.blk hla
    have hwa := hw hw0
    refine ⟨alloc_inv_release_weak h w hI.1, fun b hb hl => ?_, fun b hl => ?_⟩
    · rw [release_weak_ref_live] at hl
      have hr := hrw b hb
      split_ifs at hl with hc
      · obtain ⟨_, c2, c3⟩ := hc
        subst c3
        rw [c2] at a3
        simp only [if_true] at hr
        split_ifs at a3 <;> omega
      · have := hI.2.1 b hb hl
        omega
    · rw [release_weak_ref_live] at hl
      split_ifs at hl with hc
      have hb := counted_ne_zero h rs rw hI b hl
      obtain ⟨c1, c2, c3, c4, c5⟩ := hI.2.2 b hl
      have hr := hrw b hb
      rw [release_weak_ref_strong, release_weak_ref_weak]
      unfold INT32_MAX at *
      by_cases hab : w.blk = b
      · subst hab
        simp only [if_true] at hr
        have hw1 : h.weak w.blk ≠ 1 := fun hh => hc ⟨hw0, hh, rfl⟩
        simp only [ne_eq, hw0, not_false_eq_true, and_self, if_true]
        unfold wrap32
        refine ⟨c1, c2, ?_, by omega, by omega⟩
        split_ifs at c3 ⊢ <;> omega
      · simp only [hab, if_false, and_false] at hr ⊢
        refine ⟨c1, c2, ?_, c4, c5⟩
        split_ifs at c3 ⊢ <;> omega

/-- Taking a weak unit of a block, below `INT32_MAX`, for a new live weak handle keeps the
counting invariant. -/
theorem counted_inc_weak (h : Heap) (a : Nat) (rs rw rw2 : Nat → Nat)
    (hI : h.counted rs rw) (hl : h.live a = true) (hmax : h.weak a ≠ INT32_MAX)
    (hrw : ∀ b, b ≠ 0 → rw2 b = rw b + (if a = b then 1 else 0)) :
    (h.inc_weak a).counted rs rw2 := by
  refine ⟨hI.1, fun b hb hlb => ?_, fun b hlb => ?_⟩
  · have hlb2 : h.live b = false := hlb
    have hab : ¬ a = b := by
      intro hab
      rw [hab, hlb2] at hl
      exact absurd hl (by decide)
    have := hI.2.1 b hb hlb2
    have := hrw b hb
    simp only [hab, if_false] at this
    omega
  · have hlb2 : h.live b = true := hlb
    have hb := counted_ne_zero h rs rw hI b hlb2
    obtain ⟨c1, c2, c3, c4, c5⟩ := hI.2.2 b hlb2
    have hr := hrw b hb
    rw [inc_weak_strong, inc_weak_weak]
    unfold INT32_MAX at *
    by_cases hab : a = b
    · subst hab
      simp only [if_true] at hr ⊢
      unfold wrap32
      refine ⟨c1, c2, ?_, by omega, by omega⟩
      split_ifs at c3 ⊢ <;> omega
    · simp only [hab, if_false] at hr ⊢
      exact ⟨c1, c2, by split_ifs at c3 ⊢ <;> omega, c4, c5⟩

/-- A new block with its first strong handle keeps the counting invariant, wherever the
allocator places the block. -/
theorem counted_new (h : Heap) (addr : Nat) (rs rs2 rw : Nat → Nat) (hI : h.counted rs rw)
    (hrs : ∀ b, b ≠ 0 → rs2 b = rs b + (if h.alloc_addr addr = b then 1 else 0)) :
    (h.new_control_block addr).2.counted rs2 rw := by
  obtain ⟨f1, f2⟩ := alloc_addr_fresh h addr hI.1
  have fz := hI.2.1 _ f1 f2
  refine ⟨alloc_inv_new h addr hI.1, fun b hb hlb => ?_, fun b hlb => ?_⟩
  · rw [new_control_block_live] at hlb
    split_ifs at hlb with hab
    have := hI.2.1 b hb hlb
    have := hrs b hb
    simp only [hab, if_false] at this
    omega
  · rw [new_control_block_live] at hlb
    rw [new_control_block_strong, new_control_block_weak]
    unfold INT32_MAX at *
    by_cases hab : h.alloc_addr addr = b
    · have hr := hrs b (hab ▸ f1)
      simp only [hab, if_true] at hr ⊢
      rw [hab] at fz
      refine ⟨by omega, by omega, ?_, by omega, by omega⟩
      simp only [le_refl, if_true]
      omega
    · simp only [hab, if_false] at hlb ⊢
      have hb := counted_ne_zero h rs rw hI b hlb
      have hr := hrs b hb
      simp only [hab, if_false] at hr
      obtain ⟨c1, c2, c3, c4, c5⟩ := hI.2.2 b hlb
      exact ⟨by omega, c2, c3, c4, c5⟩

/-! ## Blocks whose strong counter is `0` -/

theorem keeps_refl (b : Nat) (h : Heap) : h.keeps b h :=
  ⟨le_refl _, fun hl h0 _ => ⟨hl, h0⟩⟩

theorem keeps_trans (b : Nat) (h h1 h2 : Heap) (k1 : h.keeps b h1) (k2 : h1.keeps b h2) :
    h.keeps b h2 := by
  refine ⟨le_trans k1.1 k2.1, fun hl h0 hd => ?_⟩
  have e1 : h1.deletedBlk.count b = h.deletedBlk.count b := by
    have := k1.1
    have := k2.1
    omega
  obtain ⟨l1, s1⟩ := k1.2 hl h0 e1
  exact k2.2 l1 s1 (by omega)

theorem keeps_of_same (b : Nat) (h h2 : Heap) (hd : h2.deletedBlk = h.deletedBlk)
    (hl : h2.live b = h.live b) (hs : h.strong b = 0 → h2.strong b = 0) : h.keeps b h2 := by
  refine ⟨by rw [hd], fun l0 s0 _ => ?_⟩
  rw [hl]
  exact ⟨l0, hs s0⟩

theorem count_cons_ge (a b : Nat) (l : List Nat) : l.count b ≤ (a :: l).count b := by
  rw [List.count_cons]
  omega

theorem count_cons_self_ne (b : Nat) (l : List Nat) : (b :: l).count b ≠ l.count b := by
  rw [List.count_cons]
  simp

theorem keeps_release_strong (h : Heap) (x : shared_ptr) (rs rw : Nat → Nat)
    (hI : h.counted rs rw) (hx : x.blk ≠ 0 → 1 ≤ rs x.blk) (b : Nat) :
    h.keeps b (shared_ptr.release_strong_ref h x) := by
  constructor
  · rw [release_strong_ref_deletedBlk]
    split_ifs
    · exact count_cons_ge _ _ _
    · exact le_refl _
  · intro hl h0 _
    have hb := counted_ne_zero h rs rw hI b hl
    by_cases hx0 : x.blk = 0
    · rw [release_strong_ref_null h x hx0]
      exact ⟨hl, h0⟩
    · have hla := counted_live h rs rw hI x.blk hx0 (Or.inl (hx hx0))
      have hxa := hx hx0
      have c1 := (hI.2.2 x.blk hla).1
      have hab : ¬ x.blk = b := by
        intro hab
        rw [hab, h0] at c1
        rw [hab] at hxa
        omega
      rw [release_strong_ref_live, release_strong_ref_strong h x b hb]
      simp only [hab, and_false, if_false]
      exact ⟨hl, h0⟩

theorem keeps_inc_strong (h : Heap) (a b : Nat) (hpos : h.strong a ≠ 0) :
    h.keeps b (h.inc_strong a) := by
  refine keeps_of_same b h (h.inc_strong a) rfl rfl ?_
  intro h0
  have hab : ¬ a = b := by
    intro hab
    rw [hab] at hpos
    exact hpos h0
  rw [inc_strong_strong, if_neg hab]
  exact h0

theorem keeps_inc_weak (h : Heap) (a b : Nat) : h.keeps b (h.inc_weak a) := by
  refine keeps_of_same b h (h.inc_weak a) rfl rfl ?_
  intro h0
  rw [inc_weak_strong]
  exact h0

theorem keeps_release_weak (h : Heap) (w : weak_ptr) (b : Nat) :
    h.keeps b (weak_ptr.release_weak_ref h w) := by
  constructor
  · rw [release_weak_ref_deletedBlk]
    split_ifs
    · exact count_cons_ge _ _ _
    · exact le_refl _
  · intro hl h0 hd
    rw [release_weak_ref_deletedBlk] at hd
    rw [release_weak_ref_live, release_weak_ref_strong]
    refine ⟨?_, h0⟩
    split_ifs with hc
    · obtain ⟨c1, c2, c3⟩ := hc
      rw [if_pos ⟨c1, c2⟩, c3] at hd
      exact absurd hd (count_cons_self_ne b _)
    · exact hl

theorem keeps_new (h : Heap) (addr b : Nat) (hI : h.alloc_inv) :
    h.keeps b (h.new_control_block addr).2 := by
  refine ⟨le_refl _, fun hl h0 _ => ?_⟩
  have hab : ¬ h.alloc_addr addr = b := by
    intro hab
    have := (alloc_addr_fresh h addr hI).2
    rw [hab, hl] at this
    exact absurd this (by decide)
  rw [new_control_block_live, new_control_block_strong]
  simp only [hab, if_false]
  exact ⟨hl, h0⟩

/-! ## One operation keeps the counting invariant -/

theorem wraps_elim {n : Nat} {p : Prop} [Decidable p] (h : (n != 0 && decide p) = false)
    (hn : n ≠ 0) : ¬ p := by
  simpa [hn] using h

/-- An operation that leaves the heap alone and adds no handle on a non-null block. -/
theorem step_ok_same (σ τ : State) (hI : σ.counted) (hh : τ.heap = σ.heap)
    (h1 : ∀ b, b ≠ 0 → τ.strong_refs b ≤ σ.strong_refs b)
    (h2 : ∀ b, b ≠ 0 → τ.weak_refs b ≤ σ.weak_refs b) : σ.step_ok τ := by
  constructor
  · show τ.heap.counted τ.strong_refs τ.weak_refs
    rw [hh]
    exact counted_mono σ.heap _ _ _ _ hI h1 h2
  · intro b
    rw [hh]
    exact keeps_refl b σ.heap

theorem step_ok_refl (σ : State) (hI : σ.counted) : σ.step_ok σ :=
  step_ok_same σ σ hI rfl (fun _ _ => le_refl _) (fun _ _ => le_refl _)

theorem step_ok_sp_default (σ : State) (hI : σ.counted) :
    σ.step_ok (σ.step Op.sp_default) := by
  refine step_ok_same σ _ hI ?_ ?_ ?_
  · rfl
  · intro b hb
    show (σ.sp ++ [some shared_ptr.ctor_default]).countP (State.sp_on b) ≤ _
    rw [sp_on_append]
    have : ¬ shared_ptr.ctor_default.blk = b := fun h => hb h.symm
    simp only [this, if_false]
    exact le_refl _
  · intro b _
    exact le_refl _

theorem step_ok_wp_default (σ : State) (hI : σ.counted) :
    σ.step_ok (σ.step Op.wp_default) := by
  refine step_ok_same σ _ hI ?_ ?_ ?_
  · rfl
  · intro b _
    exact le_refl _
  · intro b hb
    show (σ.wp ++ [some weak_ptr.ctor_default]).countP (State.wp_on b) ≤ _
    rw [wp_on_append]
    have : ¬ weak_ptr.ctor_default.blk = b := fun h => hb h.symm
    simp only [this, if_false]
    exact le_refl _

theorem step_ok_sp_raw (σ : State) (p a : Nat) (hI : σ.counted) :
    σ.step_ok (σ.step (Op.sp_raw p a)) := by
  constructor
  · refine counted_new σ.heap a σ.strong_refs _ σ.weak_refs hI ?_
    intro b _
    exact sp_on_append σ.sp _ b
  · intro b
    exact keeps_new σ.heap a b hI.1

theorem step_ok_sp_copy (σ : State) (src : Nat) (hI : σ.counted)
    (hw : σ.wraps (Op.sp_copy src) = false) : σ.step_ok (σ.step (Op.sp_copy src)) := by
  cases hsrc : σ.shared src with
  | none =>
    simp only [State.step, hsrc]
    exact step_ok_refl σ hI
  | some o =>
    simp only [State.wraps, hsrc] at hw
    have hpos := sp_on_pos σ.sp src o hsrc
    simp only [State.step, hsrc, shared_ptr.ctor_copy]
    split_ifs with hb
    · have hb0 : o.blk ≠ 0 := hb
      have hl := counted_live σ.heap _ _ hI o.blk hb0 (Or.inl hpos)
      have c1 := (hI.2.2 o.blk hl).1
      have hs1 : 1 ≤ σ.heap.strong o.blk := by
        have : (1 : Int) ≤ (σ.strong_refs o.blk : Int) := by
          exact_mod_cast hpos
        omega
      constructor
      · refine counted_inc_strong σ.heap o.blk σ.strong_refs _ σ.weak_refs hI hl hs1
          (wraps_elim hw hb0) ?_
        intro b _
        exact sp_on_append σ.sp _ b
      · intro b
        exact keeps_inc_strong σ.heap o.blk b (by omega)
    · refine step_ok_same σ _ hI ?_ ?_ ?_
      · rfl
      · intro b hb1
        show (σ.sp ++ [some _]).countP (State.sp_on b) ≤ _
        rw [sp_on_append]
        have hb2 : o.blk = 0 := by simpa using hb
        have : ¬ o.blk = b := fun h => hb1 (h ▸ hb2)
        simp only [this, if_false]
        exact le_refl _
      · intro b _
        exact le_refl _

theorem step_ok_sp_move (σ : State) (src : Nat) (hI : σ.counted) :
    σ.step_ok (σ.step (Op.sp_move src)) := by
  cases hsrc : σ.shared src with
  | none =>
    simp only [State.step, hsrc]
    exact step_ok_refl σ hI
  | some o =>
    simp only [State.step, hsrc, shared_ptr.ctor_move]
    refine step_ok_same σ _ hI ?_ ?_ ?_
    · rfl
    · intro b hb
      show (σ.sp.set src (some { object := 0, blk := 0 }) ++ [some _]).countP (State.sp_on b) ≤
        σ.sp.countP (State.sp_on b)
      rw [sp_on_append]
      have e := sp_on_set_some σ.sp src o { object := 0, blk := 0 } b hsrc
      have h0 : ¬ (0 = b) := fun h => hb h.symm
      simp only [h0, if_false] at e
      show _ + (if o.blk = b then 1 else 0) ≤ _
      omega
    · intro b _
      exact le_refl _

theorem step_ok_wp_move (σ : State) (src : Nat) (hI : σ.counted) :
    σ.step_ok (σ.step (Op.wp_move src)) := by
  cases hsrc : σ.weakv src with
  | none =>
    simp only [State.step, hsrc]
    exact step_ok_refl σ hI
  | some o =>
    simp only [State.step, hsrc, weak_ptr.ctor_move]
    refine step_ok_same σ _ hI ?_ ?_ ?_
    · rfl
    · intro b _
      exact le_refl _
    · intro b hb
      show (σ.wp.set src (some { object := 0, blk := 0 }) ++ [some _]).countP (State.wp_on b) ≤
        σ.wp.countP (State.wp_on b)
      rw [wp_on_append]
      have e := wp_on_set_some σ.wp src o { object := 0, blk := 0 } b hsrc
      have h0 : ¬ (0 = b) := fun h => hb h.symm
      simp only [h0, if_false] at e
      show _ + (if o.blk = b then 1 else 0) ≤ _
      omega

theorem step_ok_sp_assign_move (σ : State) (dst src : Nat) (hI : σ.counted) :
    σ.step_ok (σ.step (Op.sp_assign_move dst src)) := by
  cases hdst : σ.shared dst with
  | none =>
    simp only [State.step, hdst]
    exact step_ok_refl σ hI
  | some t =>
    cases hsrc : σ.shared src with
    | none =>
      simp only [State.step, hdst, hsrc]
      exact step_ok_refl σ hI
    | some o =>
      by_cases hself : dst = src
      · subst hself
        have hto : t = o := by
          rw [hdst] at hsrc
          injection hsrc
        subst hto
        have e : σ.step (Op.sp_assign_move dst dst) =
            { σ with sp := (σ.sp.set dst (some t)).set dst (some t) } := by
          simp [State.step, hdst, shared_ptr.assign_move]
        rw [e]
        refine step_ok_same σ _ hI ?_ ?_ ?_
        · rfl
        · intro b _
          show ((σ.sp.set dst (some t)).set dst (some t)).countP (State.sp_on b) ≤
            σ.sp.countP (State.sp_on b)
          have e1 := sp_on_set_some σ.sp dst t t b hdst
          have e2 := sp_on_set_some (σ.sp.set dst (some t)) dst t t b
            (getD_set_self σ.sp dst t _ hdst)
          omega
        · intro b _
          exact le_refl _
      · have e : σ.step (Op.sp_assign_move dst src) =
            { σ with sp := ((σ.sp.set src (some { object := 0, blk := 0 })).set dst
                (some { object := o.object, blk := o.blk })) } := by
          simp [State.step, hdst, hsrc, shared_ptr.assign_move, hself]
        rw [e]
        refine step_ok_same σ _ hI ?_ ?_ ?_
        · rfl
        · intro b hb
          show ((σ.sp.set src (some { object := 0, blk := 0 })).set dst
            (some { object := o.object, blk := o.blk })).countP (State.sp_on b) ≤
            σ.sp.countP (State.sp_on b)
          have e1 := sp_on_set_some σ.sp src o { object := 0, blk := 0 } b hsrc
          have hd2 : (σ.sp.set src (some { object := 0, blk := 0 })).getD dst none = some t := by
            rw [getD_set_ne σ.sp src dst _ (Ne.symm hself)]
            exact hdst
          have e2 := sp_on_set_some (σ.sp.set src (some { object := 0, blk := 0 })) dst t
            { object := o.object, blk := o.blk } b hd2
          have h0 : ¬ (0 = b) := fun h => hb h.symm
          simp only [h0, if_false] at e1 e2
          omega
        · intro b _
          exact le_refl _

theorem step_ok_wp_assign_move (σ : State) (dst src : Nat) (hI : σ.counted) :
    σ.step_ok (σ.step (Op.wp_assign_move dst src)) := by
  cases hdst : σ.weakv dst with
  | none =>
    simp only [State.step, hdst]
    exact step_ok_refl σ hI
  | some t =>
    cases hsrc : σ.weakv src with
    | none =>
      simp only [State.step, hdst, hsrc]
      exact step_ok_refl σ hI
    | some o =>
      by_cases hself : dst = src
      · subst hself
        have hto : t = o := by
          rw [hdst] at hsrc
          injection hsrc
        subst hto
        have e : σ.step (Op.wp_assign_move dst dst) =
            { σ with wp := (σ.wp.set dst (some t)).set dst (some t) } := by
          simp [State.step, hdst, weak_ptr.assign_move]
        rw [e]
        refine step_ok_same σ _ hI ?_ ?_ ?_
        · rfl
        · intro b _
          exact le_refl _
        · intro b _
          show ((σ.wp.set dst (some t)).set dst (some t)).countP (State.wp_on b) ≤
            σ.wp.countP (State.wp_on b)
          have e1 := wp_on_set_some σ.wp dst t t b hdst
          have e2 := wp_on_set_some (σ.wp.set dst (some t)) dst t t b
            (getD_set_self σ.wp dst t _ hdst)
          omega
      · have e : σ.step (Op.wp_assign_move dst src) =
            { σ with wp := ((σ.wp.set src (some { object := 0, blk := 0 })).set dst
                (some { object := o.object, blk := o.blk })) } := by
          simp [State.step, hdst, hsrc, weak_ptr.assign_move, hself]
        rw [e]
        refine step_ok_same σ _ hI ?_ ?_ ?_
        · rfl
        · intro b _
          exact le_refl _
        · intro b hb
          show ((σ.wp.set src (some { object := 0, blk := 0 })).set dst
            (some { object := o.object, blk := o.blk })).countP (State.wp_on b) ≤
            σ.wp.countP (State.wp_on b)
          have e1 := wp_on_set_some σ.wp src o { object := 0, blk := 0 } b hsrc
          have hd2 : (σ.wp.set src (some { object := 0, blk := 0 })).getD dst none = some t := by
            rw [getD_set_ne σ.wp src dst _ (Ne.symm hself)]
            exact hdst
          have e2 := wp_on_set_some (σ.wp.set src (some { object := 0, blk := 0 })) dst t
            { object := o.object, blk := o.blk } b hd2
          have h0 : ¬ (0 = b) := fun h => hb h.symm
          simp only [h0, if_false] at e1 e2
          omega

theorem step_ok_sp_dtor (σ : State) (i : Nat) (hI : σ.counted) :
    σ.step_ok (σ.step (Op.sp_dtor i)) := by
  cases hi : σ.shared i with
  | none =>
    simp only [State.step, hi]
    exact step_ok_refl σ hI
  | some t =>
    simp only [State.step, hi, shared_ptr.dtor]
    have hpos : t.blk ≠ 0 → 1 ≤ σ.strong_refs t.blk := fun _ => sp_on_pos σ.sp i t hi
    constructor
    · refine counted_release_strong σ.heap t σ.strong_refs _ σ.weak_refs hI hpos ?_
      intro b _
      exact sp_on_set_none σ.sp i t b hi
    · intro b
      exact keeps_release_strong σ.heap t _ _ hI hpos b

theorem step_ok_wp_dtor (σ : State) (i : Nat) (hI : σ.counted) :
    σ.step_ok (σ.step (Op.wp_dtor i)) := by
  cases hi : σ.weakv i with
  | none =>
    simp only [State.step, hi]
    exact step_ok_refl σ hI
  | some t =>
    simp only [State.step, hi, weak_ptr.dtor]
    have hpos : t.blk ≠ 0 → 1 ≤ σ.weak_refs t.blk := fun _ => wp_on_pos σ.wp i t hi
    constructor
    · refine counted_release_weak σ.heap t σ.strong_refs σ.weak_refs _ hI hpos ?_
      intro b _
      exact wp_on_set_none σ.wp i t b hi
    · intro b
      exact keeps_release_weak σ.heap t b

theorem step_ok_wp_shared (σ : State) (src : Nat) (hI : σ.counted)
    (hw : σ.wraps (Op.wp_shared src) = false) : σ.step_ok (σ.step (Op.wp_shared src)) := by
  cases hsrc : σ.shared src with
  | none =>
    simp only [State.step, hsrc]
    exact step_ok_refl σ hI
  | some o =>
    simp only [State.wraps, hsrc] at hw
    have hpos := sp_on_pos σ.sp src o hsrc
    by_cases hb : o.blk = 0
    · have e : σ.step (Op.wp_shared src) =
          { σ with wp := σ.wp ++ [some { object := 0, blk := 0 }] } := by
        simp [State.step, hsrc, weak_ptr.ctor_shared, shared_ptr.toBool, hb]
      rw [e]
      refine step_ok_same σ _ hI ?_ ?_ ?_
      · rfl
      · intro b _
        exact le_refl _
      · intro b hb1
        show (σ.wp ++ [some ({ object := 0, blk := 0 } : weak_ptr)]).countP (State.wp_on b) ≤ _
        rw [wp_on_append]
        have h0 : ¬ (0 = b) := fun h => hb1 h.symm
        simp only [h0, if_false]
        exact le_refl _
    · have e : σ.step (Op.wp_shared src) =
          { σ with heap := σ.heap.inc_weak o.blk,
                   wp := σ.wp ++ [some { object := o.object, blk := o.blk }] } := by
        simp [State.step, hsrc, weak_ptr.ctor_shared, shared_ptr.toBool, hb]
      rw [e]
      have hl := counted_live σ.heap _ _ hI o.blk hb (Or.inl hpos)
      constructor
      · refine counted_inc_weak σ.heap o.blk σ.strong_refs σ.weak_refs _ hI hl
          (wraps_elim hw hb) ?_
        intro b _
        exact wp_on_append σ.wp _ b
      · intro b
        exact keeps_inc_weak σ.heap o.blk b

theorem step_ok_wp_copy (σ : State) (src : Nat) (uninit : weak_ptr) (hI : σ.counted)
    (hw : σ.wraps (Op.wp_copy src uninit) = false) (hc : uninit.blk = 0) :
    σ.step_ok (σ.step (Op.wp_copy src uninit)) := by
  cases hsrc : σ.weakv src with
  | none =>
    simp only [State.step, hsrc]
    exact step_ok_refl σ hI
  | some o =>
    simp only [State.wraps, hsrc, release_weak_ref_null σ.heap uninit hc] at hw
    have hpos := wp_on_pos σ.wp src o hsrc
    by_cases hb : o.blk = 0
    · have e : σ.step (Op.wp_copy src uninit) =
          { σ with wp := σ.wp ++ [some { object := o.object, blk := o.blk }] } := by
        simp [State.step, hsrc, weak_ptr.ctor_copy, hb, release_weak_ref_null σ.heap uninit hc]
      rw [e]
      refine step_ok_same σ _ hI ?_ ?_ ?_
      · rfl
      · intro b _
        exact le_refl _
      · intro b hb1
        show (σ.wp ++ [some ({ object := o.object, blk := o.blk } : weak_ptr)]).countP
          (State.wp_on b) ≤ _
        rw [wp_on_append]
        have h0 : ¬ (o.blk = b) := fun h => hb1 (h ▸ hb)
        simp only [h0, if_false]
        exact le_refl _
    · have e : σ.step (Op.wp_copy src uninit) =
          { σ with heap := σ.heap.inc_weak o.blk,
                   wp := σ.wp ++ [some { object := o.object, blk := o.blk }] } := by
        simp [State.step, hsrc, weak_ptr.ctor_copy, hb, release_weak_ref_null σ.heap uninit hc]
      rw [e]
      have hl := counted_live σ.heap _ _ hI o.blk hb (Or.inr hpos)
      constructor
      · refine counted_inc_weak σ.heap o.blk σ.strong_refs σ.weak_refs _ hI hl
          (wraps_elim hw hb) ?_
        intro b _
        exact wp_on_append σ.wp _ b
      · intro b
        exact keeps_inc_weak σ.heap o.blk b

theorem step_ok_wp_lock (σ : State) (src : Nat) (spurious : List Bool) (hI : σ.counted)
    (hw : σ.wraps (Op.wp_lock src spurious) = false) :
    σ.step_ok (σ.step (Op.wp_lock src spurious)) := by
  cases hsrc : σ.weakv src with
  | none =>
    simp only [State.step, hsrc]
    exact step_ok_refl σ hI
  | some o =>
    simp only [State.wraps, hsrc] at hw
    have hpos := wp_on_pos σ.wp src o hsrc
    simp only [State.step, hsrc, lock_fuel]
    split_ifs with hz
    · refine step_ok_same σ _ hI ?_ ?_ ?_
      · rfl
      · intro b hb1
        show (σ.sp ++ [some shared_ptr.ctor_default]).countP (State.sp_on b) ≤ _
        rw [sp_on_append]
        have h0 : ¬ shared_ptr.ctor_default.blk = b := fun h => hb1 h.symm
        simp only [h0, if_false]
        exact le_refl _
      · intro b _
        exact le_refl _
    · have hb : o.blk ≠ 0 := fun h => hz (Or.inl h)
      have hs0 : σ.heap.strong o.blk ≠ 0 := fun h => hz (Or.inr h)
      have hl := counted_live σ.heap _ _ hI o.blk hb (Or.inr hpos)
      have c1 := (hI.2.2 o.blk hl).1
      constructor
      · refine counted_inc_strong σ.heap o.blk σ.strong_refs _ σ.weak_refs hI hl (by omega)
          (wraps_elim hw hb) ?_
        intro b _
        exact sp_on_append σ.sp _ b
      · intro b
        exact keeps_inc_strong σ.heap o.blk b hs0

theorem step_ok_sp_assign_copy (σ : State) (dst src : Nat) (hI : σ.counted)
    (hw : σ.wraps (Op.sp_assign_copy dst src) = false) :
    σ.step_ok (σ.step (Op.sp_assign_copy dst src)) := by
  cases hdst : σ.shared dst with
  | none =>
    simp only [State.step, hdst]
    exact step_ok_refl σ hI
  | some t =>
    cases hsrc : σ.shared src with
    | none =>
      simp only [State.step, hdst, hsrc]
      exact step_ok_refl σ hI
    | some o =>
      by_cases hself : dst = src
      · subst hself
        have e : σ.step (Op.sp_assign_copy dst dst) =
            { σ with sp := σ.sp.set dst (some t) } := by
          simp [State.step, hdst, shared_ptr.assign_copy]
        rw [e]
        refine step_ok_same σ _ hI ?_ ?_ ?_
        · rfl
        · intro b _
          show (σ.sp.set dst (some t)).countP (State.sp_on b) ≤ σ.sp.countP (State.sp_on b)
          have e1 := sp_on_set_some σ.sp dst t t b hdst
          omega
        · intro b _
          exact le_refl _
      · simp only [State.wraps, hdst, hsrc] at hw
        have hw2 : (o.blk != 0 && decide ((shared_ptr.release_strong_ref σ.heap t).strong o.blk
            = INT32_MAX)) = false := by
          simpa [hself] using hw
        have hpos : t.blk ≠ 0 → 1 ≤ σ.strong_refs t.blk := fun _ => sp_on_pos σ.sp dst t hdst
        have c1 : (shared_ptr.release_strong_ref σ.heap t).counted
            (fun b => (σ.sp.set dst none).countP (State.sp_on b)) σ.weak_refs :=
          counted_release_strong σ.heap t σ.strong_refs _ σ.weak_refs hI hpos
            (fun b _ => sp_on_set_none σ.sp dst t b hdst)
        have k1 := keeps_release_strong σ.heap t _ _ hI hpos
        by_cases hb : o.blk = 0
        · have e : σ.step (Op.sp_assign_copy dst src) =
              { σ with heap := shared_ptr.release_strong_ref σ.heap t,
                       sp := σ.sp.set dst (some { object := o.object, blk := o.blk }) } := by
            simp [State.step, hdst, hsrc, shared_ptr.assign_copy, hself, hb]
          rw [e]
          refine ⟨?_, k1⟩
          refine counted_mono _ _ _ _ _ c1 ?_ (fun _ _ => le_refl _)
          intro b hb1
          show (σ.sp.set dst (some { object := o.object, blk := o.blk })).countP (State.sp_on b) ≤
            (σ.sp.set dst none).countP (State.sp_on b)
          have e1 := sp_on_set_some σ.sp dst t { object := o.object, blk := o.blk } b hdst
          have e2 := sp_on_set_none σ.sp dst t b hdst
          have h0 : ¬ (o.blk = b) := fun h => hb1 (h ▸ hb)
          simp only [h0, if_false] at e1
          omega
        · have e : σ.step (Op.sp_assign_copy dst src) =
              { σ with heap := (shared_ptr.release_strong_ref σ.heap t).inc_strong o.blk,
                       sp := σ.sp.set dst (some { object := o.object, blk := o.blk }) } := by
            simp [State.step, hdst, hsrc, shared_ptr.assign_copy, hself, hb]
          rw [e]
          have ho1 : (σ.sp.set dst none).getD src none = some o := by
            rw [getD_set_ne σ.sp dst src none hself]
            exact hsrc
          have hpos1 := sp_on_pos (σ.sp.set dst none) src o ho1
          have hl1 := counted_live _ _ _ c1 o.blk hb (Or.inl hpos1)
          have d1 := (c1.2.2 o.blk hl1).1
          simp only at d1
          have hs1 : 1 ≤ (shared_ptr.release_strong_ref σ.heap t).strong o.blk := by omega
          constructor
          · refine counted_inc_strong _ o.blk _ _ σ.weak_refs c1 hl1 hs1 (wraps_elim hw2 hb) ?_
            intro b _
            show (σ.sp.set dst (some { object := o.object, blk := o.blk })).countP
              (State.sp_on b) = (σ.sp.set dst none).countP (State.sp_on b) + _
            have e1 := sp_on_set_some σ.sp dst t { object := o.object, blk := o.blk } b hdst
            have e2 := sp_on_set_none σ.sp dst t b hdst
            simp only at e1
            omega
          · intro b
            exact keeps_trans b _ _ _ (k1 b) (keeps_inc_strong _ o.blk b (by omega))

theorem step_ok_wp_assign_copy (σ : State) (dst src : Nat) (hI : σ.counted)
    (hw : σ.wraps (Op.wp_assign_copy dst src) = false) :
    σ.step_ok (σ.step (Op.wp_assign_copy dst src)) := by
  cases hdst : σ.weakv dst with
  | none =>
    simp only [State.step, hdst]
    exact step_ok_refl σ hI
  | some t =>
    cases hsrc : σ.weakv src with
    | none =>
      simp only [State.step, hdst, hsrc]
      exact step_ok_refl σ hI
    | some o =>
      by_cases hself : dst = src
      · subst hself
        have e : σ.step (Op.wp_assign_copy dst dst) =
            { σ with wp := σ.wp.set dst (some t) } := by
          simp [State.step, hdst, weak_ptr.assign_copy]
        rw [e]
        refine step_ok_same σ _ hI ?_ ?_ ?_
        · rfl
        · intro b _
          exact le_refl _
        · intro b _
          show (σ.wp.set dst (some t)).countP (State.wp_on b) ≤ σ.wp.countP (State.wp_on b)
          have e1 := wp_on_set_some σ.wp dst t t b hdst
          omega
      · simp only [State.wraps, hdst, hsrc] at hw
        have hw2 : (o.blk != 0 && decide ((weak_ptr.release_weak_ref σ.heap t).weak o.blk
            = INT32_MAX)) = false := by
          simpa [hself] using hw
        have hpos : t.blk ≠ 0 → 1 ≤ σ.weak_refs t.blk := fun _ => wp_on_pos σ.wp dst t hdst
        have c1 : (weak_ptr.release_weak_ref σ.heap t).counted σ.strong_refs
            (fun b => (σ.wp.set dst none).countP (State.wp_on b)) :=
          counted_release_weak σ.heap t σ.strong_refs σ.weak_refs _ hI hpos
            (fun b _ => wp_on_set_none σ.wp dst t b hdst)
        have k1 := keeps_release_weak σ.heap t
        by_cases hb : o.blk = 0
        · have e : σ.step (Op.wp_assign_copy dst src) =
              { σ with heap := weak_ptr.release_weak_ref σ.heap t,
                       wp := σ.wp.set dst (some { object := o.object, blk := o.blk }) } := by
            simp [State.step, hdst, hsrc, weak_ptr.assign_copy, hself, hb]
          rw [e]
          refine ⟨?_, k1⟩
          refine counted_mono _ _ _ _ _ c1 (fun _ _ => le_refl _) ?_
          intro b hb1
          show (σ.wp.set dst (some { object := o.object, blk := o.blk })).countP (State.wp_on b) ≤
            (σ.wp.set dst none).countP (State.wp_on b)
          have e1 := wp_on_set_some σ.wp dst t { object := o.object, blk := o.blk } b hdst
          have e2 := wp_on_set_none σ.wp dst t b hdst
          have h0 : ¬ (o.blk = b) := fun h => hb1 (h ▸ hb)
          simp only [h0, if_false] at e1
          omega
        · have e : σ.step (Op.wp_assign_copy dst src) =
              { σ with heap := (weak_ptr.release_weak_ref σ.heap t).inc_weak o.blk,
                       wp := σ.wp.set dst (some { object := o.object, blk := o.blk }) } := by
            simp [State.step, hdst, hsrc, weak_ptr.assign_copy, hself, hb]
          rw [e]
          have ho1 : (σ.wp.set dst none).getD src none = some o := by
            rw [getD_set_ne σ.wp dst src none hself]
            exact hsrc
          have hpos1 := wp_on_pos (σ.wp.set dst none) src o ho1
          have hl1 := counted_live _ _ _ c1 o.blk hb (Or.inr hpos1)
          constructor
          · refine counted_inc_weak _ o.blk σ.strong_refs _ _ c1 hl1 (wraps_elim hw2 hb) ?_
            intro b _
            show (σ.wp.set dst (some { object := o.object, blk := o.blk })).countP
              (State.wp_on b) = (σ.wp.set dst none).countP (State.wp_on b) + _
            have e1 := wp_on_set_some σ.wp dst t { object := o.object, blk := o.blk } b hdst
            have e2 := wp_on_set_none σ.wp dst t b hdst
            simp only at e1
            omega
          · intro b
            exact keeps_trans b _ _ _ (k1 b) (keeps_inc_weak _ o.blk b)

theorem step_ok_wp_assign_shared (σ : State) (dst src : Nat) (hI : σ.counted)
    (hw : σ.wraps (Op.wp_assign_shared dst src) = false) :
    σ.step_ok (σ.step (Op.wp_assign_shared dst src)) := by
  cases hdst : σ.weakv dst with
  | none =>
    simp only [State.step, hdst]
    exact step_ok_refl σ hI
  | some t =>
    cases hsrc : σ.shared src with
    | none =>
      simp only [State.step, hdst, hsrc]
      exact step_ok_refl σ hI
    | some o =>
      simp only [State.wraps, hdst, hsrc] at hw
      have hpos : t.blk ≠ 0 → 1 ≤ σ.weak_refs t.blk := fun _ => wp_on_pos σ.wp dst t hdst
      have c1 : (weak_ptr.release_weak_ref σ.heap t).counted σ.strong_refs
          (fun b => (σ.wp.set dst none).countP (State.wp_on b)) :=
        counted_release_weak σ.heap t σ.strong_refs σ.weak_refs _ hI hpos
          (fun b _ => wp_on_set_none σ.wp dst t b hdst)
      have k1 := keeps_release_weak σ.heap t
      by_cases hb : o.blk = 0
      · have e : σ.step (Op.wp_assign_shared dst src) =
            { σ with heap := weak_ptr.release_weak_ref σ.heap t,
                     wp := σ.wp.set dst (some { object := 0, blk := 0 }) } := by
          simp [State.step, hdst, hsrc, weak_ptr.assign_shared, shared_ptr.toBool, hb]
        rw [e]
        refine ⟨?_, k1⟩
        refine counted_mono _ _ _ _ _ c1 (fun _ _ => le_refl _) ?_
        intro b hb1
        show (σ.wp.set dst (some { object := 0, blk := 0 })).countP (State.wp_on b) ≤
          (σ.wp.set dst none).countP (State.wp_on b)
        have e1 := wp_on_set_some σ.wp dst t { object := 0, blk := 0 } b hdst
        have e2 := wp_on_set_none σ.wp dst t b hdst
        have h0 : ¬ (0 = b) := fun h => hb1 h.symm
        simp only [h0, if_false] at e1
        omega
      · have e : σ.step (Op.wp_assign_shared dst src) =
            { σ with heap := (weak_ptr.release_weak_ref σ.heap t).inc_weak o.blk,
                     wp := σ.wp.set dst (some { object := o.object, blk := o.blk }) } := by
          simp [State.step, hdst, hsrc, weak_ptr.assign_shared, shared_ptr.toBool, hb]
        rw [e]
        have hpos1 := sp_on_pos σ.sp src o hsrc
        have hl1 := counted_live _ _ _ c1 o.blk hb (Or.inl hpos1)
        constructor
        · refine counted_inc_weak _ o.blk σ.strong_refs _ _ c1 hl1 (wraps_elim hw hb) ?_
          intro b _
          show (σ.wp.set dst (some { object := o.object, blk := o.blk })).countP
            (State.wp_on b) = (σ.wp.set dst none).countP (State.wp_on b) + _
          have e1 := wp_on_set_some σ.wp dst t { object := o.object, blk := o.blk } b hdst
          have e2 := wp_on_set_none σ.wp dst t b hdst
          simp only at e1
          omega
        · intro b
          exact keeps_trans b _ _ _ (k1 b) (keeps_inc_weak _ o.blk b)

/-- Every operation that does not increment a counter holding `INT32_MAX`, and is not a
copy construction of a weak handle from non-null fields, keeps the counting invariant and
every block whose strong counter is `0`. -/
theorem step_ok_all (σ : State) (op : Op) (hI : σ.counted) (hw : σ.wraps op = false)
    (hc : op.stale = false) : σ.step_ok (σ.step op) := by
  cases op with
  | sp_default => exact step_ok_sp_default σ hI
  | sp_raw p a => exact step_ok_sp_raw σ p a hI
  | sp_copy src => exact step_ok_sp_copy σ src hI hw
  | sp_move src => exact step_ok_sp_move σ src hI
  | sp_assign_copy dst src => exact step_ok_sp_assign_copy σ dst src hI hw
  | sp_assign_move dst src => exact step_ok_sp_assign_move σ dst src hI
  | sp_dtor i => exact step_ok_sp_dtor σ i hI
  | wp_default => exact step_ok_wp_default σ hI
  | wp_copy src uninit =>
    exact step_ok_wp_copy σ src uninit hI hw (by simpa [Op.stale] using hc)
  | wp_move src => exact step_ok_wp_move σ src hI
  | wp_shared src => exact step_ok_wp_shared σ src hI hw
  | wp_dtor i => exact step_ok_wp_dtor σ i hI
  | wp_assign_shared dst src => exact step_ok_wp_assign_shared σ dst src hI hw
  | wp_assign_copy dst src => exact step_ok_wp_assign_copy σ dst src hI hw
  | wp_assign_move dst src => exact step_ok_wp_assign_move σ dst src hI
  | wp_lock src spurious => exact step_ok_wp_lock σ src spurious hI hw

/-! ## Runs that keep the counting invariant -/

theorem never_wraps_cons (σ : State) (op : Op) (ops : List Op) :
    σ.never_wraps (op :: ops) = (!σ.wraps op && (σ.step op).never_wraps ops) := rfl

theorem never_wraps_append (ops1 ops2 : List Op) :
    ∀ σ : State, σ.never_wraps (ops1 ++ ops2) =
      (σ.never_wraps ops1 && (σ.run ops1).never_wraps ops2) := by
  induction ops1 with
  | nil =>
    intro σ
    rfl
  | cons op ops ih =>
    intro σ
    rw [List.cons_append, never_wraps_cons, never_wraps_cons, run_cons, ih, Bool.and_assoc]

theorem stale_free_cons (op : Op) (ops : List Op) :
    stale_free (op :: ops) = (!op.stale && stale_free ops) := rfl

theorem stale_free_append (ops1 ops2 : List Op) :
    stale_free (ops1 ++ ops2) = (stale_free ops1 && stale_free ops2) := by
  unfold stale_free
  exact List.all_append

theorem init_counted : State.init.counted := by
  refine ⟨⟨rfl, by decide, fun b hb => ?_⟩, fun b _ _ => ⟨rfl, rfl⟩, fun b hb => ?_⟩
  · exact absurd hb (by simp [State.init, Heap.empty])
  · exact absurd hb (by simp [State.init, Heap.empty])

/-- A run in which no increment wraps a counter and no weak copy construction starts from
non-null fields keeps the counting invariant and every block whose strong counter is
`0`. -/
theorem run_counted (ops : List Op) :
    ∀ σ : State, σ.counted → σ.never_wraps ops = true → stale_free ops = true →
      (σ.run ops).counted ∧ ∀ b, σ.heap.keeps b (σ.run ops).heap := by
  induction ops with
  | nil =>
    intro σ hI _ _
    exact ⟨hI, fun b => keeps_refl b σ.heap⟩
  | cons op ops ih =>
    intro σ hI hw hc
    rw [never_wraps_cons, Bool.and_eq_true] at hw
    rw [stale_free_cons, Bool.and_eq_true] at hc
    have hw1 : σ.wraps op = false := by simpa using hw.1
    have hc1 : op.stale = false := by simpa using hc.1
    obtain ⟨s1, s2⟩ := step_ok_all σ op hI hw1 hc1
    obtain ⟨r1, r2⟩ := ih (σ.step op) s1 hw.2 hc.2
    rw [run_cons]
    exact ⟨r1, fun b => keeps_trans b _ _ _ (s2 b) (r2 b)⟩

/-! ## No use of a freed block -/

theorem live_of_shared (σ : State) (hI : σ.counted) (i : Nat) (t : shared_ptr)
    (hi : σ.shared i = some t) : (t.blk != 0 && !σ.heap.live t.blk) = false := by
  by_cases hb : t.blk = 0
  · simp [hb]
  · have hl := counted_live σ.heap _ _ hI t.blk hb (Or.inl (sp_on_pos σ.sp i t hi))
    simp [hl]

theorem live_of_weakv (σ : State) (hI : σ.counted) (i : Nat) (t : weak_ptr)
    (hi : σ.weakv i = some t) : (t.blk != 0 && !σ.heap.live t.blk) = false := by
  by_cases hb : t.blk = 0
  · simp [hb]
  · have hl := counted_live σ.heap _ _ hI t.blk hb (Or.inr (wp_on_pos σ.wp i t hi))
    simp [hl]

/-- In a state with the counting invariant no operation, other than a weak copy
construction that starts from non-null fields, uses a block after it has been freed. -/
theorem step_never_dangles (σ : State) (op : Op) (hI : σ.counted) (hc : op.stale = false) :
    σ.dangles op = false := by
  cases op with
  | sp_default => rfl
  | sp_raw p a => rfl
  | sp_move src => rfl
  | sp_assign_move dst src => rfl
  | wp_default => rfl
  | wp_move src => rfl
  | wp_assign_move dst src => rfl
  | sp_copy src =>
    cases hsrc : σ.shared src with
    | none => simp only [State.dangles, hsrc]
    | some o =>
      simp only [State.dangles, hsrc]
      exact live_of_shared σ hI src o hsrc
  | sp_dtor i =>
    cases hi : σ.shared i with
    | none => simp only [State.dangles, hi]
    | some t =>
      simp only [State.dangles, hi]
      exact live_of_shared σ hI i t hi
  | wp_shared src =>
    cases hsrc : σ.shared src with
    | none => simp only [State.dangles, hsrc]
    | some o =>
      simp only [State.dangles, hsrc]
      exact live_of_shared σ hI src o hsrc
  | wp_dtor i =>
    cases hi : σ.weakv i with
    | none => simp only [State.dangles, hi]
    | some t =>
      simp only [State.dangles, hi]
      exact live_of_weakv σ hI i t hi
  | wp_lock src spurious =>
    cases hsrc : σ.weakv src with
    | none => simp only [State.dangles, hsrc]
    | some o =>
      simp only [State.dangles, hsrc]
      exact live_of_weakv σ hI src o hsrc
  | wp_copy src uninit =>
    have hu : uninit.blk = 0 := by simpa [Op.stale] using hc
    cases hsrc : σ.weakv src with
    | none => simp only [State.dangles, hsrc]
    | some o =>
      simp only [State.dangles, hsrc, release_weak_ref_null σ.heap uninit hu]
      rw [live_of_weakv σ hI src o hsrc]
      simp [hu]
  | sp_assign_copy dst src =>
    cases hdst : σ.shared dst with
    | none => simp only [State.dangles, hdst]
    | some t =>
      cases hsrc : σ.shared src with
      | none => simp only [State.dangles, hdst, hsrc]
      | some o =>
        simp only [State.dangles, hdst, hsrc]
        by_cases hself : dst = src
        · simp [hself]
        · have hpos : t.blk ≠ 0 → 1 ≤ σ.strong_refs t.blk := fun _ => sp_on_pos σ.sp dst t hdst
          have c1 : (shared_ptr.release_strong_ref σ.heap t).counted
              (fun b => (σ.sp.set dst none).countP (State.sp_on b)) σ.weak_refs :=
            counted_release_strong σ.heap t σ.strong_refs _ σ.weak_refs hI hpos
              (fun b _ => sp_on_set_none σ.sp dst t b hdst)
          have ho1 : (σ.sp.set dst none).getD src none = some o := by
            rw [getD_set_ne σ.sp dst src none hself]
            exact hsrc
          have h2 : (o.blk != 0 && !(shared_ptr.release_strong_ref σ.heap t).live o.blk) =
              false := by
            by_cases hb : o.blk = 0
            · simp [hb]
            · have hl := counted_live _ _ _ c1 o.blk hb
                (Or.inl (sp_on_pos (σ.sp.set dst none) src o ho1))
              simp [hl]
          rw [live_of_shared σ hI dst t hdst, h2]
          simp
  | wp_assign_copy dst src =>
    cases hdst : σ.weakv dst with
    | none => simp only [State.dangles, hdst]
    | some t =>
      cases hsrc : σ.weakv src with
      | none => simp only [State.dangles, hdst, hsrc]
      | some o =>
        simp only [State.dangles, hdst, hsrc]
        by_cases hself : dst = src
        · simp [hself]
        · have hpos : t.blk ≠ 0 → 1 ≤ σ.weak_refs t.blk := fun _ => wp_on_pos σ.wp dst t hdst
          have c1 : (weak_ptr.release_weak_ref σ.heap t).counted σ.strong_refs
              (fun b => (σ.wp.set dst none).countP (State.wp_on b)) :=
            counted_release_weak σ.heap t σ.strong_refs σ.weak_refs _ hI hpos
              (fun b _ => wp_on_set_none σ.wp dst t b hdst)
          have ho1 : (σ.wp.set dst none).getD src none = some o := by
            rw [getD_set_ne σ.wp dst src none hself]
            exact hsrc
          have h2 : (o.blk != 0 && !(weak_ptr.release_weak_ref σ.heap t).live o.blk) =
              false := by
            by_cases hb : o.blk = 0
            · simp [hb]
            · have hl := counted_live _ _ _ c1 o.blk hb
                (Or.inr (wp_on_pos (σ.wp.set dst none) src o ho1))
              simp [hl]
          rw [live_of_weakv σ hI dst t hdst, h2]
          simp
  | wp_assign_shared dst src =>
    cases hdst : σ.weakv dst with
    | none => simp only [State.dangles, hdst]
    | some t =>
      cases hsrc : σ.shared src with
      | none => simp only [State.dangles, hdst, hsrc]
      | some o =>
        simp only [State.dangles, hdst, hsrc]
        have hpos : t.blk ≠ 0 → 1 ≤ σ.weak_refs t.blk := fun _ => wp_on_pos σ.wp dst t hdst
        have c1 : (weak_ptr.release_weak_ref σ.heap t).counted σ.strong_refs
            (fun b => (σ.wp.set dst none).countP (State.wp_on b)) :=
          counted_release_weak σ.heap t σ.strong_refs σ.weak_refs _ hI hpos
            (fun b _ => wp_on_set_none σ.wp dst t b hdst)
        have h2 : (o.blk != 0 && !(weak_ptr.release_weak_ref σ.heap t).live o.blk) =
            false := by
          by_cases hb : o.blk = 0
          · simp [hb]
          · have hl := counted_live _ _ _ c1 o.blk hb (Or.inl (sp_on_pos σ.sp src o hsrc))
            simp [hl]
        rw [live_of_weakv σ hI dst t hdst, h2]
        simp

theorem never_dangles_cons (σ : State) (op : Op) (ops : List Op) :
    σ.never_dangles (op :: ops) = (!σ.dangles op && (σ.step op).never_dangles ops) := rfl

/-- A run in which no increment wraps a counter and no weak copy construction starts from
non-null fields never uses a block after it has been freed. -/
theorem run_never_dangles (ops : List Op) :
    ∀ σ : State, σ.counted → σ.never_wraps ops = true → stale_free ops = true →
      σ.never_dangles ops = true := by
  induction ops with
  | nil =>
    intro σ _ _ _
    rfl
  | cons op ops ih =>
    intro σ hI hw hc
    rw [never_wraps_cons, Bool.and_eq_true] at hw
    rw [stale_free_cons, Bool.and_eq_true] at hc
    have hw1 : σ.wraps op = false := by simpa using hw.1
    have hc1 : op.stale = false := by simpa using hc.1
    rw [never_dangles_cons, step_never_dangles σ op hI hc1,
      ih (σ.step op) (step_ok_all σ op hI hw1 hc1).1 hw.2 hc.2]
    rfl

/-! ## Handles on one block hold one payload pointer -/

theorem step_payload_of (σ : State) (op : Op) (hI : σ.counted)
    (hP : ∃ f, σ.payload_of f) : ∃ f, (σ.step op).payload_of f := by
  obtain ⟨f, hs, hw⟩ := hP
  by_cases hraw : ∃ p a, op = Op.sp_raw p a
  · obtain ⟨p, a, hp⟩ := hraw
    obtain ⟨f1, f2⟩ := alloc_addr_fresh σ.heap a hI.1
    obtain ⟨z1, z2⟩ := hI.2.1 _ f1 f2
    refine ⟨Function.update f (σ.heap.alloc_addr a) p, ?_⟩
    have hs2 : live_all (fun x : shared_ptr =>
        x.blk ≠ 0 → x.object = Function.update f (σ.heap.alloc_addr a) p x.blk) σ.sp := by
      intro x hx hb
      have hne : x.blk ≠ σ.heap.alloc_addr a := sp_on_none σ.sp _ z1 x hx
      rw [Function.update_noteq hne]
      exact hs x hx hb
    have hw2 : live_all (fun w : weak_ptr =>
        w.blk ≠ 0 → w.object = Function.update f (σ.heap.alloc_addr a) p w.blk) σ.wp := by
      intro x hx hb
      have hne : x.blk ≠ σ.heap.alloc_addr a := wp_on_none σ.wp _ z2 x hx
      rw [Function.update_noteq hne]
      exact hw x hx hb
    exact step_pair_inv (fun o b => b ≠ 0 → o = Function.update f (σ.heap.alloc_addr a) p b)
      (fun h => absurd rfl h) σ op hs2 hw2
      (fun q c hq _ => by
        rw [hp] at hq
        injection hq with hq1 hq2
        rw [hq1, hq2]
        simp)
  · exact ⟨f, step_pair_inv (fun o b => b ≠ 0 → o = f b) (fun h => absurd rfl h) σ op hs hw
      (fun q c hq => absurd ⟨q, c, hq⟩ hraw)⟩

theorem run_payload_of (ops : List Op) :
    ∀ σ : State, σ.counted → σ.never_wraps ops = true → stale_free ops = true →
      (∃ f, σ.payload_of f) → ∃ f, (σ.run ops).payload_of f := by
  induction ops with
  | nil =>
    intro σ _ _ _ hP
    exact hP
  | cons op ops ih =>
    intro σ hI hw hc hP
    rw [never_wraps_cons, Bool.and_eq_true] at hw
    rw [stale_free_cons, Bool.and_eq_true] at hc
    have hw1 : σ.wraps op = false := by simpa using hw.1
    have hc1 : op.stale = false := by simpa using hc.1
    rw [run_cons]
    exact ih (σ.step op) (step_ok_all σ op hI hw1 hc1).1 hw.2 hc.2
      (step_payload_of σ op hI hP)

theorem init_payload_of : ∃ f, State.init.payload_of f := by
  refine ⟨fun _ => 0, ?_, ?_⟩
  · intro x hx
    simp [State.init] at hx
  · intro x hx
    simp [State.init] at hx

/-! ## No resurrection -/

/-- C6 (as amended): in a run in which no operation increments a counter that holds
`INT32_MAX` and no weak copy construction starts from non-null fields, once the strong
counter of a control block is `0` it is `0` after every further operation for as long as
the block has not been passed to `delete blk` (after that the address may hold a new
block): the block is still there, no live strong handle references it, and for every weak
handle on it `expired()` is true and `lock()` returns an empty strong handle and leaves
the heap unchanged.  No operation of such a run uses a block after it has been freed. -/
theorem strong_zero_stays_zero (ops1 ops2 : List Op) (b : Nat)
    (hw : State.init.never_wraps (ops1 ++ ops2) = true)
    (hc : stale_free (ops1 ++ ops2) = true)
    (hlive : (State.init.run ops1).heap.live b = true)
    (h0 : (State.init.run ops1).heap.strong b = 0)
    (hkeep : (State.init.run (ops1 ++ ops2)).block_deletes b =
      (State.init.run ops1).block_deletes b) :
    (State.init.run (ops1 ++ ops2)).heap.live b = true ∧
    (State.init.run (ops1 ++ ops2)).heap.strong b = 0 ∧
    (State.init.run (ops1 ++ ops2)).strong_refs b = 0 ∧
    (∀ w : weak_ptr, w.blk = b →
      weak_ptr.expired (State.init.run (ops1 ++ ops2)).heap w = true ∧
      ∀ (fuel : Nat) (spurious : List Bool), spurious.length < fuel →
        weak_ptr.lock (State.init.run (ops1 ++ ops2)).heap w fuel spurious =
          some ({ object := 0, blk := 0 }, (State.init.run (ops1 ++ ops2)).heap)) ∧
    State.init.never_dangles (ops1 ++ ops2) = true := by
  have hnd := run_never_dangles (ops1 ++ ops2) State.init init_counted hw hc
  rw [never_wraps_append, Bool.and_eq_true] at hw
  rw [stale_free_append, Bool.and_eq_true] at hc
  obtain ⟨i1, _⟩ := run_counted ops1 State.init init_counted hw.1 hc.1
  obtain ⟨j1, j2⟩ := run_counted ops2 (State.init.run ops1) i1 hw.2 hc.2
  rw [← run_append] at j1 j2
  obtain ⟨hl, hz⟩ := (j2 b).2 hlive h0 hkeep
  have hb : b ≠ 0 := counted_ne_zero _ _ _ j1 b hl
  refine ⟨hl, hz, ?_, ?_, hnd⟩
  · have hd := (j1.2.2 b hl).1
    rw [hz] at hd
    omega
  · intro w hw
    subst hw
    constructor
    · have hz1 : ((State.init.run (ops1 ++ ops2)).heap.blocks w.blk).strong = 0 := hz
      simp [weak_ptr.expired, weak_ptr.use_count, control_block.use_count, hb, hz1]
    · intro fuel spurious hf
      rw [lock_eq _ _ fuel spurious hf]
      simp [hz, shared_ptr.ctor_default]

/-- Witness of `strong_zero_stays_zero`: the only owner is destroyed while a weak handle
observes the block; the weak handle is then promoted and copied. -/
theorem strong_zero_stays_zero_witness :
    State.init.never_wraps ([Op.sp_raw 7 0, Op.wp_shared 0, Op.sp_dtor 0] ++
      [Op.wp_lock 0 [], Op.wp_copy 0 { object := 0, blk := 0 }]) = true ∧
    (State.init.run [Op.sp_raw 7 0, Op.wp_shared 0, Op.sp_dtor 0]).heap.live 1 = true ∧
    (State.init.run [Op.sp_raw 7 0, Op.wp_shared 0, Op.sp_dtor 0]).heap.strong 1 = 0 ∧
    (State.init.run ([Op.sp_raw 7 0, Op.wp_shared 0, Op.sp_dtor 0] ++
      [Op.wp_lock 0 [], Op.wp_copy 0 { object := 0, blk := 0 }])).heap.strong 1 = 0 :=
  ⟨by decide, by decide, by decide,
   (strong_zero_stays_zero [Op.sp_raw 7 0, Op.wp_shared 0, Op.sp_dtor 0]
      [Op.wp_lock 0 [], Op.wp_copy 0 { object := 0, blk := 0 }] 1 (by decide) (by decide)
      (by decide) (by decide) (by decide)).2.1⟩

/-- A copy construction from a live non-empty handle adds one to the strong counter of
its block, wrapping in `int32_t`. -/
theorem step_sp_copy_strong (σ : State) (x : shared_ptr) (hx : x.blk ≠ 0)
    (hσ : σ.shared 0 = some x) :
    (σ.step (Op.sp_copy 0)).heap.strong x.blk = wrap32 (σ.heap.strong x.blk + 1) := by
  simp only [State.step, hσ, shared_ptr.ctor_copy]
  split_ifs
  simp only [inc_strong_strong, if_true]

/-- C6 as stated fails: after `2^32 - 1` copies of a handle its block is still there and
the strong counter has wrapped to `0` while the handle is alive; one more copy
construction makes the counter `1` without any `delete`, and a weak handle on the block is
then not expired. -/
theorem strong_counter_returns_from_zero :
    wrapped.shared 0 = some { object := 7, blk := 1 } ∧
    wrapped.heap.strong 1 = 0 ∧
    (wrapped.step (Op.sp_copy 0)).heap.strong 1 = 1 ∧
    weak_ptr.expired (wrapped.step (Op.sp_copy 0)).heap { object := 7, blk := 1 } = false ∧
    wrapped.heap.live 1 = true ∧
    (wrapped.step (Op.sp_copy 0)).block_deletes 1 = wrapped.block_deletes 1 := by
  obtain ⟨h1, h2, _⟩ := copies_spec 4294967295
  have hw : wrapped = copies 4294967295 := rfl
  have hs : wrapped.heap.strong 1 = 0 := by
    rw [hw, h2]
    decide
  have hc : (wrapped.step (Op.sp_copy 0)).heap.strong 1 = 1 := by
    have := step_sp_copy_strong wrapped { object := 7, blk := 1 } (by decide) (hw ▸ h1)
    rw [this]
    have hs1 : wrapped.heap.strong ({ object := 7, blk := 1 } : shared_ptr).blk = 0 := hs
    rw [hs1]
    decide
  have hl : wrapped.heap.live 1 = true := by
    rw [hw]
    exact copies_live 4294967295
  refine ⟨hw ▸ h1, hs, hc, ?_, hl, step_sp_copy_block_deletes wrapped 0 1⟩
  rw [expired_eq_false_iff]
  refine ⟨by decide, ?_⟩
  have hc1 : (wrapped.step (Op.sp_copy 0)).heap.strong
      ({ object := 7, blk := 1 } : weak_ptr).blk = 1 := hc
  rw [hc1]
  decide

/-! ## Move construction -/

theorem getD_append_length {α : Type} (l : List (Option α)) (a : Option α) :
    (l ++ [a]).getD l.length none = a := by
  rw [List.getD_eq_getElem?_getD]
  simp

theorem getD_append_of_getD {α : Type} (l : List (Option α)) (a : Option α) (i : Nat) (t : α)
    (h : l.getD i none = some t) : (l ++ [a]).getD i none = some t := by
  have hlt : i < l.length := by
    obtain ⟨hlt, _⟩ := List.getElem?_eq_some.1 (getD_eq_some_iff.1 h)
    exact hlt
  rw [List.getD_append _ _ _ _ hlt]
  exact h

/-- C11: move construction of a strong handle, and likewise of a weak handle, gives the
new handle the payload pointer and block of `other` and leaves `other` with a null
payload pointer and a null block, so that its `use_count()` is `0` and its boolean
conversion is false; as an operation of a program it leaves the heap (every counter of
every block, both deletion logs, the allocator) as it was, turns the source variable into
the empty handle and makes the new variable the former content of the source. -/
theorem ctor_move_spec (h : Heap) (x : shared_ptr) (w : weak_ptr) (σ : State) (src : Nat) :
    ((shared_ptr.ctor_move x).1 = x ∧
      (shared_ptr.ctor_move x).2 = { object := 0, blk := 0 } ∧
      (shared_ptr.ctor_move x).2.get = 0 ∧
      (shared_ptr.ctor_move x).2.toBool = false ∧
      shared_ptr.use_count h (shared_ptr.ctor_move x).2 = 0) ∧
    ((weak_ptr.ctor_move w).1 = w ∧
      (weak_ptr.ctor_move w).2 = { object := 0, blk := 0 } ∧
      (weak_ptr.ctor_move w).2.toBool = false ∧
      weak_ptr.use_count h (weak_ptr.ctor_move w).2 = 0) ∧
    ((σ.step (Op.sp_move src)).heap = σ.heap ∧ (σ.step (Op.sp_move src)).wp = σ.wp ∧
      (σ.shared src = some x →
        (σ.step (Op.sp_move src)).shared src = some { object := 0, blk := 0 } ∧
        (σ.step (Op.sp_move src)).shared σ.sp.length = some x)) ∧
    ((σ.step (Op.wp_move src)).heap = σ.heap ∧ (σ.step (Op.wp_move src)).sp = σ.sp ∧
      (σ.weakv src = some w →
        (σ.step (Op.wp_move src)).weakv src = some { object := 0, blk := 0 } ∧
        (σ.step (Op.wp_move src)).weakv σ.wp.length = some w)) := by
  refine ⟨⟨rfl, rfl, rfl, rfl, rfl⟩, ⟨rfl, rfl, rfl, rfl⟩, ⟨?_, ?_, ?_⟩, ⟨?_, ?_, ?_⟩⟩
  · cases hsrc : σ.shared src <;> simp only [State.step, hsrc]
  · cases hsrc : σ.shared src <;> simp only [State.step, hsrc]
  · intro hsrc
    have e : σ.step (Op.sp_move src) =
        { σ with sp := σ.sp.set src (some { object := 0, blk := 0 }) ++ [some x] } := by
      simp only [State.step, hsrc, shared_ptr.ctor_move]
    rw [e]
    constructor
    · exact getD_append_of_getD _ _ _ _ (getD_set_self σ.sp src x _ hsrc)
    · have hl : σ.sp.length = (σ.sp.set src (some { object := 0, blk := 0 })).length := by
        simp
      rw [hl]
      exact getD_append_length _ _
  · cases hsrc : σ.weakv src <;> simp only [State.step, hsrc]
  · cases hsrc : σ.weakv src <;> simp only [State.step, hsrc]
  · intro hsrc
    have e : σ.step (Op.wp_move src) =
        { σ with wp := σ.wp.set src (some { object := 0, blk := 0 }) ++ [some w] } := by
      simp only [State.step, hsrc, weak_ptr.ctor_move]
    rw [e]
    constructor
    · exact getD_append_of_getD _ _ _ _ (getD_set_self σ.wp src w _ hsrc)
    · have hl : σ.wp.length = (σ.wp.set src (some { object := 0, blk := 0 })).length := by
        simp
      rw [hl]
      exact getD_append_length _ _

/-! ## Observers -/

/-- C17: for a strong and for a weak handle `use_count()` is `0` on a null block and the
strong counter of the block otherwise, the boolean conversion is true exactly on a
non-null block, and `expired()` is true exactly when `use_count()` is `0`; a
default-constructed handle of either class has `use_count()` `0` and converts to false,
a default-constructed strong handle has a null `get()`, and a default-constructed weak
handle is expired. -/
theorem observers_spec (h : Heap) (x : shared_ptr) (w : weak_ptr) :
    (x.blk = 0 → shared_ptr.use_count h x = 0) ∧
    (x.blk ≠ 0 → shared_ptr.use_count h x = h.strong x.blk) ∧
    (x.toBool = true ↔ x.blk ≠ 0) ∧
    (w.blk = 0 → weak_ptr.use_count h w = 0) ∧
    (w.blk ≠ 0 → weak_ptr.use_count h w = h.strong w.blk) ∧
    (w.toBool = true ↔ w.blk ≠ 0) ∧
    (weak_ptr.expired h w = true ↔ weak_ptr.use_count h w = 0) ∧
    (shared_ptr.use_count h shared_ptr.ctor_default = 0 ∧
      shared_ptr.ctor_default.toBool = false ∧ shared_ptr.ctor_default.get = 0) ∧
    (weak_ptr.use_count h weak_ptr.ctor_default = 0 ∧
      weak_ptr.ctor_default.toBool = false ∧
      weak_ptr.expired h weak_ptr.ctor_default = true) := by
  refine ⟨?_, ?_, ?_, ?_, ?_, ?_, ?_, ⟨rfl, rfl, rfl⟩, ⟨rfl, rfl, ?_⟩⟩
  · intro hb
    simp [shared_ptr.use_count, hb]
  · intro hb
    simp [shared_ptr.use_count, hb, control_block.use_count, Heap.strong]
  · simp [shared_ptr.toBool]
  · intro hb
    simp [weak_ptr.use_count, hb]
  · intro hb
    simp [weak_ptr.use_count, hb, control_block.use_count, Heap.strong]
  · simp [weak_ptr.toBool]
  · simp [weak_ptr.expired]
  · simp [weak_ptr.expired, weak_ptr.use_count, weak_ptr.ctor_default]

/-! ## Construction from a raw pointer -/

theorem ctor_raw_fresh (h : Heap) (p addr : Nat) (hI : h.alloc_inv) :
    (shared_ptr.ctor_raw h p addr).1.get = p ∧
    (shared_ptr.ctor_raw h p addr).1.blk ≠ 0 ∧
    h.live (shared_ptr.ctor_raw h p addr).1.blk = false ∧
    (addr ≠ 0 → h.live addr = false → (shared_ptr.ctor_raw h p addr).1.blk = addr) ∧
    (shared_ptr.ctor_raw h p addr).2.live (shared_ptr.ctor_raw h p addr).1.blk = true ∧
    (shared_ptr.ctor_raw h p addr).1.toBool = true ∧
    shared_ptr.use_count (shared_ptr.ctor_raw h p addr).2 (shared_ptr.ctor_raw h p addr).1 = 1 ∧
    (shared_ptr.ctor_raw h p addr).2.strong (shared_ptr.ctor_raw h p addr).1.blk = 1 ∧
    (shared_ptr.ctor_raw h p addr).2.weak (shared_ptr.ctor_raw h p addr).1.blk = 1 ∧
    (∀ b, b ≠ (shared_ptr.ctor_raw h p addr).1.blk →
      (shared_ptr.ctor_raw h p addr).2.blocks b = h.blocks b ∧
      (shared_ptr.ctor_raw h p addr).2.live b = h.live b) ∧
    (shared_ptr.ctor_raw h p addr).2.deletedObj = h.deletedObj ∧
    (shared_ptr.ctor_raw h p addr).2.deletedBlk = h.deletedBlk ∧
    (shared_ptr.ctor_raw h p 0).1.blk = h.next ∧
    (shared_ptr.ctor_raw h p 0).2.next = h.next + 1 := by
  obtain ⟨f1, f2⟩ := alloc_addr_fresh h addr hI
  have e1 : (shared_ptr.ctor_raw h p addr).1.blk = h.alloc_addr addr := rfl
  have e2 : (shared_ptr.ctor_raw h p addr).2 = (h.new_control_block addr).2 := rfl
  have e0 : h.alloc_addr 0 = h.next := by simp [Heap.alloc_addr]
  rw [e1, e2]
  refine ⟨rfl, f1, f2, ?_, ?_, ?_, ?_, ?_, ?_, ?_, rfl, rfl, e0, ?_⟩
  · intro ha hl
    simp [Heap.alloc_addr, ha, hl]
  · rw [new_control_block_live, if_pos rfl]
  · simp [shared_ptr.toBool, e1, f1]
  · have hs := new_control_block_strong h addr (h.alloc_addr addr)
    rw [if_pos rfl] at hs
    have hs1 : ((h.new_control_block addr).2.blocks (h.alloc_addr addr)).strong = 1 := hs
    simp [shared_ptr.use_count, control_block.use_count, e1, f1, hs1]
  · rw [new_control_block_strong, if_pos rfl]
  · rw [new_control_block_weak, if_pos rfl]
  · intro b hb
    constructor
    · simp [Heap.new_control_block, Function.update_noteq hb]
    · rw [new_control_block_live, if_neg (Ne.symm hb)]
  · show max h.next (h.alloc_addr 0 + 1) = h.next + 1
    rw [e0]
    omega

/-- C16: on the heap of every state reachable by handle operations, and wherever the
allocator places the block, constructing a strong handle from a raw pointer `p` yields a
handle with `get() == p`, a `true` boolean conversion and `use_count() == 1`, on a block at
a non-null address that held no block before (the allocator's pick `addr` whenever that
is non-null and holds no block) and holds one afterwards, whose strong and weak counters
are both `1`; the content of every other address, the other blocks and both deletion logs
are as before.  When the allocator hands out fresh storage, the block is at the address
`next` and that address is not handed out as fresh again. -/
theorem ctor_raw_spec (ops : List Op) (p addr : Nat) :
    (shared_ptr.ctor_raw (State.init.run ops).heap p addr).1.get = p ∧
    (shared_ptr.ctor_raw (State.init.run ops).heap p addr).1.blk ≠ 0 ∧
    (State.init.run ops).heap.live
      (shared_ptr.ctor_raw (State.init.run ops).heap p addr).1.blk = false ∧
    (addr ≠ 0 → (State.init.run ops).heap.live addr = false →
      (shared_ptr.ctor_raw (State.init.run ops).heap p addr).1.blk = addr) ∧
    (shared_ptr.ctor_raw (State.init.run ops).heap p addr).2.live
      (shared_ptr.ctor_raw (State.init.run ops).heap p addr).1.blk = true ∧
    (shared_ptr.ctor_raw (State.init.run ops).heap p addr).1.toBool = true ∧
    shared_ptr.use_count (shared_ptr.ctor_raw (State.init.run ops).heap p addr).2
      (shared_ptr.ctor_raw (State.init.run ops).heap p addr).1 = 1 ∧
    (shared_ptr.ctor_raw (State.init.run ops).heap p addr).2.strong
      (shared_ptr.ctor_raw (State.init.run ops).heap p addr).1.blk = 1 ∧
    (shared_ptr.ctor_raw (State.init.run ops).heap p addr).2.weak
      (shared_ptr.ctor_raw (State.init.run ops).heap p addr).1.blk = 1 ∧
    (∀ b, b ≠ (shared_ptr.ctor_raw (State.init.run ops).heap p addr).1.blk →
      (shared_ptr.ctor_raw (State.init.run ops).heap p addr).2.blocks b =
        (State.init.run ops).heap.blocks b ∧
      (shared_ptr.ctor_raw (State.init.run ops).heap p addr).2.live b =
        (State.init.run ops).heap.live b) ∧
    (shared_ptr.ctor_raw (State.init.run ops).heap p addr).2.deletedObj =
      (State.init.run ops).heap.deletedObj ∧
    (shared_ptr.ctor_raw (State.init.run ops).heap p addr).2.deletedBlk =
      (State.init.run ops).heap.deletedBlk ∧
    (shared_ptr.ctor_raw (State.init.run ops).heap p 0).1.blk = (State.init.run ops).heap.next ∧
    (shared_ptr.ctor_raw (State.init.run ops).heap p 0).2.next =
      (State.init.run ops).heap.next + 1 :=
  ctor_raw_fresh (State.init.run ops).heap p addr
    (run_null_inv False ops State.init (init_null_inv False)
      (fun _ _ _ hq => absurd hq id)).1

/-! ## Copy construction of a weak handle -/

/-- C14 (fails on the code): variables `0` and `1` own the payloads `10` and `20` on blocks
`1` and `2`, and weak variable `0` observes block `1`.  Copy-constructing a weak handle
from weak variable `0` while the fields of the new object hold the address of block `2`
gives a handle on payload `10` and block `1` and takes the weak counter of block `1` from
`2` to `3`, but it also takes the weak counter of block `2` from `1` to `0` and deletes
block `2`, whose owner is alive; with null fields on entry nothing is released. -/
theorem weak_ctor_copy_releases_uninit :
    (State.init.run [.sp_raw 10 0, .sp_raw 20 0, .wp_shared 0]).heap.weak 1 = 2 ∧
    (State.init.run [.sp_raw 10 0, .sp_raw 20 0, .wp_shared 0]).heap.weak 2 = 1 ∧
    ((State.init.run [.sp_raw 10 0, .sp_raw 20 0, .wp_shared 0]).step
      (.wp_copy 0 { object := 20, blk := 2 })).weakv 1 = some { object := 10, blk := 1 } ∧
    ((State.init.run [.sp_raw 10 0, .sp_raw 20 0, .wp_shared 0]).step
      (.wp_copy 0 { object := 20, blk := 2 })).heap.weak 1 = 3 ∧
    ((State.init.run [.sp_raw 10 0, .sp_raw 20 0, .wp_shared 0]).step
      (.wp_copy 0 { object := 20, blk := 2 })).heap.weak 2 = 0 ∧
    ((State.init.run [.sp_raw 10 0, .sp_raw 20 0, .wp_shared 0]).step
      (.wp_copy 0 { object := 20, blk := 2 })).block_deletes 2 = 1 ∧
    ((State.init.run [.sp_raw 10 0, .sp_raw 20 0, .wp_shared 0]).step
      (.wp_copy 0 { object := 20, blk := 2 })).shared 1 = some { object := 20, blk := 2 } ∧
    ((State.init.run [.sp_raw 10 0, .sp_raw 20 0, .wp_shared 0]).step
      (.wp_copy 0 { object := 20, blk := 2 })).heap.strong 2 = 1 ∧
    ((State.init.run [.sp_raw 10 0, .sp_raw 20 0, .wp_shared 0]).step
      (.wp_copy 0 { object := 0, blk := 0 })).heap.weak 2 = 1 ∧
    ((State.init.run [.sp_raw 10 0, .sp_raw 20 0, .wp_shared 0]).step
      (.wp_copy 0 { object := 0, blk := 0 })).block_deletes 2 = 0 := by
  decide

/-- Freed storage is handed out again.  A weak copy construction whose fields hold the
address of block `1` on entry releases the only weak unit of that block and deletes it
while its owner, variable `0`, is alive; `new` then places the block of the next handle,
variable `1`, at the same address.  The two live handles hold different payload pointers
on one address whose strong counter is `1`, and copy-assigning variable `1` onto variable
`0` deletes payload `7`.  This is why the statements about reachable states leave out
the runs in which that constructor starts from non-null fields. -/
theorem freed_storage_is_reused :
    (State.init.run [.sp_raw 7 0, .wp_default, .wp_copy 0 { object := 0, blk := 1 }]).shared 0 =
      some { object := 7, blk := 1 } ∧
    (State.init.run [.sp_raw 7 0, .wp_default,
      .wp_copy 0 { object := 0, blk := 1 }]).block_deletes 1 = 1 ∧
    (State.init.run [.sp_raw 7 0, .wp_default,
      .wp_copy 0 { object := 0, blk := 1 }]).heap.live 1 = false ∧
    (State.init.run [.sp_raw 7 0, .wp_default, .wp_copy 0 { object := 0, blk := 1 },
      .sp_raw 9 1]).shared 0 = some { object := 7, blk := 1 } ∧
    (State.init.run [.sp_raw 7 0, .wp_default, .wp_copy 0 { object := 0, blk := 1 },
      .sp_raw 9 1]).shared 1 = some { object := 9, blk := 1 } ∧
    (State.init.run [.sp_raw 7 0, .wp_default, .wp_copy 0 { object := 0, blk := 1 },
      .sp_raw 9 1]).heap.live 1 = true ∧
    (State.init.run [.sp_raw 7 0, .wp_default, .wp_copy 0 { object := 0, blk := 1 },
      .sp_raw 9 1]).heap.strong 1 = 1 ∧
    (State.init.run [.sp_raw 7 0, .wp_default, .wp_copy 0 { object := 0, blk := 1 },
      .sp_raw 9 1, .sp_assign_copy 0 1]).payload_deletes 7 = 1 := by
  decide

/-! ## The strong release step -/

/-- C19 (as amended): the strong release step, which the destructor and copy-assignment
run, does nothing on a null block.  Otherwise it applies the `int32_t` decrement to the
strong counter, which is a decrement by one for every counter value above `INT32_MIN`.
If the value before the decrement was `1` it deletes the payload (a null payload pointer
is not logged), applies the `int32_t` decrement to the weak counter (a decrement by one
above `INT32_MIN`) and deletes the block exactly if the weak value before the decrement
was `1`.  If the strong value before the decrement was not `1`, the payload is not
deleted, the weak counter is unchanged and the block is not deleted.  Every other block
and the address `next` are unchanged, and the address of the block stops holding a block
exactly if the block is deleted. -/
theorem release_strong_ref_spec (h : Heap) (x : shared_ptr) :
    (x.blk = 0 → shared_ptr.release_strong_ref h x = h) ∧
    (x.blk ≠ 0 →
      (shared_ptr.release_strong_ref h x).strong x.blk = wrap32 (h.strong x.blk - 1) ∧
      (INT32_MIN < h.strong x.blk → h.strong x.blk ≤ INT32_MAX →
        (shared_ptr.release_strong_ref h x).strong x.blk = h.strong x.blk - 1) ∧
      (h.strong x.blk = 1 →
        (shared_ptr.release_strong_ref h x).deletedObj =
          (if x.object = 0 then h.deletedObj else x.object :: h.deletedObj) ∧
        (shared_ptr.release_strong_ref h x).weak x.blk = wrap32 (h.weak x.blk - 1) ∧
        (INT32_MIN < h.weak x.blk → h.weak x.blk ≤ INT32_MAX →
          (shared_ptr.release_strong_ref h x).weak x.blk = h.weak x.blk - 1) ∧
        (h.weak x.blk = 1 →
          (shared_ptr.release_strong_ref h x).deletedBlk = x.blk :: h.deletedBlk) ∧
        (h.weak x.blk ≠ 1 →
          (shared_ptr.release_strong_ref h x).deletedBlk = h.deletedBlk)) ∧
      (h.strong x.blk ≠ 1 →
        (shared_ptr.release_strong_ref h x).deletedObj = h.deletedObj ∧
        (shared_ptr.release_strong_ref h x).weak x.blk = h.weak x.blk ∧
        (shared_ptr.release_strong_ref h x).deletedBlk = h.deletedBlk) ∧
      (∀ b, b ≠ x.blk → (shared_ptr.release_strong_ref h x).blocks b = h.blocks b) ∧
      (shared_ptr.release_strong_ref h x).next = h.next ∧
      (∀ b, (shared_ptr.release_strong_ref h x).live b =
        if h.strong x.blk = 1 ∧ h.weak x.blk = 1 ∧ x.blk = b then false else h.live b)) ∧
    shared_ptr.dtor h x = shared_ptr.release_strong_ref h x ∧
    (∀ other : shared_ptr, (shared_ptr.assign_copy h x other false).2 =
      if other.blk ≠ 0 then (shared_ptr.release_strong_ref h x).inc_strong other.blk
      else shared_ptr.release_strong_ref h x) := by
  refine ⟨release_strong_ref_null h x, ?_, rfl, ?_⟩
  · intro hb
    have hstrong : (shared_ptr.release_strong_ref h x).strong x.blk =
        wrap32 (h.strong x.blk - 1) := by
      rw [release_strong_ref_strong h x x.blk hb]
      simp
    refine ⟨hstrong, ?_, ?_, ?_, ?_, release_strong_ref_next h x, ?_⟩
    · intro h1 h2
      rw [hstrong]
      apply wrap32_of_range
      · unfold INT32_MIN at h1 ⊢
        omega
      · unfold INT32_MAX at h2 ⊢
        omega
    · intro hs
      have e := release_strong_ref_last h x hb hs
      have d1 := dec_strong_facts h x.blk
      have d2 := delete_object_facts (h.dec_strong x.blk).2 x.object
      have d3 := dec_weak_facts ((h.dec_strong x.blk).2.delete_object x.object) x.blk
      have hwk : ((h.dec_strong x.blk).2.delete_object x.object).weak x.blk = h.weak x.blk := by
        have : ((h.dec_strong x.blk).2.delete_object x.object).weak x.blk =
            (h.dec_strong x.blk).2.weak x.blk := by
          simp only [Heap.weak, d2.1]
        rw [this, d1.2.1]
      have hweak : (shared_ptr.release_strong_ref h x).weak x.blk =
          wrap32 (h.weak x.blk - 1) := by
        rw [e]
        split_ifs
        · show ((((h.dec_strong x.blk).2.delete_object x.object).dec_weak x.blk).2).weak x.blk = _
          rw [d3.1, hwk]
        · rw [d3.1, hwk]
      refine ⟨?_, hweak, ?_, ?_, ?_⟩
      · rw [e]
        split_ifs <;>
          (show ((((h.dec_strong x.blk).2.delete_object x.object).dec_weak
                x.blk).2).deletedObj = _
           rw [d3.2.2.2.1, d2.2.1, d1.2.2.2.1]
           simp_all)
      · intro h1 h2
        rw [hweak]
        apply wrap32_of_range
        · unfold INT32_MIN at h1 ⊢
          omega
        · unfold INT32_MAX at h2 ⊢
          omega
      · intro hw
        rw [e]
        simp only [hw, if_true]
        show x.blk :: ((((h.dec_strong x.blk).2.delete_object x.object).dec_weak
          x.blk).2).deletedBlk = _
        rw [d3.2.2.2.2.1, d2.2.2.1, d1.2.2.2.2.1]
      · intro hw
        rw [e]
        simp only [hw, if_false]
        rw [d3.2.2.2.2.1, d2.2.2.1, d1.2.2.2.2.1]
    · intro hs
      rw [release_strong_ref_shared h x hb hs]
      have d1 := dec_strong_facts h x.blk
      exact ⟨d1.2.2.2.1, d1.2.1 x.blk, d1.2.2.2.2.1⟩
    · intro b hne
      by_cases hs : h.strong x.blk = 1
      · have e := release_strong_ref_last h x hb hs
        have d1 := dec_strong_facts h x.blk
        have d2 := delete_object_facts (h.dec_strong x.blk).2 x.object
        have d3 := dec_weak_facts ((h.dec_strong x.blk).2.delete_object x.object) x.blk
        rw [e]
        split_ifs
        · show ((((h.dec_strong x.blk).2.delete_object x.object).dec_weak x.blk).2).blocks b = _
          rw [d3.2.2.1 b hne, d2.1, d1.2.2.1 b hne]
        · rw [d3.2.2.1 b hne, d2.1, d1.2.2.1 b hne]
      · rw [release_strong_ref_shared h x hb hs]
        exact (dec_strong_facts h x.blk).2.2.1 b hne
    · intro b
      rw [release_strong_ref_live]
      simp [hb]
  · intro other
    simp only [shared_ptr.assign_copy, Bool.false_eq_true, if_false]
    split_ifs <;> rfl

/-- Witness of the strong release step on the only owner of a freshly made block. -/
theorem release_strong_ref_spec_witness :
    ({ object := 7, blk := 1 } : shared_ptr).blk ≠ 0 ∧
    (shared_ptr.ctor_raw Heap.empty 7 0).2.strong 1 = 1 ∧
    (shared_ptr.release_strong_ref (shared_ptr.ctor_raw Heap.empty 7 0).2
      { object := 7, blk := 1 }).strong 1 = (shared_ptr.ctor_raw Heap.empty 7 0).2.strong 1 - 1 ∧
    (shared_ptr.release_strong_ref (shared_ptr.ctor_raw Heap.empty 7 0).2
      { object := 7, blk := 1 }).deletedBlk = [1] :=
  ⟨by decide, by decide,
   ((release_strong_ref_spec (shared_ptr.ctor_raw Heap.empty 7 0).2 { object := 7, blk := 1 }).2.1
      (by decide)).2.1 (by decide) (by decide),
   (((release_strong_ref_spec (shared_ptr.ctor_raw Heap.empty 7 0).2
      { object := 7, blk := 1 }).2.1 (by decide)).2.2.1 (by decide)).2.2.2.1 (by decide)⟩

/-- On a heap whose block `1` has strong counter `INT32_MIN`, destroying a handle on the
block wraps the counter to `INT32_MAX`. -/
theorem dtor_at_int32_min (h : Heap) (hs : h.strong 1 = -2147483648) :
    (shared_ptr.dtor h { object := 7, blk := 1 }).strong 1 = 2147483647 := by
  unfold shared_ptr.dtor
  rw [release_strong_ref_strong h _ 1 (by decide)]
  simp only [if_true, hs]
  decide

theorem overflowed_spec :
    overflowed.shared 0 = some { object := 7, blk := 1 } ∧
    overflowed.heap.strong 1 = -2147483648 ∧ overflowed.heap.weak 1 = 1 ∧
    overflowed.heap.deletedBlk = [] := by
  obtain ⟨h1, h2, h3, _, _, _, h7⟩ := copies_spec 2147483647
  refine ⟨h1, ?_, h3, h7⟩
  rw [show overflowed = copies 2147483647 from rfl, h2]
  decide

/-- C19 as stated fails: after `2^31 - 1` copies of a handle the strong counter of its
block is `-2147483648`; the release step run by the destructor of a handle on the block
leaves the counter at `2147483647`, which is not a decrement by one. -/
theorem release_wraps_at_int32_min :
    overflowed.shared 0 = some { object := 7, blk := 1 } ∧
    overflowed.heap.strong 1 = -2147483648 ∧
    (shared_ptr.dtor overflowed.heap { object := 7, blk := 1 }).strong 1 = 2147483647 :=
  ⟨overflowed_spec.1, overflowed_spec.2.1, dtor_at_int32_min overflowed.heap overflowed_spec.2.1⟩

/-! ## `lock()` against other threads -/

theorem lock_loop_shared_nil (old : Int) :
    weak_ptr.lock_loop_shared [] old = if old = 0 then some (false, []) else none := by
  simp only [weak_ptr.lock_loop_shared]

/-- One pass of the loop of `lock()`: return on a zero value, else succeed if the exchange
finds the expected value and does not fail spuriously, else retry with the value found. -/
theorem lock_loop_shared_cons (c : control_block) (s : Bool)
    (env : List (control_block × Bool)) (old : Int) :
    weak_ptr.lock_loop_shared ((c, s) :: env) old =
      if old = 0 then some (false, [])
      else if c.strong = old ∧ s = false then
        some (true, [(c, { strong := wrap32 (old + 1), weak := c.weak })])
      else weak_ptr.lock_loop_shared env c.strong := by
  by_cases h0 : old = 0
  · simp [weak_ptr.lock_loop_shared, h0]
  · by_cases hc : c.strong = old ∧ s = false
    · simp [weak_ptr.lock_loop_shared, control_block.compare_exchange_weak, h0, hc]
    · simp only [weak_ptr.lock_loop_shared, control_block.compare_exchange_weak, h0, hc,
        if_false]
      simp

/-- When the loop of `lock()` returns against a schedule of other threads' operations, it
has either failed without a write, or succeeded with exactly one write, which replaced a
block content it was shown, with a non-zero strong counter, by the same content with the
`int32_t` successor of that counter. -/
theorem lock_loop_shared_spec (env : List (control_block × Bool)) :
    ∀ (old : Int) (r : Bool × List (control_block × control_block)),
      weak_ptr.lock_loop_shared env old = some r →
      r = (false, []) ∨
      ∃ c, (c, false) ∈ env ∧ c.strong ≠ 0 ∧
        r = (true, [(c, { strong := wrap32 (c.strong + 1), weak := c.weak })]) := by
  induction env with
  | nil =>
    intro old r hr
    rw [lock_loop_shared_nil] at hr
    split_ifs at hr
    left
    injection hr with hr
    exact hr.symm
  | cons e env ih =>
    intro old r hr
    obtain ⟨c, s⟩ := e
    rw [lock_loop_shared_cons] at hr
    split_ifs at hr with h0 hc
    · left
      injection hr with hr
      exact hr.symm
    · right
      obtain ⟨hc1, hc2⟩ := hc
      injection hr with hr
      refine ⟨c, ?_, ?_, ?_⟩
      · rw [hc2]
        exact List.mem_cons_self _ _
      · rw [hc1]
        exact h0
      · rw [← hr, hc1]
    · rcases ih _ r hr with h1 | ⟨c2, h1, h2, h3⟩
      · exact Or.inl h1
      · exact Or.inr ⟨c2, List.mem_cons_of_mem _ h1, h2, h3⟩

/-- The loop of `lock()` returns as soon as two exchanges in a row find the same block
content and the second does not fail spuriously. -/
theorem lock_loop_shared_returns (c : control_block) (s : Bool)
    (env : List (control_block × Bool)) :
    ∀ old : Int,
      (weak_ptr.lock_loop_shared (env ++ [(c, s), (c, false)]) old).isSome = true := by
  induction env with
  | nil =>
    intro old
    rw [List.nil_append, lock_loop_shared_cons, lock_loop_shared_cons]
    split_ifs with h1 h2 h3 h4
    · rfl
    · rfl
    · rfl
    · rfl
    · exact absurd ⟨rfl, rfl⟩ h4
  | cons e env ih =>
    intro old
    obtain ⟨c2, s2⟩ := e
    rw [List.cons_append, lock_loop_shared_cons]
    split_ifs
    · rfl
    · rfl
    · exact ih _

/-- Against the schedule of an undisturbed run, the loop of `lock()` fails on a zero
counter and otherwise makes the one write that increments the strong counter. -/
theorem lock_loop_shared_quiet (c : control_block) (spurious : List Bool) :
    weak_ptr.lock_loop_shared (weak_ptr.quiet c spurious) c.strong =
      if c.strong = 0 then some (false, []) else some (true, [(c, c.inc_strong)]) := by
  unfold weak_ptr.quiet
  induction spurious with
  | nil =>
    rw [List.map_nil, List.nil_append, lock_loop_shared_cons]
    by_cases h0 : c.strong = 0
    · simp [h0]
    · simp [h0, control_block.inc_strong]
  | cons s t ih =>
    rw [List.map_cons, List.cons_append, lock_loop_shared_cons]
    by_cases h0 : c.strong = 0
    · simp [h0]
    · cases s with
      | false => simp [h0, control_block.inc_strong]
      | true =>
        simp only [h0, if_false, Bool.true_eq_false, and_false]
        rw [if_neg h0] at ih
        exact ih

/-- C18 (as amended): `lock()` against any schedule of other threads' operations on the
control block, given as the value the first load returns and, for every exchange, the
content of the block at that moment and whether the exchange fails spuriously.  Whenever
`lock()` returns, it has either failed, returning the empty handle without a write, or
succeeded, returning a handle with the payload pointer and block of the weak handle after
exactly one write: the write replaced a block content `c` it was shown, with a non-zero
strong counter `v`, by the same content with the strong counter `v + 1` wrapped into
`int32_t`, the weak counter untouched; for `0 ≤ v < INT32_MAX` that is a transition from
`v > 0` to `v + 1`.  No write replaces a strong counter of `0`.  `lock()` returns as soon
as two exchanges in a row find the same block content and the second does not fail
spuriously, and on an empty weak handle at once.  Against the schedule of an undisturbed
run it returns the handle `lock` returns on that heap, and its one write is the change
`lock` makes to the heap. -/
theorem lock_under_interference (w : weak_ptr) (loaded : Int)
    (env : List (control_block × Bool)) (h : Heap) (spurious : List Bool) :
    (∀ s ws, weak_ptr.lock_shared w loaded env = some (s, ws) →
      (s = { object := 0, blk := 0 } ∧ ws = []) ∨
      (w.blk ≠ 0 ∧ s = { object := w.object, blk := w.blk } ∧
        ∃ c, (c, false) ∈ env ∧ c.strong ≠ 0 ∧
          ws = [(c, { strong := wrap32 (c.strong + 1), weak := c.weak })] ∧
          (0 ≤ c.strong → c.strong < INT32_MAX →
            0 < c.strong ∧ wrap32 (c.strong + 1) = c.strong + 1))) ∧
    (∀ s ws c c2, weak_ptr.lock_shared w loaded env = some (s, ws) → (c, c2) ∈ ws →
      c.strong ≠ 0) ∧
    (∀ c s, (weak_ptr.lock_shared w loaded (env ++ [(c, s), (c, false)])).isSome = true) ∧
    (w.blk = 0 → weak_ptr.lock_shared w loaded env = some ({ object := 0, blk := 0 }, [])) ∧
    (w.blk = 0 ∨ h.strong w.blk = 0 →
      weak_ptr.lock_shared w (h.strong w.blk) (weak_ptr.quiet (h.blocks w.blk) spurious) =
        some ({ object := 0, blk := 0 }, []) ∧
      weak_ptr.lock h w (spurious.length + 1) spurious = some ({ object := 0, blk := 0 }, h)) ∧
    (w.blk ≠ 0 → h.strong w.blk ≠ 0 →
      weak_ptr.lock_shared w (h.strong w.blk) (weak_ptr.quiet (h.blocks w.blk) spurious) =
        some ({ object := w.object, blk := w.blk },
          [(h.blocks w.blk, (h.inc_strong w.blk).blocks w.blk)]) ∧
      weak_ptr.lock h w (spurious.length + 1) spurious =
        some ({ object := w.object, blk := w.blk }, h.inc_strong w.blk)) := by
  have key : ∀ s ws, weak_ptr.lock_shared w loaded env = some (s, ws) →
      (s = { object := 0, blk := 0 } ∧ ws = []) ∨
      (w.blk ≠ 0 ∧ s = { object := w.object, blk := w.blk } ∧
        ∃ c, (c, false) ∈ env ∧ c.strong ≠ 0 ∧
          ws = [(c, { strong := wrap32 (c.strong + 1), weak := c.weak })]) := by
    intro s ws hr
    unfold weak_ptr.lock_shared at hr
    by_cases hb : w.blk = 0
    · simp only [hb, if_true] at hr
      injection hr with hr
      injection hr with h1 h2
      exact Or.inl ⟨h1.symm, h2.symm⟩
    · simp only [hb, if_false] at hr
      cases hl : weak_ptr.lock_loop_shared env loaded with
      | none => simp [hl] at hr
      | some r =>
        obtain ⟨ok, ws2⟩ := r
        rcases lock_loop_shared_spec env loaded (ok, ws2) hl with h1 | ⟨c, h1, h2, h3⟩
        · injection h1 with h1a h1b
          subst h1a h1b
          simp only [hl] at hr
          injection hr with hr
          injection hr with h1 h2
          exact Or.inl ⟨h1.symm, h2.symm⟩
        · injection h3 with h3a h3b
          subst h3a h3b
          simp only [hl] at hr
          injection hr with hr
          injection hr with h4 h5
          exact Or.inr ⟨hb, h4.symm, c, h1, h2, h5.symm⟩
  refine ⟨?_, ?_, ?_, ?_, ?_, ?_⟩
  · intro s ws hr
    rcases key s ws hr with h1 | ⟨h1, h2, c, h3, h4, h5⟩
    · exact Or.inl h1
    · refine Or.inr ⟨h1, h2, c, h3, h4, h5, fun hlo hhi => ⟨by omega, ?_⟩⟩
      apply wrap32_of_range
      · unfold INT32_MIN
        omega
      · omega
  · intro s ws c c2 hr hm
    rcases key s ws hr with h1 | ⟨_, _, c3, _, h4, h5⟩
    · rw [h1.2] at hm
      simp at hm
    · rw [h5] at hm
      simp only [List.mem_singleton, Prod.mk.injEq] at hm
      rw [hm.1]
      exact h4
  · intro c s0
    unfold weak_ptr.lock_shared
    by_cases hb : w.blk = 0
    · simp [hb]
    · simp only [hb, if_false]
      have hs := lock_loop_shared_returns c s0 env loaded
      cases hl : weak_ptr.lock_loop_shared (env ++ [(c, s0), (c, false)]) loaded with
      | none => simp [hl] at hs
      | some r =>
        obtain ⟨ok, ws2⟩ := r
        cases ok <;> rfl
  · intro hb
    simp [weak_ptr.lock_shared, hb, shared_ptr.ctor_default]
  · intro hz
    constructor
    · unfold weak_ptr.lock_shared
      by_cases hb : w.blk = 0
      · simp [hb, shared_ptr.ctor_default]
      · have h0 : (h.blocks w.blk).strong = 0 := by
          rcases hz with hz | hz
          · exact absurd hz hb
          · exact hz
        have hq := lock_loop_shared_quiet (h.blocks w.blk) spurious
        rw [if_pos h0] at hq
        simp only [hb, if_false, Heap.strong, hq, shared_ptr.ctor_default]
    · rw [lock_fuel, if_pos hz]
      rfl
  · intro hb h0
    constructor
    · unfold weak_ptr.lock_shared
      have h1 : ¬ (h.blocks w.blk).strong = 0 := h0
      have hq := lock_loop_shared_quiet (h.blocks w.blk) spurious
      rw [if_neg h1] at hq
      simp only [hb, if_false, Heap.strong, hq]
      simp [Heap.inc_strong]
    · rw [lock_fuel, if_neg (by
        intro hz
        rcases hz with hz | hz
        · exact hb hz
        · exact h0 hz)]

/-- Witness of `lock_under_interference`: the load returns `1`; the first exchange finds
the counter at `2`, the second finds `2` and fails spuriously, the third finds `2` and
succeeds, so that the one write is from `2` to `3`. -/
theorem lock_under_interference_witness :
    weak_ptr.lock_shared { object := 7, blk := 1 } 1
        [({ strong := 2, weak := 1 }, false), ({ strong := 2, weak := 1 }, true),
          ({ strong := 2, weak := 1 }, false)] =
      some ({ object := 7, blk := 1 },
        [({ strong := 2, weak := 1 }, { strong := 3, weak := 1 })]) ∧
    ∀ c c2 : control_block,
      (c, c2) ∈ [(({ strong := 2, weak := 1 } : control_block),
        ({ strong := 3, weak := 1 } : control_block))] → c.strong ≠ 0 :=
  ⟨by decide,
   fun c c2 => (lock_under_interference { object := 7, blk := 1 } 1
      [({ strong := 2, weak := 1 }, false), ({ strong := 2, weak := 1 }, true),
        ({ strong := 2, weak := 1 }, false)] Heap.empty []).2.1 { object := 7, blk := 1 }
      [({ strong := 2, weak := 1 }, { strong := 3, weak := 1 })] c c2 (by decide)⟩

/-- A `lock()` whose load and whose first exchange find the strong counter of block `1`
at the non-zero value `v` writes the `int32_t` successor of `v`. -/
theorem lock_shared_at (h : Heap) (v : Int) (hs : h.strong 1 = v) (h0 : v ≠ 0) :
    weak_ptr.lock_shared { object := 7, blk := 1 } (h.strong 1) [(h.blocks 1, false)] =
      some ({ object := 7, blk := 1 },
        [(h.blocks 1, { strong := wrap32 (v + 1), weak := (h.blocks 1).weak })]) := by
  have hs1 : (h.blocks 1).strong = v := hs
  simp [weak_ptr.lock_shared, lock_loop_shared_cons, Heap.strong, hs1, h0]

/-- C18 as stated fails: after `2^31 - 2` copies made by other threads the strong counter of
block `1` is `v = 2147483647`; a `lock()` that loads this value and whose exchange finds
it succeeds with the one write from `2147483647` to `-2147483648`, which is not `v + 1`.
And after `2^31 - 1` copies the counter is `v = -2147483648`; a `lock()` that finds it
succeeds with the write from `-2147483648` to `-2147483647`, a transition from a value
that is not positive. -/
theorem lock_transition_wraps :
    saturated.heap.strong 1 = 2147483647 ∧
    weak_ptr.lock_shared { object := 7, blk := 1 } (saturated.heap.strong 1)
        [(saturated.heap.blocks 1, false)] =
      some ({ object := 7, blk := 1 },
        [(saturated.heap.blocks 1,
          { strong := -2147483648, weak := (saturated.heap.blocks 1).weak })]) ∧
    overflowed.heap.strong 1 = -2147483648 ∧
    weak_ptr.lock_shared { object := 7, blk := 1 } (overflowed.heap.strong 1)
        [(overflowed.heap.blocks 1, false)] =
      some ({ object := 7, blk := 1 },
        [(overflowed.heap.blocks 1,
          { strong := -2147483647, weak := (overflowed.heap.blocks 1).weak })]) :=
  ⟨saturated_spec.2.1,
   lock_shared_at saturated.heap 2147483647 saturated_spec.2.1 (by decide),
   overflowed_spec.2.1,
   lock_shared_at overflowed.heap (-2147483648) overflowed_spec.2.1 (by decide)⟩

/-! ## Destroying one of several owners -/

/-- Destroying a strong handle on a block whose strong counter is `n` with
`2 ≤ n ≤ INT32_MAX` leaves the counter at `n - 1` and changes nothing else. -/
theorem dtor_of_shared_block (h : Heap) (x : shared_ptr) (n : Int) (hb : x.blk ≠ 0)
    (hn : h.strong x.blk = n) (h2 : 2 ≤ n) (hmax : n ≤ INT32_MAX) :
    (shared_ptr.dtor h x).strong x.blk = n - 1 ∧
    shared_ptr.use_count (shared_ptr.dtor h x) x = n - 1 ∧
    (shared_ptr.dtor h x).deletedObj = h.deletedObj ∧
    (shared_ptr.dtor h x).deletedBlk = h.deletedBlk ∧
    (∀ b, (shared_ptr.dtor h x).weak b = h.weak b) ∧
    (∀ b, b ≠ x.blk → (shared_ptr.dtor h x).blocks b = h.blocks b) ∧
    (shared_ptr.dtor h x).next = h.next := by
  have hs : h.strong x.blk ≠ 1 := by omega
  have e : shared_ptr.dtor h x = (h.dec_strong x.blk).2 := release_strong_ref_shared h x hb hs
  have d := dec_strong_facts h x.blk
  have hv : (shared_ptr.dtor h x).strong x.blk = n - 1 := by
    rw [e, d.1, hn]
    apply wrap32_of_range
    · unfold INT32_MIN
      omega
    · unfold INT32_MAX at hmax ⊢
      omega
  refine ⟨hv, ?_, ?_, ?_, ?_, ?_, ?_⟩
  · have hv1 : ((shared_ptr.dtor h x).blocks x.blk).strong = n - 1 := hv
    simp [shared_ptr.use_count, control_block.use_count, hb, hv1]
  · rw [e]
    exact d.2.2.2.1
  · rw [e]
    exact d.2.2.2.2.1
  · intro b
    rw [e]
    exact d.2.1 b
  · intro b hne
    rw [e]
    exact d.2.2.1 b hne
  · rw [e]
    exact d.2.2.2.2.2

/-- C15 (fails on the code): a handle on payload `7` is constructed and copied, the copy
is move-assigned onto the original, which leaves the strong counter at `2` with one live
handle, and the original is copied again.  Variables `0` and `2` are then the `n = 2` live
strong handles on block `1`, whose strong counter is `3`.  Destroying variable `2` leaves
the payload alive and one live strong handle on the block, with the strong counter at
`2`, not at `n - 1 = 1`. -/
theorem destroy_one_of_two_leaves_two :
    (State.init.run [.sp_raw 7 0, .sp_copy 0, .sp_assign_move 0 1, .sp_copy 0]).shared 0 =
      some { object := 7, blk := 1 } ∧
    (State.init.run [.sp_raw 7 0, .sp_copy 0, .sp_assign_move 0 1, .sp_copy 0]).shared 1 =
      some { object := 0, blk := 0 } ∧
    (State.init.run [.sp_raw 7 0, .sp_copy 0, .sp_assign_move 0 1, .sp_copy 0]).shared 2 =
      some { object := 7, blk := 1 } ∧
    (State.init.run [.sp_raw 7 0, .sp_copy 0, .sp_assign_move 0 1, .sp_copy 0]).strong_refs 1
      = 2 ∧
    (State.init.run [.sp_raw 7 0, .sp_copy 0, .sp_assign_move 0 1, .sp_copy 0]).heap.strong 1
      = 3 ∧
    ((State.init.run [.sp_raw 7 0, .sp_copy 0, .sp_assign_move 0 1, .sp_copy 0]).step
      (.sp_dtor 2)).strong_refs 1 = 1 ∧
    ((State.init.run [.sp_raw 7 0, .sp_copy 0, .sp_assign_move 0 1, .sp_copy 0]).step
      (.sp_dtor 2)).heap.strong 1 = 2 ∧
    ((State.init.run [.sp_raw 7 0, .sp_copy 0, .sp_assign_move 0 1, .sp_copy 0]).step
      (.sp_dtor 2)).payload_deletes 7 = 0 := by
  decide

theorem block_deletes_eq_zero (σ : State) (b : Nat) :
    σ.block_deletes b = 0 ↔ b ∉ σ.heap.deletedBlk := by
  unfold State.block_deletes
  exact List.count_eq_zero

/-! ## Sign of the counters -/

theorem block_deletes_of_nil (σ : State) (b : Nat) (h : σ.heap.deletedBlk = []) :
    σ.block_deletes b = 0 := by
  simp [State.block_deletes, h]

/-- C20 (as amended): in a state reached by handle operations none of which increments a
counter that holds `INT32_MAX`, and with no weak copy construction that starts from
non-null fields, both counters of every control block that is there are non-negative: the
strong counter lies between the number of live strong handles on the block and
`INT32_MAX`, and the weak counter lies between `1` and `INT32_MAX` and is at least the
number of live weak handles on the block.  No operation of such a run uses a block after
it has been freed. -/
theorem counters_nonneg (ops : List Op) (b : Nat)
    (hw : State.init.never_wraps ops = true) (hc : stale_free ops = true)
    (hlive : (State.init.run ops).heap.live b = true) :
    0 ≤ (State.init.run ops).heap.strong b ∧
    0 ≤ (State.init.run ops).heap.weak b ∧
    ((State.init.run ops).strong_refs b : Int) ≤ (State.init.run ops).heap.strong b ∧
    (State.init.run ops).heap.strong b ≤ INT32_MAX ∧
    1 ≤ (State.init.run ops).heap.weak b ∧
    ((State.init.run ops).weak_refs b : Int) ≤ (State.init.run ops).heap.weak b ∧
    (State.init.run ops).heap.weak b ≤ INT32_MAX ∧
    State.init.never_dangles ops = true := by
  obtain ⟨hI, _⟩ := run_counted ops State.init init_counted hw hc
  obtain ⟨c1, c2, c3, c4, c5⟩ := hI.2.2 b hlive
  refine ⟨by omega, by omega, c1, c2, c4, ?_, c5,
    run_never_dangles ops State.init init_counted hw hc⟩
  split_ifs at c3 <;> omega

/-- Witness of `counters_nonneg`: a block with two owners and a weak observer. -/
theorem counters_nonneg_witness :
    State.init.never_wraps [Op.sp_raw 7 0, Op.sp_copy 0, Op.wp_shared 0] = true ∧
    (State.init.run [Op.sp_raw 7 0, Op.sp_copy 0, Op.wp_shared 0]).heap.live 1 = true ∧
    0 ≤ (State.init.run [Op.sp_raw 7 0, Op.sp_copy 0, Op.wp_shared 0]).heap.strong 1 ∧
    0 ≤ (State.init.run [Op.sp_raw 7 0, Op.sp_copy 0, Op.wp_shared 0]).heap.weak 1 :=
  ⟨by decide, by decide,
   (counters_nonneg [Op.sp_raw 7 0, Op.sp_copy 0, Op.wp_shared 0] 1 (by decide) (by decide)
      (by decide)).1,
   (counters_nonneg [Op.sp_raw 7 0, Op.sp_copy 0, Op.wp_shared 0] 1 (by decide) (by decide)
      (by decide)).2.1⟩

/-- C20 as stated fails: after `2^31 - 1` copies of a handle the handle is alive, its
block is there and has never been deleted, and the strong counter of the block is
`-2147483648`. -/
theorem strong_counter_negative :
    overflowed.shared 0 = some { object := 7, blk := 1 } ∧
    overflowed.block_deletes 1 = 0 ∧
    overflowed.heap.strong 1 = -2147483648 ∧
    overflowed.heap.strong 1 < 0 ∧
    overflowed.heap.live 1 = true := by
  obtain ⟨h1, h2, _, h4⟩ := overflowed_spec
  have hl : overflowed.heap.live 1 = true := by
    rw [show overflowed = copies 2147483647 from rfl]
    exact copies_live 2147483647
  refine ⟨h1, block_deletes_of_nil overflowed 1 h4, h2, ?_, hl⟩
  rw [h2]
  decide

/-! ## Construction of a weak handle from a strong handle -/

/-- Running `n` constructions of a weak handle from strong variable `0` adds `n` to the
weak counter of its block, wrapping in `int32_t`, and leaves the strong handles and the
strong counter alone. -/
theorem run_observers (x : shared_ptr) (hx : x.blk ≠ 0) :
    ∀ (n : Nat) (σ : State), σ.shared 0 = some x →
      INT32_MIN ≤ σ.heap.weak x.blk → σ.heap.weak x.blk ≤ INT32_MAX →
      (σ.run (List.replicate n (Op.wp_shared 0))).shared 0 = some x ∧
      (σ.run (List.replicate n (Op.wp_shared 0))).heap.weak x.blk =
        wrap32 (σ.heap.weak x.blk + n) ∧
      (σ.run (List.replicate n (Op.wp_shared 0))).heap.strong x.blk = σ.heap.strong x.blk := by
  intro n
  induction n with
  | zero =>
    intro σ hσ h1 h2
    simp only [State.run, List.replicate, List.foldl_nil, Nat.cast_zero, add_zero]
    exact ⟨hσ, (wrap32_of_range h1 h2).symm, trivial⟩
  | succ n ih =>
    intro σ hσ h1 h2
    have hstep : σ.step (Op.wp_shared 0) =
        { σ with heap := σ.heap.inc_weak x.blk,
                 wp := σ.wp ++ [some { object := x.object, blk := x.blk }] } := by
      simp [State.step, hσ, weak_ptr.ctor_shared, shared_ptr.toBool, hx]
    have hσ2 : (σ.step (Op.wp_shared 0)).shared 0 = some x := by
      rw [hstep]
      exact hσ
    have hw : (σ.step (Op.wp_shared 0)).heap.weak x.blk = wrap32 (σ.heap.weak x.blk + 1) := by
      rw [hstep]
      show (σ.heap.inc_weak x.blk).weak x.blk = _
      rw [inc_weak_weak, if_pos rfl]
    have hs : (σ.step (Op.wp_shared 0)).heap.strong x.blk = σ.heap.strong x.blk := by
      rw [hstep]
      exact inc_weak_strong _ _ _
    have hr := wrap32_range (σ.heap.weak x.blk + 1)
    obtain ⟨i1, i2, i3⟩ := ih (σ.step (Op.wp_shared 0)) hσ2 (by rw [hw]; exact hr.1)
      (by rw [hw]; exact hr.2)
    have hrun : σ.run (List.replicate (n + 1) (Op.wp_shared 0)) =
        (σ.step (Op.wp_shared 0)).run (List.replicate n (Op.wp_shared 0)) := by
      rw [List.replicate_succ]
      exact run_cons _ _ _
    rw [hrun]
    refine ⟨i1, ?_, ?_⟩
    · rw [i2, hw, wrap32_add_one_wrap32]
      congr 1
    · rw [i3, hs]

/-- After `n` weak handles have been constructed from the strong handle, the strong handle
is alive, the strong counter of block `1` is `1` and its weak counter is `1 + n` wrapped
into `int32_t`. -/
theorem observed_spec (n : Nat) :
    (observed n).shared 0 = some { object := 7, blk := 1 } ∧
    (observed n).heap.weak 1 = wrap32 (1 + n) ∧ (observed n).heap.strong 1 = 1 := by
  have h0 : (State.init.step (Op.sp_raw 7 0)).shared 0 = some { object := 7, blk := 1 } := by
    decide
  have hs : (State.init.step (Op.sp_raw 7 0)).heap.strong 1 = 1 := by decide
  have hw : (State.init.step (Op.sp_raw 7 0)).heap.weak 1 = 1 := by decide
  obtain ⟨r1, r2, r3⟩ := run_observers { object := 7, blk := 1 } (by decide) n
    (State.init.step (Op.sp_raw 7 0)) h0 (by rw [hw]; decide) (by rw [hw]; decide)
  have hrun : observed n =
      (State.init.step (Op.sp_raw 7 0)).run (List.replicate n (Op.wp_shared 0)) := by
    unfold observed
    exact run_cons _ _ _
  rw [hrun]
  exact ⟨r1, r2.trans (by rw [hw]), r3.trans hs⟩

/-- On a heap whose block `1` has weak counter `INT32_MAX`, constructing a weak handle
from a strong handle on the block wraps the weak counter to `INT32_MIN`. -/
theorem ctor_shared_at_int32_max (h : Heap) (hw : h.weak 1 = 2147483647) :
    (weak_ptr.ctor_shared h { object := 7, blk := 1 }).2.weak 1 = -2147483648 := by
  have e1 : weak_ptr.ctor_shared h { object := 7, blk := 1 } =
      ({ object := 7, blk := 1 }, h.inc_weak 1) := by
    simp [weak_ptr.ctor_shared, shared_ptr.toBool]
  rw [e1]
  show (h.inc_weak 1).weak 1 = _
  rw [inc_weak_weak, if_pos rfl, hw]
  decide

/-- C13 (as amended): constructing a weak handle from a strong handle `s`.  If `s` is
empty the weak handle is empty and the heap is unchanged.  Otherwise the weak handle has
the payload pointer and block of `s`; the weak counter of the block takes the `int32_t`
increment, which is an increase by exactly one for every counter value below `INT32_MAX`;
the strong counter, every other block, both deletion logs and the allocator are
unchanged; the `use_count()` of the weak handle equals `s.use_count()`, which is what it
was before; and the weak handle is not expired exactly if the strong counter is not `0`.
In a run in which no operation, the construction included, increments a counter that
holds `INT32_MAX` and no weak copy construction starts from non-null fields, the strong
counter of the block of a live non-empty `s` is at least `1`: the construction adds
exactly one to the weak counter and the new weak handle is not expired; and no operation
of such a run uses a block after it has been freed. -/
theorem weak_from_shared_spec (h : Heap) (s : shared_ptr) (ops : List Op) (src : Nat) :
    (s.blk = 0 → weak_ptr.ctor_shared h s = ({ object := 0, blk := 0 }, h)) ∧
    (s.blk ≠ 0 →
      (weak_ptr.ctor_shared h s).1 = { object := s.object, blk := s.blk } ∧
      (weak_ptr.ctor_shared h s).2.weak s.blk = wrap32 (h.weak s.blk + 1) ∧
      (INT32_MIN ≤ h.weak s.blk → h.weak s.blk < INT32_MAX →
        (weak_ptr.ctor_shared h s).2.weak s.blk = h.weak s.blk + 1) ∧
      (weak_ptr.ctor_shared h s).2.strong s.blk = h.strong s.blk ∧
      (∀ b, b ≠ s.blk → (weak_ptr.ctor_shared h s).2.blocks b = h.blocks b) ∧
      (weak_ptr.ctor_shared h s).2.deletedObj = h.deletedObj ∧
      (weak_ptr.ctor_shared h s).2.deletedBlk = h.deletedBlk ∧
      (weak_ptr.ctor_shared h s).2.next = h.next ∧
      (weak_ptr.ctor_shared h s).2.live = h.live ∧
      weak_ptr.use_count (weak_ptr.ctor_shared h s).2 (weak_ptr.ctor_shared h s).1 =
        shared_ptr.use_count (weak_ptr.ctor_shared h s).2 s ∧
      shared_ptr.use_count (weak_ptr.ctor_shared h s).2 s = shared_ptr.use_count h s ∧
      (weak_ptr.expired (weak_ptr.ctor_shared h s).2 (weak_ptr.ctor_shared h s).1 = false ↔
        h.strong s.blk ≠ 0)) ∧
    (State.init.never_wraps (ops ++ [Op.wp_shared src]) = true → stale_free ops = true →
      (State.init.run ops).shared src = some s → s.blk ≠ 0 →
      (State.init.run (ops ++ [Op.wp_shared src])).sp = (State.init.run ops).sp ∧
      (State.init.run (ops ++ [Op.wp_shared src])).weakv (State.init.run ops).wp.length =
        some { object := s.object, blk := s.blk } ∧
      (State.init.run (ops ++ [Op.wp_shared src])).heap =
        (weak_ptr.ctor_shared (State.init.run ops).heap s).2 ∧
      1 ≤ (State.init.run ops).heap.strong s.blk ∧
      (State.init.run (ops ++ [Op.wp_shared src])).heap.weak s.blk =
        (State.init.run ops).heap.weak s.blk + 1 ∧
      (State.init.run (ops ++ [Op.wp_shared src])).heap.strong s.blk =
        (State.init.run ops).heap.strong s.blk ∧
      weak_ptr.expired (State.init.run (ops ++ [Op.wp_shared src])).heap
        { object := s.object, blk := s.blk } = false ∧
      State.init.never_dangles (ops ++ [Op.wp_shared src]) = true) := by
  have e0 : s.blk ≠ 0 → weak_ptr.ctor_shared h s =
      ({ object := s.object, blk := s.blk }, h.inc_weak s.blk) := by
    intro hb
    simp [weak_ptr.ctor_shared, shared_ptr.toBool, hb]
  refine ⟨?_, ?_, ?_⟩
  · intro hb
    simp [weak_ptr.ctor_shared, shared_ptr.toBool, hb]
  · intro hb
    rw [e0 hb]
    have hst : (h.inc_weak s.blk).strong s.blk = h.strong s.blk := inc_weak_strong _ _ _
    have hst1 : ((h.inc_weak s.blk).blocks s.blk).strong = (h.blocks s.blk).strong := hst
    have hwk : (h.inc_weak s.blk).weak s.blk = wrap32 (h.weak s.blk + 1) := by
      rw [inc_weak_weak, if_pos rfl]
    refine ⟨rfl, hwk, ?_, hst, ?_, rfl, rfl, rfl, rfl, ?_, ?_, ?_⟩
    · intro hlo hhi
      show (h.inc_weak s.blk).weak s.blk = h.weak s.blk + 1
      rw [hwk]
      apply wrap32_of_range
      · unfold INT32_MIN at hlo ⊢
        omega
      · omega
    · intro b hne
      show (h.inc_weak s.blk).blocks b = h.blocks b
      simp [Heap.inc_weak, Function.update_noteq hne]
    · simp [weak_ptr.use_count, shared_ptr.use_count]
    · show shared_ptr.use_count (h.inc_weak s.blk) s = shared_ptr.use_count h s
      simp [shared_ptr.use_count, control_block.use_count, hb, hst1]
    · rw [expired_eq_false_iff]
      show s.blk ≠ 0 ∧ (h.inc_weak s.blk).strong s.blk ≠ 0 ↔ _
      rw [hst]
      exact ⟨fun hh => hh.2, fun hh => ⟨hb, hh⟩⟩
  · intro hw hc hs hb
    have hnd := run_never_dangles (ops ++ [Op.wp_shared src]) State.init init_counted hw
      (by rw [stale_free_append, hc]; rfl)
    rw [never_wraps_append, Bool.and_eq_true] at hw
    obtain ⟨hC, _⟩ := run_counted ops State.init init_counted hw.1 hc
    have hw2 : (State.init.run ops).wraps (Op.wp_shared src) = false := by
      have := hw.2
      rw [never_wraps_cons, Bool.and_eq_true] at this
      simpa using this.1
    have hrun : State.init.run (ops ++ [Op.wp_shared src]) =
        (State.init.run ops).step (Op.wp_shared src) := by
      rw [run_append]
      rfl
    rw [hrun]
    generalize State.init.run ops = σ at hs hC hw2 ⊢
    have e : σ.step (Op.wp_shared src) =
        { σ with heap := σ.heap.inc_weak s.blk,
                 wp := σ.wp ++ [some { object := s.object, blk := s.blk }] } := by
      simp [State.step, hs, weak_ptr.ctor_shared, shared_ptr.toBool, hb]
    simp only [State.wraps, hs] at hw2
    have hmax := wraps_elim hw2 hb
    have hpos := sp_on_pos σ.sp src s hs
    have hl := counted_live σ.heap _ _ hC s.blk hb (Or.inl hpos)
    obtain ⟨c1, _, _, c4, c5⟩ := hC.2.2 s.blk hl
    have hs1 : 1 ≤ σ.heap.strong s.blk := by
      have : (1 : Int) ≤ (σ.strong_refs s.blk : Int) := by
        exact_mod_cast hpos
      omega
    have hst : (σ.heap.inc_weak s.blk).strong s.blk = σ.heap.strong s.blk :=
      inc_weak_strong _ _ _
    have e1 : weak_ptr.ctor_shared σ.heap s =
        ({ object := s.object, blk := s.blk }, σ.heap.inc_weak s.blk) := by
      simp [weak_ptr.ctor_shared, shared_ptr.toBool, hb]
    rw [e, e1]
    refine ⟨rfl, getD_append_length _ _, rfl, hs1, ?_, hst, ?_, hnd⟩
    · show (σ.heap.inc_weak s.blk).weak s.blk = σ.heap.weak s.blk + 1
      rw [inc_weak_weak, if_pos rfl]
      apply wrap32_of_range
      · unfold INT32_MIN
        omega
      · have : σ.heap.weak s.blk < INT32_MAX := lt_of_le_of_ne c5 hmax
        omega
    · rw [expired_eq_false_iff]
      refine ⟨hb, ?_⟩
      show (σ.heap.inc_weak s.blk).strong s.blk ≠ 0
      rw [hst]
      omega

/-- Witness of `weak_from_shared_spec`: observing the only owner of a block. -/
theorem weak_from_shared_spec_witness :
    State.init.never_wraps ([Op.sp_raw 7 0] ++ [Op.wp_shared 0]) = true ∧
    (State.init.run [Op.sp_raw 7 0]).shared 0 = some { object := 7, blk := 1 } ∧
    (State.init.run ([Op.sp_raw 7 0] ++ [Op.wp_shared 0])).heap.weak 1 =
      (State.init.run [Op.sp_raw 7 0]).heap.weak 1 + 1 ∧
    weak_ptr.expired (State.init.run ([Op.sp_raw 7 0] ++ [Op.wp_shared 0])).heap
      { object := 7, blk := 1 } = false :=
  ⟨by decide, by decide,
   ((weak_from_shared_spec Heap.empty { object := 7, blk := 1 } [Op.sp_raw 7 0] 0).2.2
      (by decide) (by decide) (by decide) (by decide)).2.2.2.2.1,
   ((weak_from_shared_spec Heap.empty { object := 7, blk := 1 } [Op.sp_raw 7 0] 0).2.2
      (by decide) (by decide) (by decide) (by decide)).2.2.2.2.2.2.1⟩

theorem wrapped_spec :
    wrapped.shared 0 = some { object := 7, blk := 1 } ∧ wrapped.heap.strong 1 = 0 := by
  obtain ⟨h1, h2, _⟩ := copies_spec 4294967295
  refine ⟨h1, ?_⟩
  rw [show wrapped = copies 4294967295 from rfl, h2]
  decide

/-- On a heap whose block `1` has strong counter `0`, the weak handle constructed from a
strong handle on the block is expired. -/
theorem ctor_shared_at_zero (h : Heap) (hs : h.strong 1 = 0) :
    (weak_ptr.ctor_shared h { object := 7, blk := 1 }).1 = { object := 7, blk := 1 } ∧
    weak_ptr.use_count (weak_ptr.ctor_shared h { object := 7, blk := 1 }).2
      (weak_ptr.ctor_shared h { object := 7, blk := 1 }).1 = 0 ∧
    weak_ptr.expired (weak_ptr.ctor_shared h { object := 7, blk := 1 }).2
      (weak_ptr.ctor_shared h { object := 7, blk := 1 }).1 = true := by
  have e1 : weak_ptr.ctor_shared h { object := 7, blk := 1 } =
      ({ object := 7, blk := 1 }, h.inc_weak 1) := by
    simp [weak_ptr.ctor_shared, shared_ptr.toBool]
  have e2 : ((h.inc_weak 1).blocks 1).strong = 0 := by
    have := inc_weak_strong h 1 1
    rw [hs] at this
    exact this
  rw [e1]
  refine ⟨rfl, ?_, ?_⟩
  · simp [weak_ptr.use_count, control_block.use_count, e2]
  · simp [weak_ptr.expired, weak_ptr.use_count, control_block.use_count, e2]

/-- After `2^31 - 2` weak handles have been constructed from a strong handle, the weak
counter of its block is `INT32_MAX`. -/
theorem observed_saturated :
    (observed 2147483646).shared 0 = some { object := 7, blk := 1 } ∧
    (observed 2147483646).heap.weak 1 = 2147483647 := by
  obtain ⟨h1, h2, _⟩ := observed_spec 2147483646
  refine ⟨h1, ?_⟩
  rw [h2]
  decide

/-- C13 as stated fails: after `2^32 - 1` copies of a handle the handle is alive and
non-empty and the strong counter of its block has wrapped to `0`; the weak handle
constructed from it references its payload and block and is expired.  And after `2^31 - 2`
weak handles have been constructed from a live strong handle the weak counter of its
block is `2147483647`; constructing one more leaves the weak counter at `-2147483648`,
which is not an increase by one. -/
theorem weak_from_shared_expired :
    (wrapped.shared 0 = some { object := 7, blk := 1 } ∧
      (weak_ptr.ctor_shared wrapped.heap { object := 7, blk := 1 }).1 =
        { object := 7, blk := 1 } ∧
      weak_ptr.use_count (weak_ptr.ctor_shared wrapped.heap { object := 7, blk := 1 }).2
        (weak_ptr.ctor_shared wrapped.heap { object := 7, blk := 1 }).1 = 0 ∧
      weak_ptr.expired (weak_ptr.ctor_shared wrapped.heap { object := 7, blk := 1 }).2
        (weak_ptr.ctor_shared wrapped.heap { object := 7, blk := 1 }).1 = true) ∧
    ((observed 2147483646).shared 0 = some { object := 7, blk := 1 } ∧
      (observed 2147483646).heap.weak 1 = 2147483647 ∧
      (weak_ptr.ctor_shared (observed 2147483646).heap { object := 7, blk := 1 }).2.weak 1 =
        -2147483648) :=
  ⟨⟨wrapped_spec.1, ctor_shared_at_zero wrapped.heap wrapped_spec.2⟩,
   ⟨observed_saturated.1, observed_saturated.2,
    ctor_shared_at_int32_max (observed 2147483646).heap observed_saturated.2⟩⟩

theorem set_getD_self {α : Type} (l : List (Option α)) (i : Nat) (t : α)
    (h : l.getD i none = some t) : l.set i (some t) = l := by
  induction l generalizing i with
  | nil => simp at h
  | cons a tl ih =>
    cases i with
    | zero =>
      have ha : a = some t := by simpa using h
      rw [ha]
      rfl
    | succ i =>
      have h2 : tl.getD i none = some t := by simpa using h
      simp only [List.set_cons_succ, ih i h2]

/-- Releasing a unit of a block whose strong counter is an `int32_t` value other than `1`
and taking a unit of the same block gives back the heap. -/
theorem release_then_inc (h : Heap) (x : shared_ptr) (hb : x.blk ≠ 0)
    (hs : h.strong x.blk ≠ 1) (hlo : INT32_MIN ≤ h.strong x.blk)
    (hhi : h.strong x.blk ≤ INT32_MAX) :
    (shared_ptr.release_strong_ref h x).inc_strong x.blk = h := by
  rw [release_strong_ref_shared h x hb hs]
  have hback : wrap32 (wrap32 ((h.blocks x.blk).strong - 1) + 1) = (h.blocks x.blk).strong :=
    wrap32_succ_pred hlo hhi
  cases h with
  | mk blocks next dO dB =>
    simp only [Heap.dec_strong, Heap.inc_strong, control_block.inc_strong,
      control_block.dec_strong, Function.update_same, Function.update_idem] at hback ⊢
    simp only [hback]
    congr 1
    exact Function.update_eq_self _ _

/-! ## Copy-assignment between handles on one block -/

/-- Copy-assignment between two live handles on the same block in a state that satisfies
the counting invariant, the null invariant and the payload invariant changes nothing. -/
theorem assign_copy_same_block (σ : State) (dst src : Nat) (t o : shared_ptr)
    (hC : σ.counted) (hN : σ.null_inv False)
    (hP : ∃ f, σ.payload_of f) (hdst : σ.shared dst = some t) (hsrc : σ.shared src = some o)
    (hblk : t.blk = o.blk) :
    (σ.step (Op.sp_assign_copy dst src)).heap = σ.heap ∧
    (σ.step (Op.sp_assign_copy dst src)).sp = σ.sp ∧
    (σ.step (Op.sp_assign_copy dst src)).wp = σ.wp := by
  have hto : ({ object := o.object, blk := o.blk } : shared_ptr) = t := by
    have hobj : o.object = t.object := by
      by_cases hb : t.blk = 0
      · have h1 := (hN.2.1 t (mem_of_getD hdst)).1 hb
        have h2 := (hN.2.1 o (mem_of_getD hsrc)).1 (hblk ▸ hb)
        rw [h1, h2]
      · obtain ⟨f, hs, _⟩ := hP
        have h1 := hs t (mem_of_getD hdst) hb
        have h2 := hs o (mem_of_getD hsrc) (hblk ▸ hb)
        rw [h1, h2, hblk]
    cases t
    cases o
    simp_all
  by_cases hself : dst = src
  · subst hself
    have e : σ.step (Op.sp_assign_copy dst dst) = { σ with sp := σ.sp.set dst (some t) } := by
      simp [State.step, hdst, shared_ptr.assign_copy]
    rw [e]
    exact ⟨rfl, set_getD_self σ.sp dst t hdst, rfl⟩
  · by_cases hb : t.blk = 0
    · have hob : o.blk = 0 := hblk ▸ hb
      have e : σ.step (Op.sp_assign_copy dst src) =
          { σ with sp := σ.sp.set dst (some { object := o.object, blk := o.blk }) } := by
        simp [State.step, hdst, hsrc, shared_ptr.assign_copy, hself, hob,
          release_strong_ref_null σ.heap t hb]
      rw [e, hto]
      exact ⟨rfl, set_getD_self σ.sp dst t hdst, rfl⟩
    · have hob : o.blk ≠ 0 := hblk ▸ hb
      have h2 : 2 ≤ σ.sp.countP (State.sp_on t.blk) :=
        two_refs σ.sp dst src t o t.blk hself hdst hsrc rfl hblk.symm
      have hl := counted_live σ.heap _ _ hC t.blk hb (Or.inl (by
        show 1 ≤ σ.sp.countP (State.sp_on t.blk)
        omega))
      obtain ⟨h1, h3, _⟩ := hC.2.2 t.blk hl
      simp only [State.strong_refs] at h1
      have hheap : (shared_ptr.release_strong_ref σ.heap t).inc_strong o.blk = σ.heap := by
        rw [← hblk]
        apply release_then_inc σ.heap t hb
        · omega
        · unfold INT32_MIN
          omega
        · exact h3
      have e : σ.step (Op.sp_assign_copy dst src) =
          { σ with heap := (shared_ptr.release_strong_ref σ.heap t).inc_strong o.blk,
                   sp := σ.sp.set dst (some { object := o.object, blk := o.blk }) } := by
        simp [State.step, hdst, hsrc, shared_ptr.assign_copy, hself, hob]
      rw [e, hto, hheap]
      exact ⟨rfl, set_getD_self σ.sp dst t hdst, rfl⟩

/-- C12 (as amended): copy-assigning a live strong handle from itself changes nothing, in
every state.  And in a state reached by handle operations none of which increments a
counter that holds `INT32_MAX`, and with no weak copy construction that starts from
non-null fields, copy-assigning a live strong handle from a live source that references
the same control block, the target itself or another variable, changes nothing: the heap
(every counter, both deletion logs, the allocator) and all handle variables are as
before, so the target still holds its payload pointer and block.  Neither the run nor the
assignment uses a block after it has been freed. -/
theorem copy_assign_same_block (σ : State) (ops : List Op) (dst src : Nat)
    (t o : shared_ptr) :
    (σ.shared dst = some t →
      (σ.step (Op.sp_assign_copy dst dst)).heap = σ.heap ∧
      (σ.step (Op.sp_assign_copy dst dst)).sp = σ.sp ∧
      (σ.step (Op.sp_assign_copy dst dst)).wp = σ.wp) ∧
    (State.init.never_wraps ops = true → stale_free ops = true →
      (State.init.run ops).shared dst = some t →
      (State.init.run ops).shared src = some o → t.blk = o.blk →
      ((State.init.run ops).step (Op.sp_assign_copy dst src)).heap = (State.init.run ops).heap ∧
      ((State.init.run ops).step (Op.sp_assign_copy dst src)).sp = (State.init.run ops).sp ∧
      ((State.init.run ops).step (Op.sp_assign_copy dst src)).wp = (State.init.run ops).wp ∧
      ((State.init.run ops).step (Op.sp_assign_copy dst src)).shared dst = some t ∧
      ((State.init.run ops).step (Op.sp_assign_copy dst src)).heap.strong t.blk =
        (State.init.run ops).heap.strong t.blk ∧
      ((State.init.run ops).step (Op.sp_assign_copy dst src)).heap.weak t.blk =
        (State.init.run ops).heap.weak t.blk ∧
      ((State.init.run ops).step (Op.sp_assign_copy dst src)).payload_deletes t.object =
        (State.init.run ops).payload_deletes t.object ∧
      State.init.never_dangles ops = true ∧
      (State.init.run ops).dangles (Op.sp_assign_copy dst src) = false) := by
  constructor
  · intro hdst
    have e : σ.step (Op.sp_assign_copy dst dst) = { σ with sp := σ.sp.set dst (some t) } := by
      simp [State.step, hdst, shared_ptr.assign_copy]
    rw [e]
    exact ⟨rfl, set_getD_self σ.sp dst t hdst, rfl⟩
  · intro hw hc hdst hsrc hblk
    have hC := (run_counted ops State.init init_counted hw hc).1
    have hN := run_null_inv False ops State.init (init_null_inv False)
      (fun _ _ _ hq => absurd hq id)
    have hP := run_payload_of ops State.init init_counted hw hc init_payload_of
    obtain ⟨e1, e2, e3⟩ := assign_copy_same_block (State.init.run ops) dst src
      t o hC hN hP hdst hsrc hblk
    refine ⟨e1, e2, e3, ?_, ?_, ?_, ?_, run_never_dangles ops State.init init_counted hw hc,
      step_never_dangles _ _ hC rfl⟩
    · simp only [State.shared, e2]
      exact hdst
    · rw [e1]
    · rw [e1]
    · simp only [State.payload_deletes, e1]

/-- Witness of `copy_assign_same_block`: two owners of one block. -/
theorem copy_assign_same_block_witness :
    State.init.never_wraps [Op.sp_raw 7 0, Op.sp_copy 0] = true ∧
    (State.init.run [Op.sp_raw 7 0, Op.sp_copy 0]).shared 1 = some { object := 7, blk := 1 } ∧
    (State.init.run [Op.sp_raw 7 0, Op.sp_copy 0]).shared 0 = some { object := 7, blk := 1 } ∧
    ((State.init.run [Op.sp_raw 7 0, Op.sp_copy 0]).step (Op.sp_assign_copy 1 0)).heap =
      (State.init.run [Op.sp_raw 7 0, Op.sp_copy 0]).heap :=
  ⟨by decide, by decide, by decide,
   ((copy_assign_same_block State.init [Op.sp_raw 7 0, Op.sp_copy 0] 1 0
      { object := 7, blk := 1 } { object := 7, blk := 1 }).2 (by decide) (by decide)
      (by decide) (by decide) rfl).1⟩

theorem copies_shared_one (n : Nat) (hn : 1 ≤ n) :
    (copies n).shared 1 = some { object := 7, blk := 1 } := by
  obtain ⟨_, _, _, h4, _⟩ := copies_spec n
  cases n with
  | zero => omega
  | succ m =>
    simp only [State.shared, h4, List.replicate_succ]
    rfl

theorem rewrapped_spec :
    rewrapped.shared 0 = some { object := 7, blk := 1 } ∧
    rewrapped.shared 1 = some { object := 7, blk := 1 } ∧
    rewrapped.heap.strong 1 = 1 ∧ rewrapped.heap.weak 1 = 1 ∧
    rewrapped.heap.deletedObj = [] ∧ rewrapped.heap.deletedBlk = [] := by
  obtain ⟨h1, h2, h3, _, _, h6, h7⟩ := copies_spec 4294967296
  refine ⟨h1, copies_shared_one 4294967296 (by norm_num), ?_, h3, h6, h7⟩
  rw [show rewrapped = copies 4294967296 from rfl, h2]
  decide

/-- In a state whose variables `0` and `1` hold handles on block `1` while the strong and
the weak counter of the block are `1`, copy-assigning variable `0` onto variable `1`
deletes the payload and the block. -/
theorem assign_copy_at_one (σ : State)
    (h0 : σ.shared 0 = some { object := 7, blk := 1 })
    (h1 : σ.shared 1 = some { object := 7, blk := 1 })
    (hs : σ.heap.strong 1 = 1) (hw : σ.heap.weak 1 = 1)
    (hdo : σ.heap.deletedObj = []) (hdb : σ.heap.deletedBlk = []) :
    (σ.step (Op.sp_assign_copy 1 0)).heap.deletedObj = [7] ∧
    (σ.step (Op.sp_assign_copy 1 0)).heap.deletedBlk = [1] ∧
    (σ.step (Op.sp_assign_copy 1 0)).heap.weak 1 = 0 := by
  have e : σ.step (Op.sp_assign_copy 1 0) =
      { σ with heap := (shared_ptr.release_strong_ref σ.heap { object := 7, blk := 1 }).inc_strong 1,
               sp := σ.sp.set 1 (some { object := 7, blk := 1 }) } := by
    simp [State.step, h0, h1, shared_ptr.assign_copy]
  have hs1 : σ.heap.strong ({ object := 7, blk := 1 } : shared_ptr).blk = 1 := hs
  have hw1 : σ.heap.weak ({ object := 7, blk := 1 } : shared_ptr).blk = 1 := hw
  have r := release_strong_ref_last σ.heap { object := 7, blk := 1 } (by decide) hs1
  rw [if_pos hw1] at r
  have d1 := dec_strong_facts σ.heap 1
  have d2 := delete_object_facts (σ.heap.dec_strong 1).2 7
  have d3 := dec_weak_facts ((σ.heap.dec_strong 1).2.delete_object 7) 1
  have hwk : ((σ.heap.dec_strong 1).2.delete_object 7).weak 1 = 1 := by
    have : ((σ.heap.dec_strong 1).2.delete_object 7).weak 1 = (σ.heap.dec_strong 1).2.weak 1 := by
      simp only [Heap.weak, d2.1]
    rw [this, d1.2.1, hw]
  rw [e]
  refine ⟨?_, ?_, ?_⟩
  · show (shared_ptr.release_strong_ref σ.heap { object := 7, blk := 1 }).deletedObj = [7]
    rw [r]
    show (((σ.heap.dec_strong 1).2.delete_object 7).dec_weak 1).2.deletedObj = [7]
    rw [d3.2.2.2.1, d2.2.1, d1.2.2.2.1, hdo]
    rfl
  · show (shared_ptr.release_strong_ref σ.heap { object := 7, blk := 1 }).deletedBlk = [1]
    rw [r]
    show 1 :: (((σ.heap.dec_strong 1).2.delete_object 7).dec_weak 1).2.deletedBlk = [1]
    rw [d3.2.2.2.2.1, d2.2.2.1, d1.2.2.2.2.1, hdb]
  · show ((shared_ptr.release_strong_ref σ.heap { object := 7, blk := 1 }).inc_strong 1).weak 1
      = 0
    rw [inc_strong_weak, r]
    show (((σ.heap.dec_strong 1).2.delete_object 7).dec_weak 1).2.weak 1 = 0
    rw [d3.1, hwk]
    decide

/-- C12 as stated fails: after `2^32` copies of a handle, variables `0` and `1` hold live
handles on block `1`, the strong counter of the block has wrapped to `1` and nothing has
been deleted; copy-assigning variable `0` onto variable `1` deletes the payload and the
block and takes the weak counter from `1` to `0`. -/
theorem copy_assign_destroys_after_wrap :
    rewrapped.shared 0 = some { object := 7, blk := 1 } ∧
    rewrapped.shared 1 = some { object := 7, blk := 1 } ∧
    rewrapped.heap.strong 1 = 1 ∧ rewrapped.heap.weak 1 = 1 ∧
    rewrapped.heap.deletedObj = [] ∧
    (rewrapped.step (Op.sp_assign_copy 1 0)).heap.deletedObj = [7] ∧
    (rewrapped.step (Op.sp_assign_copy 1 0)).heap.deletedBlk = [1] ∧
    (rewrapped.step (Op.sp_assign_copy 1 0)).heap.weak 1 = 0 :=
  ⟨rewrapped_spec.1, rewrapped_spec.2.1, rewrapped_spec.2.2.1, rewrapped_spec.2.2.2.1,
   rewrapped_spec.2.2.2.2.1,
   assign_copy_at_one rewrapped rewrapped_spec.1 rewrapped_spec.2.1 rewrapped_spec.2.2.1
     rewrapped_spec.2.2.2.1 rewrapped_spec.2.2.2.2.1 rewrapped_spec.2.2.2.2.2⟩

end SharedPtr
